import Mathlib

/-!
# vsrawsource: raw format reader

A shallow embedding of `rawsource.c` (the YUV4MPEG2 header reader, the format
resolver, the frame indexer and the frame-pull entry point) and machine-checked
statements about it.

Conventions of the embedding

* A byte is a `Nat` below 256 and a C string is the list of its bytes up to, and
  without, the terminating NUL.  `str` turns a literal into such a list.
* `int`, `uint32_t` and `int64_t` are `Int` values; wrap-around is written out
  with `wrap_i32`, `wrap_u32` and `wrap_i64` (two's complement).
* `Exec` records how a run ends: `ret` is an ordinary result, `undefined` is a run
  that leaves defined C behaviour (a read or write outside an array, a
  conversion whose result does not fit its object, a division by zero) and
  `nofuel` is a loop model that ran out of steps.
-/

namespace RawSource

/-! ## Execution outcomes and machine integers -/

/-- How a run of a C function ends. -/
inductive Exec (α : Type) where
  | ret (a : α) : Exec α
  | undefined : Exec α
  | nofuel : Exec α
deriving DecidableEq, Repr

/-- Sequencing of runs: the continuation runs only after an ordinary result. -/
def Exec.bind {α β : Type} (x : Exec α) (f : α → Exec β) : Exec β :=
  match x with
  | .ret a => f a
  | .undefined => .undefined
  | .nofuel => .nofuel

/-- Conversion to `uint32_t`. -/
def wrap_u32 (x : Int) : Int := x % 4294967296

/-- Conversion to `int` (32 bit, two's complement). -/
def wrap_i32 (x : Int) : Int := (x + 2147483648) % 4294967296 - 2147483648

/-- Conversion to `int64_t` (two's complement). -/
def wrap_i64 (x : Int) : Int :=
  (x + 9223372036854775808) % 18446744073709551616 - 9223372036854775808

/-- The bytes of a string literal. -/
def str (s : String) : List Nat := s.toList.map Char.toNat

/-! ## Data model -/

/-- The preset identifiers of `VapourSynth.h` that the format table names;
`pfNone` is the value 0. -/
inductive VSPresetFormat where
  | pfNone
  | pfGray8 | pfGray16
  | pfYUV420P8 | pfYUV422P8 | pfYUV444P8 | pfYUV410P8 | pfYUV411P8 | pfYUV440P8
  | pfYUV420P9 | pfYUV422P9 | pfYUV444P9
  | pfYUV420P10 | pfYUV422P10 | pfYUV444P10
  | pfYUV420P16 | pfYUV422P16 | pfYUV444P16
  | pfRGB24 | pfRGB27 | pfRGB30 | pfRGB48
deriving DecidableEq, Repr

/-- The frame writers a format can be bound to (the `write_frame` function
pointer); `null` is the zeroed pointer. -/
inductive WriteFrame where
  | null
  | write_planar_frame
  | write_nvxx_frame
  | write_px1x_frame
  | write_packed_rgb24
  | write_packed_rgb48
  | write_packed_rgb32
  | write_packed_yuv422
deriving DecidableEq, Repr

/-- The members of `VSVideoInfo` (`VapourSynth.h`) the reader uses: `fpsNum` and
`fpsDen` are `int64_t`, `width`, `height` and `numFrames` are `int`; `format` holds
the preset the format pointer was obtained from. -/
structure VSVideoInfo where
  format : VSPresetFormat
  fpsNum : Int
  fpsDen : Int
  width : Int
  height : Int
  numFrames : Int
deriving DecidableEq, Repr

/-- The handle `rs_hnd_t`.  `file` is the content of the open file; the scratch
buffer `frame_buff` is not part of the state. -/
structure rs_hnd_t where
  file : List Nat
  file_size : Int
  frame_size : Int
  src_format : List Nat
  order : List Int
  off_header : Int
  off_frame : Int
  index : List Int
  write_frame : WriteFrame
  vi : VSVideoInfo
deriving DecidableEq, Repr

/-- A handle as `calloc` returns it: every field zero. -/
def rs_hnd_zero : rs_hnd_t :=
  { file := [], file_size := 0, frame_size := 0, src_format := [],
    order := [0, 0, 0, 0], off_header := 0, off_frame := 0, index := [],
    write_frame := .null,
    vi := { format := .pfNone, fpsNum := 0, fpsDen := 0, width := 0, height := 0,
            numFrames := 0 } }

/-! ## create_index -/

/-- The loop of `create_index`: `n` offsets starting from the running position
`pos` (an `int64_t`). -/
def create_index_loop (off_frame frame_size : Int) : Nat → Int → List Int
  | 0, _ => []
  | n + 1, pos =>
    let pos1 := wrap_i64 (pos + off_frame)
    pos1 :: create_index_loop off_frame frame_size n (wrap_i64 (pos1 + frame_size))

/-- The function `create_index`.  The allocation of `num_frames` slots fails, and
the function returns -1, when the count is negative (the byte count is then
above any allocatable size); otherwise the index is filled and stored. -/
def create_index (rh : rs_hnd_t) : Int × rs_hnd_t :=
  let num_frames := rh.vi.numFrames
  if num_frames < 0 then (-1, rh)
  else
    (0, { rh with index :=
            create_index_loop rh.off_frame rh.frame_size num_frames.toNat rh.off_header })

/-! ## C library functions on strings -/

/-- The function `isspace` in the C locale. -/
def isspace (c : Nat) : Bool := c == 32 || (9 ≤ c && c ≤ 13)

/-- The function `isdigit`. -/
def isdigit (c : Nat) : Bool := 48 ≤ c && c ≤ 57

/-- Octal digits. -/
def isodigit (c : Nat) : Bool := 48 ≤ c && c ≤ 55

/-- The function `isxdigit`. -/
def isxdigit (c : Nat) : Bool :=
  (48 ≤ c && c ≤ 57) || (65 ≤ c && c ≤ 70) || (97 ≤ c && c ≤ 102)

/-- The function `tolower` in the C locale. -/
def tolower (c : Nat) : Nat := if 65 ≤ c ∧ c ≤ 90 then c + 32 else c

/-- The test `strcasecmp(a, b) == 0` on two C strings. -/
def strcasecmp_eq (a b : List Nat) : Bool := a.map tolower == b.map tolower

/-- The test `strncmp(s, lit, strlen(lit)) == 0`, where `s` is what is left of an
array from some position on and `lit` is a literal without NUL.  Bytes are
compared one by one up to the first difference; needing a byte after the end of
the array is `undefined`. -/
def strncmp_eq : List Nat → List Nat → Exec Bool
  | _, [] => .ret true
  | [], _ :: _ => .undefined
  | c :: s, l :: ls => if c = l then strncmp_eq s ls else .ret false

/-- Skipping of white space by a `scanf` directive. -/
def skip_space : List Nat → Exec (List Nat)
  | [] => .undefined
  | c :: s => if isspace c then skip_space s else .ret (c :: s)

/-- The longest run of bytes satisfying `p` at the head of `s`, with what
follows it.  The byte that ends the run has to be read, so a run that reaches the
end of the array is `undefined`. -/
def scan_run (p : Nat → Bool) (s : List Nat) : Exec (List Nat × List Nat) :=
  match s.dropWhile p with
  | [] => .undefined
  | c :: r => .ret (s.takeWhile p, c :: r)

/-- Value of one digit character in bases up to 16. -/
def digit_val (c : Nat) : Nat :=
  if 48 ≤ c ∧ c ≤ 57 then c - 48
  else if 65 ≤ c ∧ c ≤ 70 then c - 55
  else if 97 ≤ c ∧ c ≤ 102 then c - 87
  else 0

/-- Value of a digit string in base `b`. -/
def digits_val (b : Nat) (ds : List Nat) : Nat :=
  ds.foldl (fun a c => a * b + digit_val c) 0

/-- An optional sign at the head of an input item: whether it is a minus sign,
and the rest. -/
def scan_sign (s : List Nat) : Bool × List Nat :=
  if s.head? = some 45 then (true, s.tail)
  else if s.head? = some 43 then (false, s.tail)
  else (false, s)

/-- The signed value of a magnitude. -/
def signed (neg : Bool) (v : Nat) : Int := if neg then -(v : Int) else (v : Int)

/-- The call `sscanf(s, "%d", &v)` into an `int`: white space, an optional sign,
decimal digits.  The result is the value stored, or `none` when nothing is
stored (no digit found).  The first argument of `sscanf` has to be a string: when
the array holds no NUL byte from `s` on, the call is `undefined`.  A value that
does not fit an `int` is `undefined`. -/
def sscanf_d (s : List Nat) : Exec (Option Int) :=
  if 0 ∈ s then
    (skip_space s).bind fun t =>
    (scan_run isdigit (scan_sign t).2).bind fun r =>
    if r.1 = [] then .ret none
    else
      let v := signed (scan_sign t).1 (digits_val 10 r.1)
      if -2147483648 ≤ v ∧ v < 2147483648 then .ret (some v) else .undefined
  else .undefined

/-- The digits of a `%i` item after the sign: `0x` or `0X` starts a hexadecimal
number, another leading `0` an octal one, anything else a decimal one.  Returns
the base, the digits and the rest. -/
def scan_based (s : List Nat) : Exec (Nat × List Nat × List Nat) :=
  if s.head? = some 48 then
    if s.tail.head? = some 120 ∨ s.tail.head? = some 88 then
      (scan_run isxdigit (s.drop 2)).bind fun r => .ret (16, r.1, r.2)
    else (scan_run isodigit s).bind fun r => .ret (8, r.1, r.2)
  else (scan_run isdigit s).bind fun r => .ret (10, r.1, r.2)

/-- The conversion `%lli` (`SCNi64`) into an `int64_t`: the value stored, if any,
and the rest of the input.  A value that does not fit is `undefined`. -/
def scan_i64 (s : List Nat) : Exec (Option Int × List Nat) :=
  (skip_space s).bind fun t =>
  (scan_based (scan_sign t).2).bind fun r =>
  if r.2.1 = [] then .ret (none, r.2.2)
  else
    let v := signed (scan_sign t).1 (digits_val r.1 r.2.1)
    if -9223372036854775808 ≤ v ∧ v < 9223372036854775808 then .ret (some v, r.2.2)
    else .undefined

/-- The call `sscanf(s, "%lli:%lli", &a, &b)`: the values stored in `a` and in
`b`, if any.  The second conversion runs only after a first value and a colon.
The first argument of `sscanf` has to be a string: when the array holds no NUL byte
from `s` on, the call is `undefined`. -/
def sscanf_i64_colon_i64 (s : List Nat) : Exec (Option Int × Option Int) :=
  if 0 ∈ s then
    (scan_i64 s).bind fun r =>
    match r.1, r.2 with
    | none, _ => .ret (none, none)
    | some a, 58 :: t => (scan_i64 t).bind fun q => .ret (some a, q.1)
    | some a, _ => .ret (some a, none)
  else .undefined

/-- The call `sscanf(s, "%s", ctag)` into `char ctag[32]`: the string stored, or
`none` when the input ends before any byte of the item.  The first argument of
`sscanf` has to be a string: when the array holds no NUL byte from `s` on, the call
is `undefined`.  An item of 32 bytes or more overruns the array `ctag` and is
`undefined`. -/
def sscanf_s (s : List Nat) : Exec (Option (List Nat)) :=
  if 0 ∈ s then
    (skip_space s).bind fun t =>
    (scan_run (fun c => !isspace c && c != 0) t).bind fun r =>
    if r.1 = [] then .ret none
    else if r.1.length < 32 then .ret (some r.1) else .undefined
  else .undefined

/-! ## The YUV4MPEG2 header reader -/

/-- The table of `get_format` without its last row. -/
def get_format_table : List (String × String) :=
  [ ("420jpeg",  "YUV420P8"),
    ("420mpeg2", "YUV420P8"),
    ("420paldv", "YUV420P8"),
    ("420p9",    "YUV420P9"),
    ("420p10",   "YUV420P10"),
    ("420p16",   "YUV420P16"),
    ("411",      "YUV411P8"),
    ("422",      "YUV422P8"),
    ("422p9",    "YUV422P9"),
    ("422p10",   "YUV422P10"),
    ("422p16",   "YUV422P16"),
    ("444",      "YUV444P8"),
    ("444p9",    "YUV444P9"),
    ("444p10",   "YUV444P10"),
    ("444p16",   "YUV444P16"),
    ("444alpha", "YUV444P8A") ]

/-- The search loop of `get_format`: the format of the first row whose tag equals
`ctag` ignoring case; running past the last row is `undefined`. -/
def get_format_loop (ctag : List Nat) : List (List Nat × List Nat) → Exec (List Nat)
  | [] => .undefined
  | row :: rows =>
    if strcasecmp_eq ctag row.1 then .ret row.2 else get_format_loop ctag rows

/-- The function `get_format`: the table ends with the row `{ ctag, "YUV420P8" }`. -/
def get_format (ctag : List Nat) : Exec (List Nat) :=
  get_format_loop ctag
    (get_format_table.map (fun r => (str r.1, str r.2)) ++ [(ctag, str "YUV420P8")])

/-- The array `buff` after `fread(buff, 1, 256, file)`: the first 256 bytes of the
file, then the zeros the array was initialised with. -/
def fread256 (file : List Nat) : List Nat :=
  file.take 256 ++ List.replicate (256 - file.length) 0

/-- The variables of the scan loop of `check_y4m`. -/
structure Y4mState where
  i : Nat
  rh : rs_hnd_t
  ctag : List Nat
deriving DecidableEq, Repr

/-- What a block of the loop body does next: leave `check_y4m` with a return
code, or go on. -/
inductive Flow where
  | leave (code : Int) (rh : rs_hnd_t)
  | next (st : Y4mState)
deriving DecidableEq, Repr

/-- The block for the tag ` W` (macro `PARSE_HEADER`). -/
def y4m_tag_W (buff : List Nat) (st : Y4mState) : Exec Flow :=
  (strncmp_eq (buff.drop st.i) (str " W")).bind fun m =>
  if m then
    (sscanf_d (buff.drop (st.i + 2))).bind fun v =>
    let rh : rs_hnd_t := match v with
      | some w => { st.rh with vi := { st.rh.vi with width := w } }
      | none => st.rh
    if rh.vi.width < 1 then .ret (.leave (-1) rh)
    else .ret (.next { st with i := st.i + 2, rh := rh })
  else .ret (.next st)

/-- The block for the tag ` H` (macro `PARSE_HEADER`). -/
def y4m_tag_H (buff : List Nat) (st : Y4mState) : Exec Flow :=
  (strncmp_eq (buff.drop st.i) (str " H")).bind fun m =>
  if m then
    (sscanf_d (buff.drop (st.i + 2))).bind fun v =>
    let rh : rs_hnd_t := match v with
      | some h => { st.rh with vi := { st.rh.vi with height := h } }
      | none => st.rh
    if rh.vi.height < 1 then .ret (.leave (-1) rh)
    else .ret (.next { st with i := st.i + 2, rh := rh })
  else .ret (.next st)

/-- The block for the tag ` F`. -/
def y4m_tag_F (buff : List Nat) (st : Y4mState) : Exec Flow :=
  (strncmp_eq (buff.drop st.i) (str " F")).bind fun m =>
  if m then
    (sscanf_i64_colon_i64 (buff.drop (st.i + 2))).bind fun v =>
    let vi1 := match v.1 with
      | some n => { st.rh.vi with fpsNum := n }
      | none => st.rh.vi
    let vi2 := match v.2 with
      | some d => { vi1 with fpsDen := d }
      | none => vi1
    let rh : rs_hnd_t := { st.rh with vi := vi2 }
    if rh.vi.fpsNum < 1 ∨ rh.vi.fpsDen < 1 then .ret (.leave (-1) rh)
    else .ret (.next { st with i := st.i + 2, rh := rh })
  else .ret (.next st)

/-- The block for the tag ` I`. -/
def y4m_tag_I (buff : List Nat) (st : Y4mState) : Exec Flow :=
  (strncmp_eq (buff.drop st.i) (str " I")).bind fun m =>
  if m then
    match buff.drop (st.i + 2) with
    | [] => .undefined
    | c :: _ =>
      if c = 109 then .ret (.leave (-2) st.rh)
      else .ret (.next { st with i := st.i + 2 })
  else .ret (.next st)

/-- The block for the tag ` C`. -/
def y4m_tag_C (buff : List Nat) (st : Y4mState) : Exec Flow :=
  (strncmp_eq (buff.drop st.i) (str " C")).bind fun m =>
  if m then
    (sscanf_s (buff.drop (st.i + 2))).bind fun v =>
    let ctag := match v with
      | some t => t
      | none => st.ctag
    (get_format ctag).bind fun f =>
    .ret (.next { i := st.i + 2, rh := { st.rh with src_format := f }, ctag := ctag })
  else .ret (.next st)

/-- The block `if (i == sizeof buff - 1) return -2;`. -/
def y4m_end_check (st : Y4mState) : Exec Flow :=
  if st.i = 255 then .ret (.leave (-2) st.rh) else .ret (.next st)

/-- Run the next block unless the previous one left the function. -/
def Flow.andThen (x : Exec Flow) (f : Y4mState → Exec Flow) : Exec Flow :=
  x.bind fun fl =>
  match fl with
  | .leave code rh => .ret (.leave code rh)
  | .next st => f st

/-- The body of the scan loop of `check_y4m`. -/
def y4m_body (buff : List Nat) (st : Y4mState) : Exec Flow :=
  Flow.andThen (Flow.andThen (Flow.andThen (Flow.andThen (Flow.andThen
    (y4m_tag_W buff st) (y4m_tag_H buff)) (y4m_tag_F buff)) (y4m_tag_I buff))
    (y4m_tag_C buff)) y4m_end_check

/-- The part of `check_y4m` after the scan loop, entered with `i` at the newline
that ended the header line. -/
def y4m_after (buff : List Nat) (st : Y4mState) : Exec (Int × rs_hnd_t) :=
  let i := st.i + 1
  let rh : rs_hnd_t := { st.rh with off_header := (i : Int) }
  (strncmp_eq (buff.drop i) (str "FRAME\n")).bind fun m =>
  if !m then .ret (-2, rh)
  else
    let rh : rs_hnd_t := { rh with off_frame := 6 }
    if rh.src_format.length = 0 then .ret (0, { rh with src_format := str "YUV420P8" })
    else .ret (0, rh)

/-- The scan loop `for (i = sh_length; buff[i] != '\n'; i++)` of `check_y4m`,
with a bound on the number of iterations. -/
def y4m_loop (buff : List Nat) : Nat → Y4mState → Exec (Int × rs_hnd_t)
  | 0, _ => .nofuel
  | fuel + 1, st =>
    match buff.drop st.i with
    | [] => .undefined
    | c :: _ =>
      if c = 10 then y4m_after buff st
      else
        (y4m_body buff st).bind fun fl =>
        match fl with
        | .leave code rh => .ret (code, rh)
        | .next st2 => y4m_loop buff fuel { st2 with i := st2.i + 1 }

/-- The function `check_y4m`: the return code and the handle as it leaves it.
Every iteration of the scan loop advances `i`, and a read at `i = 256` is outside
`buff`, so 257 iterations are never used up. -/
def check_y4m (rh : rs_hnd_t) : Exec (Int × rs_hnd_t) :=
  let buff := fread256 rh.file
  (strncmp_eq buff (str "YUV4MPEG2")).bind fun m =>
  if !m then .ret (1, rh)
  else y4m_loop buff 257 { i := 9, rh := rh, ctag := [] }

/-! ## The format resolver -/

/-- A row of the format table of `check_args`. -/
structure FormatEntry where
  format_name : List Nat
  subsample_h : Int
  subsample_v : Int
  bits_per_pix : Int
  order : List Int
  vsformat : VSPresetFormat
  func : WriteFrame
deriving DecidableEq, Repr

/-- One row, written as in the source. -/
def FormatEntry.row (name : String) (sh sv bpp : Int) (order : List Int)
    (vsformat : VSPresetFormat) (func : WriteFrame) : FormatEntry :=
  { format_name := str name, subsample_h := sh, subsample_v := sv, bits_per_pix := bpp,
    order := order, vsformat := vsformat, func := func }

/-- The format table of `check_args` without its last row. -/
def format_table : List FormatEntry :=
  [ .row "i420"      2 2 12 [0, 1, 2, 9] .pfYUV420P8  .write_planar_frame,
    .row "IYUV"      2 2 12 [0, 1, 2, 9] .pfYUV420P8  .write_planar_frame,
    .row "YV12"      2 2 12 [0, 2, 1, 9] .pfYUV420P8  .write_planar_frame,
    .row "YUV420P8"  2 2 12 [0, 1, 2, 9] .pfYUV420P8  .write_planar_frame,
    .row "i422"      2 1 16 [0, 1, 2, 9] .pfYUV422P8  .write_planar_frame,
    .row "YV16"      2 1 16 [0, 2, 1, 9] .pfYUV422P8  .write_planar_frame,
    .row "YUV422P8"  2 1 16 [0, 1, 2, 9] .pfYUV422P8  .write_planar_frame,
    .row "i444"      1 1 24 [0, 1, 2, 9] .pfYUV444P8  .write_planar_frame,
    .row "YV24"      1 1 24 [0, 2, 1, 9] .pfYUV444P8  .write_planar_frame,
    .row "YUV444P8"  1 1 24 [0, 1, 2, 9] .pfYUV444P8  .write_planar_frame,
    .row "Y8"        1 1  8 [0, 9, 9, 9] .pfGray8     .write_planar_frame,
    .row "Y800"      1 1  8 [0, 9, 9, 9] .pfGray8     .write_planar_frame,
    .row "GRAY"      1 1  8 [0, 9, 9, 9] .pfGray8     .write_planar_frame,
    .row "GRAY16"    1 1 16 [0, 9, 9, 9] .pfGray16    .write_planar_frame,
    .row "YV411"     4 1 12 [0, 2, 1, 9] .pfYUV444P8  .write_planar_frame,
    .row "YUV411P8"  4 1 12 [0, 1, 2, 9] .pfYUV411P8  .write_planar_frame,
    .row "YUV9"      4 4  9 [0, 1, 2, 9] .pfYUV410P8  .write_planar_frame,
    .row "YVU9"      4 4  9 [0, 2, 1, 9] .pfYUV410P8  .write_planar_frame,
    .row "YUV410P8"  4 4  9 [0, 1, 2, 9] .pfYUV410P8  .write_planar_frame,
    .row "YUV440P8"  1 2 16 [0, 1, 2, 9] .pfYUV440P8  .write_planar_frame,
    .row "YUV420P9"  2 2 24 [0, 1, 2, 9] .pfYUV420P9  .write_planar_frame,
    .row "YUV420P10" 2 2 24 [0, 1, 2, 9] .pfYUV420P10 .write_planar_frame,
    .row "YUV420P16" 2 2 24 [0, 1, 2, 9] .pfYUV420P16 .write_planar_frame,
    .row "YUV422P9"  2 2 32 [0, 1, 2, 9] .pfYUV422P9  .write_planar_frame,
    .row "YUV422P10" 2 2 32 [0, 1, 2, 9] .pfYUV422P10 .write_planar_frame,
    .row "YUV422P16" 2 2 32 [0, 1, 2, 9] .pfYUV422P16 .write_planar_frame,
    .row "YUV444P9"  2 2 48 [0, 1, 2, 9] .pfYUV444P9  .write_planar_frame,
    .row "YUV444P10" 2 2 48 [0, 1, 2, 9] .pfYUV444P10 .write_planar_frame,
    .row "YUV444P16" 2 2 48 [0, 1, 2, 9] .pfYUV444P16 .write_planar_frame,
    .row "YUV444P8A" 1 1 32 [0, 1, 2, 9] .pfYUV444P8  .write_planar_frame,
    .row "YUY2"      2 1 16 [0, 1, 0, 2] .pfYUV422P8  .write_packed_yuv422,
    .row "YUYV"      2 1 16 [0, 1, 0, 2] .pfYUV422P8  .write_packed_yuv422,
    .row "UYVY"      2 1 16 [1, 0, 2, 0] .pfYUV422P8  .write_packed_yuv422,
    .row "YVYU"      2 1 16 [0, 1, 0, 2] .pfYUV422P8  .write_packed_yuv422,
    .row "VYUY"      2 1 16 [2, 0, 1, 0] .pfYUV422P8  .write_packed_yuv422,
    .row "BGR"       1 1 24 [2, 1, 0, 9] .pfRGB24     .write_packed_rgb24,
    .row "RGB"       1 1 24 [0, 1, 2, 9] .pfRGB24     .write_packed_rgb24,
    .row "BGRA"      1 1 32 [2, 1, 0, 9] .pfRGB24     .write_packed_rgb32,
    .row "ABGR"      1 1 32 [9, 2, 1, 0] .pfRGB24     .write_packed_rgb32,
    .row "RGBA"      1 1 32 [0, 1, 2, 9] .pfRGB24     .write_packed_rgb32,
    .row "ARGB"      1 1 32 [9, 0, 1, 2] .pfRGB24     .write_packed_rgb32,
    .row "AYUV"      1 1 32 [9, 0, 1, 2] .pfYUV444P8  .write_packed_rgb32,
    .row "GBRP8"     1 1 24 [1, 2, 0, 9] .pfRGB24     .write_planar_frame,
    .row "RGBP8"     1 1 24 [0, 1, 2, 9] .pfRGB24     .write_planar_frame,
    .row "GBRP9"     1 1 48 [1, 2, 0, 9] .pfRGB27     .write_planar_frame,
    .row "RGBP9"     1 1 48 [0, 1, 2, 9] .pfRGB27     .write_planar_frame,
    .row "GBRP10"    1 1 48 [1, 2, 0, 9] .pfRGB30     .write_planar_frame,
    .row "RGBP10"    1 1 48 [0, 1, 2, 9] .pfRGB30     .write_planar_frame,
    .row "GBRP16"    1 1 48 [1, 2, 0, 9] .pfRGB48     .write_planar_frame,
    .row "RGBP16"    1 1 48 [0, 1, 2, 9] .pfRGB48     .write_planar_frame,
    .row "BGR48"     1 1 48 [2, 1, 0, 9] .pfRGB48     .write_packed_rgb48,
    .row "RGB48"     1 1 48 [0, 1, 2, 9] .pfRGB48     .write_packed_rgb48,
    .row "NV12"      2 2 12 [0, 1, 2, 9] .pfYUV420P8  .write_nvxx_frame,
    .row "NV21"      2 2 12 [0, 2, 1, 9] .pfYUV420P8  .write_nvxx_frame,
    .row "P010"      2 2 24 [0, 1, 2, 9] .pfYUV420P16 .write_px1x_frame,
    .row "P016"      2 2 24 [0, 1, 2, 9] .pfYUV420P16 .write_px1x_frame,
    .row "P210"      2 1 32 [0, 1, 2, 9] .pfYUV422P16 .write_px1x_frame,
    .row "P216"      2 1 32 [0, 1, 2, 9] .pfYUV422P16 .write_px1x_frame ]

/-- The last row `{ rh->src_format, 0 }` of the table: every other member zero. -/
def format_sentinel (src_format : List Nat) : FormatEntry :=
  { format_name := src_format, subsample_h := 0, subsample_v := 0, bits_per_pix := 0,
    order := [0, 0, 0, 0], vsformat := .pfNone, func := .null }

/-- The search loop of `check_args`: the first row whose name equals `src_format`
ignoring case; running past the last row is `undefined`. -/
def check_args_loop (src_format : List Nat) : List FormatEntry → Exec FormatEntry
  | [] => .undefined
  | e :: es =>
    if strcasecmp_eq src_format e.format_name then .ret e
    else check_args_loop src_format es

/-- The function `check_args`: the message returned (`none` for `NULL`) and the
handle as it leaves it.  The product is an `int`, the shift is arithmetic and the
result is converted to the `uint32_t` member `frame_size`. -/
def check_args (rh : rs_hnd_t) : Exec (Option String × rs_hnd_t) :=
  (check_args_loop rh.src_format (format_table ++ [format_sentinel rh.src_format])).bind
  fun e =>
  if e.vsformat = .pfNone then .ret (some "unsupported format", rh)
  else if Int.tmod rh.vi.width e.subsample_h ≠ 0 then
    .ret (some "invalid width was specified", rh)
  else if Int.tmod rh.vi.height e.subsample_v ≠ 0 then
    .ret (some "invalid height was specified", rh)
  else
    .ret (none,
      { rh with
        frame_size :=
          wrap_u32 (wrap_i32 (wrap_i32 (rh.vi.width * rh.vi.height) * e.bits_per_pix) / 8),
        vi := { rh.vi with format := e.vsformat },
        order := e.order,
        write_frame := e.func })

/-! ## Opening a source -/

/-- The arguments of `Source` as `create_source` reads them from the map `in`:
`source` is the content of the named file (`none` when `stat` fails), the other
members are the values stored under the keys of the same name, if any. -/
structure Args where
  source : Option (List Nat)
  width : Option Int
  height : Option Int
  fpsnum : Option Int
  fpsden : Option Int
  off_header : Option Int
  off_frame : Option Int
  src_fmt : Option (List Nat)
deriving DecidableEq, Repr

/-- The function `set_args_int`: the 64-bit value of the map converted to `int`,
or the default. -/
def set_args_int (default_value : Int) (arg : Option Int) : Int :=
  match arg with
  | some v => wrap_i32 v
  | none => default_value

/-- The function `set_args_int64`. -/
def set_args_int64 (default_value : Int) (arg : Option Int) : Int :=
  match arg with
  | some v => v
  | none => default_value

/-- The function `set_args_data` with `n = FORMAT_MAX_LEN = 32`: `strncpy` of the
string into the zeroed array `src_format`.  A string of 32 bytes or more leaves the
array without a terminating NUL, and its later use as a string is `undefined`. -/
def set_args_data (default_value : List Nat) (arg : Option (List Nat)) : Exec (List Nat) :=
  let data := match arg with
    | some d => d.takeWhile (fun c => c != 0)
    | none => default_value
  if data.length < 32 then .ret data else .undefined

/-- The result of `create_source`: the error message set on the output map
(without the leading "raws: "), or the handle the filter is created with. -/
inductive Opened where
  | error (msg : String)
  | clip (rh : rs_hnd_t)
deriving DecidableEq, Repr

/-- The expression `(file_size - off_header) / (off_frame + frame_size)` converted
to the `int` member `numFrames`.  The divisor is computed in `uint32_t`, the
quotient in `int64_t` with truncation towards zero; a zero divisor is `undefined`. -/
def count_frames (rh : rs_hnd_t) : Exec Int :=
  let d := wrap_u32 (rh.off_frame + rh.frame_size)
  if d = 0 then .undefined
  else .ret (wrap_i32 (Int.tdiv (rh.file_size - rh.off_header) d))

/-- The end of `create_source`, from the frame count on. -/
def create_source_frames (rh : rs_hnd_t) : Exec Opened :=
  (count_frames rh).bind fun n =>
  let rh : rs_hnd_t := { rh with vi := { rh.vi with numFrames := n } }
  if n < 1 then .ret (.error "too small file size")
  else
    let ci := create_index rh
    if ci.1 ≠ 0 then .ret (.error "failed to create index")
    else .ret (.clip ci.2)

/-- The arguments stored in the handle when the file has no YUV4MPEG2 header. -/
def create_source_args (a : Args) (rh : rs_hnd_t) : Exec rs_hnd_t :=
  (set_args_data (str "I420") a.src_fmt).bind fun f =>
  .ret { rh with
    vi := { rh.vi with
      width := set_args_int 720 a.width,
      height := set_args_int 480 a.height,
      fpsNum := set_args_int64 30000 a.fpsnum,
      fpsDen := set_args_int64 1001 a.fpsden },
    off_header := set_args_int 0 a.off_header,
    off_frame := set_args_int 0 a.off_frame,
    src_format := f }

/-- The function `create_source`.  Failing allocations and a failing `fopen` of a
file that `stat` found are not modelled. -/
def create_source (a : Args) : Exec Opened :=
  match a.source with
  | none => .ret (.error "source does not exist.")
  | some file =>
    let rh : rs_hnd_t := { rs_hnd_zero with file := file, file_size := (file.length : Int) }
    if rh.file_size = 0 then .ret (.error "coudn't get source file size")
    else
      (check_y4m rh).bind fun y4m =>
      if y4m.1 = -1 then .ret (.error "invalid YUV4MPEG header was found")
      else if y4m.1 = -2 then .ret (.error "unsupported YUV4MPEG header was found")
      else
        (if y4m.1 > 0 then create_source_args a y4m.2 else .ret y4m.2).bind fun rh =>
        (check_args rh).bind fun ca =>
        match ca.1 with
        | some msg => .ret (.error msg)
        | none => create_source_frames ca.2

/-! ## Serving frames -/

/-- The frame number `rs_get_frame` uses for a request `n`. -/
def rs_get_frame_number (n : Int) (rh : rs_hnd_t) : Int :=
  if n ≥ rh.vi.numFrames then wrap_i32 (rh.vi.numFrames - 1) else n

/-- The file offset `rh->index[frame_number]` of a request; an access outside the
index is `undefined`. -/
def rs_get_frame_offset (n : Int) (rh : rs_hnd_t) : Exec Int :=
  let frame_number := rs_get_frame_number n rh
  if frame_number < 0 then .undefined
  else
    match rh.index[frame_number.toNat]? with
    | none => .undefined
    | some off => .ret off

/-- The function `rs_get_frame`, for an activation reason (`arInitial` is 0) and a
request `n`.  `write_frame` stands for the call through `rh->write_frame` on the
payload read into the scratch buffer; the result is what it produces, or `none`
for `NULL`.  Seeking to a negative offset fails; a read of fewer than `frame_size`
bytes fails. -/
def rs_get_frame {α : Type} (write_frame : rs_hnd_t → List Nat → α) (n : Int)
    (activation_reason : Int) (rh : rs_hnd_t) : Exec (Option α) :=
  if activation_reason ≠ 0 then .ret none
  else
    (rs_get_frame_offset n rh).bind fun off =>
    if off < 0 then .ret none
    else
      let payload := (rh.file.drop off.toNat).take rh.frame_size.toNat
      if (payload.length : Int) < rh.frame_size then .ret none
      else .ret (some (write_frame rh payload))

/-! ## Frames -/

/-- Modelled from the spec: the members of `VSFormat` (declared in `VapourSynth.h`,
which is not part of the sources) that the frame writers use: the plane count,
the bytes per sample and the base-2 logarithms of the chroma subsampling. -/
structure VSFormat where
  numPlanes : Nat
  bytesPerSample : Nat
  subSamplingW : Nat
  subSamplingH : Nat
deriving DecidableEq, Repr

/-- Modelled from the spec: the host function `getFormatPreset`, which gives the
canonical pixel format (plane count, bit depth, chroma layout) a preset names;
`none` is the `NULL` returned for `pfNone`. -/
def getFormatPreset : VSPresetFormat → Option VSFormat
  | .pfNone => none
  | .pfGray8 => some ⟨1, 1, 0, 0⟩
  | .pfGray16 => some ⟨1, 2, 0, 0⟩
  | .pfYUV420P8 => some ⟨3, 1, 1, 1⟩
  | .pfYUV422P8 => some ⟨3, 1, 1, 0⟩
  | .pfYUV444P8 => some ⟨3, 1, 0, 0⟩
  | .pfYUV410P8 => some ⟨3, 1, 2, 2⟩
  | .pfYUV411P8 => some ⟨3, 1, 2, 0⟩
  | .pfYUV440P8 => some ⟨3, 1, 0, 1⟩
  | .pfYUV420P9 => some ⟨3, 2, 1, 1⟩
  | .pfYUV422P9 => some ⟨3, 2, 1, 0⟩
  | .pfYUV444P9 => some ⟨3, 2, 0, 0⟩
  | .pfYUV420P10 => some ⟨3, 2, 1, 1⟩
  | .pfYUV422P10 => some ⟨3, 2, 1, 0⟩
  | .pfYUV444P10 => some ⟨3, 2, 0, 0⟩
  | .pfYUV420P16 => some ⟨3, 2, 1, 1⟩
  | .pfYUV422P16 => some ⟨3, 2, 1, 0⟩
  | .pfYUV444P16 => some ⟨3, 2, 0, 0⟩
  | .pfRGB24 => some ⟨3, 1, 0, 0⟩
  | .pfRGB27 => some ⟨3, 2, 0, 0⟩
  | .pfRGB30 => some ⟨3, 2, 0, 0⟩
  | .pfRGB48 => some ⟨3, 2, 0, 0⟩

/-- One plane of a destination frame: its width and height in samples, its row
stride in bytes and the bytes at its write pointer. -/
structure Plane where
  width : Nat
  height : Nat
  stride : Nat
  data : List Nat
deriving DecidableEq, Repr

/-- A destination frame as the host hands it to a frame writer. -/
structure VSFrameRef where
  planes : List Plane
deriving DecidableEq, Repr

/-- The host function `getFrameWidth`; asking for a plane the frame does not have
is `undefined`. -/
def getFrameWidth (dst : VSFrameRef) (plane : Nat) : Exec Nat :=
  match dst.planes[plane]? with
  | some p => .ret p.width
  | none => .undefined

/-- The host function `getFrameHeight`. -/
def getFrameHeight (dst : VSFrameRef) (plane : Nat) : Exec Nat :=
  match dst.planes[plane]? with
  | some p => .ret p.height
  | none => .undefined

/-- The host function `getStride`. -/
def getStride (dst : VSFrameRef) (plane : Nat) : Exec Nat :=
  match dst.planes[plane]? with
  | some p => .ret p.stride
  | none => .undefined

/-- The host function `getWritePtr`: the pointer is represented by the index of the
plane it points into. -/
def getWritePtr (dst : VSFrameRef) (plane : Nat) : Exec Nat :=
  match dst.planes[plane]? with
  | some _ => .ret plane
  | none => .undefined

/-- Reading `n` bytes at offset `off` of the scratch buffer; a read past its end is
`undefined`. -/
def load (src : List Nat) (off n : Nat) : Exec (List Nat) :=
  if off + n ≤ src.length then .ret ((src.drop off).take n) else .undefined

/-- Writing the bytes `bs` at offset `off` of an array; a write past its end is
`undefined`. -/
def store (data : List Nat) (off : Nat) (bs : List Nat) : Exec (List Nat) :=
  if off + bs.length ≤ data.length then
    .ret (data.take off ++ bs ++ data.drop (off + bs.length))
  else .undefined

/-- Writing the bytes `bs` at offset `off` from the write pointer of a plane. -/
def VSFrameRef.store (dst : VSFrameRef) (plane off : Nat) (bs : List Nat) : Exec VSFrameRef :=
  match dst.planes[plane]? with
  | none => .undefined
  | some p =>
    (RawSource.store p.data off bs).bind fun d =>
    .ret { planes := dst.planes.set plane { p with data := d } }

/-- The loop `for (i = start; i < start + n; i++) body`. -/
def for_loop {σ : Type} (body : Nat → σ → Exec σ) : Nat → Nat → σ → Exec σ
  | 0, _, s => .ret s
  | n + 1, i, s => (body i s).bind (for_loop body n (i + 1))

/-- The member `order[i]` of the handle as a plane index; a negative value names
no plane. -/
def order_at (rh : rs_hnd_t) (i : Nat) : Exec Nat :=
  match rh.order[i]? with
  | some o => if 0 ≤ o then .ret o.toNat else .undefined
  | none => .undefined

/-- Modelled from the spec: the host function `newVideoFrame` for a format, a width
and a height: one plane per plane of the format, planes 1 and 2 smaller by the
subsampling shifts, every row stride the row size in bytes rounded up to a multiple
of `align`, every byte zero (the host leaves the content unspecified). -/
def newVideoFrame (fmt : VSFormat) (width height align : Nat) : VSFrameRef :=
  { planes := (List.range fmt.numPlanes).map fun i =>
      let w := if i = 0 then width else width >>> fmt.subSamplingW
      let h := if i = 0 then height else height >>> fmt.subSamplingH
      let stride := (w * fmt.bytesPerSample + align - 1) / align * align
      { width := w, height := h, stride := stride, data := List.replicate (stride * h) 0 } }

/-! ## The frame writers -/

/-- The function `rs_bit_blt`, reading at offset `srcp` of the scratch buffer.  The
state of the row loop is `(dstp, srcp, dst)`. -/
def rs_bit_blt (src : List Nat) (srcp row_size height : Nat) (dst : VSFrameRef)
    (plane : Nat) : Exec VSFrameRef :=
  (getWritePtr dst plane).bind fun _ =>
  (getStride dst plane).bind fun dst_stride =>
  if row_size = dst_stride then
    (load src srcp (row_size * height)).bind fun bs => dst.store plane 0 bs
  else
    (for_loop (fun _ (st : Nat × Nat × VSFrameRef) =>
        (load src st.2.1 row_size).bind fun bs =>
        (st.2.2.store plane st.1 bs).bind fun d =>
        .ret (st.1 + dst_stride, st.2.1 + row_size, d))
      height 0 (0, srcp, dst)).bind fun st => .ret st.2.2

/-- The function `bitor8to32`. -/
def bitor8to32 (b0 b1 b2 b3 : Nat) : Nat :=
  (b0 <<< 24) ||| (b1 <<< 16) ||| (b2 <<< 8) ||| b3

/-- The bytes a `uint32_t` occupies in memory on a little-endian host. -/
def bytes_le32 (v : Nat) : List Nat :=
  [v % 256, v / 256 % 256, v / 65536 % 256, v / 16777216 % 256]

/-- The function `write_planar_frame`.  The state of the loop is `(srcp, dst)`. -/
def write_planar_frame (rh : rs_hnd_t) (src : List Nat) (dst : VSFrameRef) :
    Exec VSFrameRef :=
  match getFormatPreset rh.vi.format with
  | none => .undefined
  | some fmt =>
    (for_loop (fun i (st : Nat × VSFrameRef) =>
        (order_at rh i).bind fun plane =>
        (getFrameWidth st.2 plane).bind fun w =>
        let row_size := w * fmt.bytesPerSample
        (getFrameHeight st.2 plane).bind fun height =>
        (rs_bit_blt src st.1 row_size height st.2 plane).bind fun d =>
        .ret (st.1 + row_size * height, d))
      fmt.numPlanes 0 (0, dst)).bind fun st => .ret st.2

/-- The function `write_nvxx_frame`. -/
def write_nvxx_frame (rh : rs_hnd_t) (src : List Nat) (dst : VSFrameRef) :
    Exec VSFrameRef :=
  (getFrameWidth dst 0).bind fun row_size0 =>
  (getFrameHeight dst 0).bind fun height0 =>
  (rs_bit_blt src 0 row_size0 height0 dst 0).bind fun dst =>
  let srcp_orig := row_size0 * height0
  let src_stride := row_size0
  (getFrameWidth dst 1).bind fun w1 =>
  let row_size := (w1 + 3) / 4
  (getFrameHeight dst 1).bind fun height =>
  (getStride dst 1).bind fun dst_stride =>
  (order_at rh 1).bind fun o1 =>
  (getWritePtr dst o1).bind fun dstp0_orig =>
  (order_at rh 2).bind fun o2 =>
  (getWritePtr dst o2).bind fun dstp1_orig =>
  for_loop (fun y d =>
      for_loop (fun x d =>
          (load src (srcp_orig + y * src_stride + 8 * x) 8).bind fun c =>
          (d.store dstp0_orig (y * dst_stride + 4 * x)
            (bytes_le32 (bitor8to32 (c.getD 6 0) (c.getD 4 0) (c.getD 2 0) (c.getD 0 0)))).bind
          fun d =>
          d.store dstp1_orig (y * dst_stride + 4 * x)
            (bytes_le32 (bitor8to32 (c.getD 7 0) (c.getD 5 0) (c.getD 3 0) (c.getD 1 0))))
        row_size 0 d)
    height 0 dst

/-- The function `write_px1x_frame`.  As in the source, the number of luma rows is
taken from `getFrameWidth`.  The state of the chroma row loop is
`(srcp_uv, dstp0, dstp1, dst)`, the first a byte offset and the other two offsets
in 16-bit samples. -/
def write_px1x_frame (rh : rs_hnd_t) (src : List Nat) (dst : VSFrameRef) :
    Exec VSFrameRef :=
  (getFrameWidth dst 0).bind fun w0 =>
  let row_size0 := w0 * 2
  (getFrameWidth dst 0).bind fun height0 =>
  (rs_bit_blt src 0 row_size0 height0 dst 0).bind fun dst =>
  (getFrameWidth dst 1).bind fun row_size =>
  (getFrameHeight dst 1).bind fun height =>
  (getStride dst 1).bind fun s1 =>
  let stride := s1 / 2
  (order_at rh 1).bind fun o1 =>
  (getWritePtr dst o1).bind fun p0 =>
  (order_at rh 2).bind fun o2 =>
  (getWritePtr dst o2).bind fun p1 =>
  (for_loop (fun _ (st : Nat × Nat × Nat × VSFrameRef) =>
      (for_loop (fun x d =>
          (load src (st.1 + 4 * x) 4).bind fun c =>
          (d.store p0 (2 * (st.2.1 + x)) (c.take 2)).bind fun d =>
          d.store p1 (2 * (st.2.2.1 + x)) (c.drop 2))
        row_size 0 st.2.2.2).bind fun d =>
      .ret (st.1 + 4 * row_size, st.2.1 + stride, st.2.2.1 + stride, d))
    height 0 (row_size0 * height0, 0, 0, dst)).bind fun st => .ret st.2.2.2

/-- The function `write_packed_rgb24`. -/
def write_packed_rgb24 (rh : rs_hnd_t) (src : List Nat) (dst : VSFrameRef) :
    Exec VSFrameRef :=
  let row_size := (rh.vi.width.toNat + 3) / 4
  let height := rh.vi.height.toNat
  let src_stride := rh.vi.width.toNat * 3
  (order_at rh 0).bind fun o0 =>
  (getWritePtr dst o0).bind fun dstp0_orig =>
  (order_at rh 1).bind fun o1 =>
  (getWritePtr dst o1).bind fun dstp1_orig =>
  (order_at rh 2).bind fun o2 =>
  (getWritePtr dst o2).bind fun dstp2_orig =>
  (getStride dst 0).bind fun dst_stride =>
  for_loop (fun y d =>
      for_loop (fun x d =>
          (load src (y * src_stride + 12 * x) 12).bind fun c =>
          (d.store dstp0_orig (y * dst_stride + 4 * x)
            (bytes_le32 (bitor8to32 (c.getD 9 0) (c.getD 6 0) (c.getD 3 0) (c.getD 0 0)))).bind
          fun d =>
          (d.store dstp1_orig (y * dst_stride + 4 * x)
            (bytes_le32 (bitor8to32 (c.getD 10 0) (c.getD 7 0) (c.getD 4 0) (c.getD 1 0)))).bind
          fun d =>
          d.store dstp2_orig (y * dst_stride + 4 * x)
            (bytes_le32 (bitor8to32 (c.getD 11 0) (c.getD 8 0) (c.getD 5 0) (c.getD 2 0))))
        row_size 0 d)
    height 0 dst

/-- The function `write_packed_rgb48`.  The state of the row loop is
`(srcp, dstp0, dstp1, dstp2, dst)`, the first a byte offset and the others offsets
in 16-bit samples. -/
def write_packed_rgb48 (rh : rs_hnd_t) (src : List Nat) (dst : VSFrameRef) :
    Exec VSFrameRef :=
  let width := rh.vi.width.toNat
  let height := rh.vi.height.toNat
  (order_at rh 0).bind fun o0 =>
  (getWritePtr dst o0).bind fun p0 =>
  (order_at rh 1).bind fun o1 =>
  (getWritePtr dst o1).bind fun p1 =>
  (order_at rh 2).bind fun o2 =>
  (getWritePtr dst o2).bind fun p2 =>
  (getStride dst 0).bind fun s0 =>
  let stride := s0 / 2
  (for_loop (fun _ (st : Nat × Nat × Nat × Nat × VSFrameRef) =>
      (for_loop (fun x d =>
          (load src (st.1 + 6 * x) 6).bind fun c =>
          (d.store p0 (2 * (st.2.1 + x)) (c.take 2)).bind fun d =>
          (d.store p1 (2 * (st.2.2.1 + x)) ((c.drop 2).take 2)).bind fun d =>
          d.store p2 (2 * (st.2.2.2.1 + x)) (c.drop 4))
        width 0 st.2.2.2.2).bind fun d =>
      .ret (st.1 + 6 * width, st.2.1 + stride, st.2.2.1 + stride, st.2.2.2.1 + stride, d))
    height 0 (0, 0, 0, 0, dst)).bind fun st => .ret st.2.2.2.2

/-- The function `write_packed_rgb32`.  The local pointer `order` is the member
`order` of the handle, or that member from its second slot on when the first slot
is 9; `offset` is 1 in that case. -/
def write_packed_rgb32 (rh : rs_hnd_t) (src : List Nat) (dst : VSFrameRef) :
    Exec VSFrameRef :=
  let src_stride := rh.vi.width.toNat * 4
  let row_size := (rh.vi.width.toNat + 3) / 4
  let height := rh.vi.height.toNat
  let offset := if rh.order[0]? = some 9 then 1 else 0
  (order_at rh offset).bind fun o0 =>
  (getWritePtr dst o0).bind fun dstp0_orig =>
  (order_at rh (offset + 1)).bind fun o1 =>
  (getWritePtr dst o1).bind fun dstp1_orig =>
  (order_at rh (offset + 2)).bind fun o2 =>
  (getWritePtr dst o2).bind fun dstp2_orig =>
  (getStride dst 0).bind fun dst_stride =>
  for_loop (fun y d =>
      for_loop (fun x d =>
          (load src (y * src_stride + 16 * x) (offset + 15)).bind fun c =>
          (d.store dstp0_orig (y * dst_stride + 4 * x)
            (bytes_le32 (bitor8to32 (c.getD (offset + 12) 0) (c.getD (offset + 8) 0)
              (c.getD (offset + 4) 0) (c.getD offset 0)))).bind
          fun d =>
          (d.store dstp1_orig (y * dst_stride + 4 * x)
            (bytes_le32 (bitor8to32 (c.getD (offset + 13) 0) (c.getD (offset + 9) 0)
              (c.getD (offset + 5) 0) (c.getD (offset + 1) 0)))).bind
          fun d =>
          d.store dstp2_orig (y * dst_stride + 4 * x)
            (bytes_le32 (bitor8to32 (c.getD (offset + 14) 0) (c.getD (offset + 10) 0)
              (c.getD (offset + 6) 0) (c.getD (offset + 2) 0))))
        row_size 0 d)
    height 0 dst

/-- The statement `*(dstp[o]++) = b` of `write_packed_yuv422`: `dstp` holds the
three write offsets; a slot outside `dstp` is `undefined`. -/
def yuv422_put (o : Int) (b : Nat) (st : List Nat × VSFrameRef) :
    Exec (List Nat × VSFrameRef) :=
  if o < 0 then .undefined
  else
    match st.1[o.toNat]? with
    | none => .undefined
    | some off =>
      (st.2.store o.toNat off [b]).bind fun d => .ret (st.1.set o.toNat (off + 1), d)

/-- The function `write_packed_yuv422`.  The state of the row loop is
`(srcp, dstp, dst)` with `srcp` a byte offset and `dstp` the three write offsets.
The statement `dstp[i] += padding[i]` with `padding[i] = stride - width` is computed
as `dstp[i] + stride - width`, the same offset whenever the pointer stays at or
after the start of the plane. -/
def write_packed_yuv422 (rh : rs_hnd_t) (src : List Nat) (dst : VSFrameRef) :
    Exec VSFrameRef :=
  let width := (rh.vi.width / 2).toNat
  let height := rh.vi.height.toNat
  let o0 := rh.order.getD 0 0
  let o1 := rh.order.getD 1 0
  let o2 := rh.order.getD 2 0
  let o3 := rh.order.getD 3 0
  (getWritePtr dst 0).bind fun _ =>
  (getStride dst 0).bind fun s0 =>
  (getFrameWidth dst 0).bind fun w0 =>
  (getWritePtr dst 1).bind fun _ =>
  (getStride dst 1).bind fun s1 =>
  (getFrameWidth dst 1).bind fun w1 =>
  (getWritePtr dst 2).bind fun _ =>
  (getStride dst 2).bind fun s2 =>
  (getFrameWidth dst 2).bind fun w2 =>
  (for_loop (fun _ (st : Nat × List Nat × VSFrameRef) =>
      (for_loop (fun x (q : List Nat × VSFrameRef) =>
          (load src (st.1 + 4 * x) 4).bind fun c =>
          (yuv422_put o0 (c.getD 0 0) q).bind fun q =>
          (yuv422_put o1 (c.getD 1 0) q).bind fun q =>
          (yuv422_put o2 (c.getD 2 0) q).bind fun q =>
          yuv422_put o3 (c.getD 3 0) q)
        width 0 (st.2.1, st.2.2)).bind fun q =>
      .ret (st.1 + 4 * width,
        [q.1.getD 0 0 + s0 - w0, q.1.getD 1 0 + s1 - w1, q.1.getD 2 0 + s2 - w2], q.2))
    height 0 (0, [0, 0, 0], dst)).bind fun st => .ret st.2.2

/-- The call `rh->write_frame(rh, dst, vsapi)` of `rs_get_frame`; a call through
the zeroed pointer is `undefined`. -/
def write_frame (rh : rs_hnd_t) (src : List Nat) (dst : VSFrameRef) : Exec VSFrameRef :=
  match rh.write_frame with
  | .null => .undefined
  | .write_planar_frame => write_planar_frame rh src dst
  | .write_nvxx_frame => write_nvxx_frame rh src dst
  | .write_px1x_frame => write_px1x_frame rh src dst
  | .write_packed_rgb24 => write_packed_rgb24 rh src dst
  | .write_packed_rgb48 => write_packed_rgb48 rh src dst
  | .write_packed_rgb32 => write_packed_rgb32 rh src dst
  | .write_packed_yuv422 => write_packed_yuv422 rh src dst

/-! ## Names used in the statements -/

/-- The lookup as the specification words it: the first row of the format table
whose name equals `t` ignoring letter case, if there is one. -/
def format_lookup (t : List Nat) : Option FormatEntry :=
  format_table.find? (fun e => strcasecmp_eq t e.format_name)

/-- The handle `check_args` leaves on success with the row `e`. -/
def resolved (rh : rs_hnd_t) (e : FormatEntry) : rs_hnd_t :=
  { rh with
    frame_size :=
      wrap_u32 (wrap_i32 (wrap_i32 (rh.vi.width * rh.vi.height) * e.bits_per_pix) / 8),
    vi := { rh.vi with format := e.vsformat },
    order := e.order,
    write_frame := e.func }

/-- The format `get_format` returns for a tag, as the specification words it: the
mapped name of the first known tag equal to `ctag` ignoring case, else the
default. -/
def format_of_ctag (ctag : List Nat) : List Nat :=
  match get_format_table.find? (fun r => strcasecmp_eq ctag (str r.1)) with
  | some r => str r.2
  | none => str "YUV420P8"

/-- A tag of a header line: its kind with the bytes of its value. -/
inductive Y4mTag where
  | W (ds : List Nat)
  | H (ds : List Nat)
  | F (ns ds : List Nat)
  | I (v : List Nat)
  | C (t : List Nat)
  | other (v : List Nat)
deriving DecidableEq, Repr

/-- The bytes of a tag after the space that starts it. -/
def Y4mTag.bytes : Y4mTag → List Nat
  | .W ds => 87 :: ds
  | .H ds => 72 :: ds
  | .F ns ds => 70 :: (ns ++ 58 :: ds)
  | .I v => 73 :: v
  | .C t => 67 :: t
  | .other v => v

/-- A decimal numeral: at least one digit, only digits. -/
@[reducible] def numeral (ds : List Nat) : Prop := ds ≠ [] ∧ ∀ x ∈ ds, isdigit x = true

/-- A run of bytes without space and newline. -/
@[reducible] def word (v : List Nat) : Prop := ∀ x ∈ v, x ≠ 32 ∧ x ≠ 10

/-- Well-formed tags: `W` and `H` carry a decimal numeral from 1 to `2^31 - 1`;
`F` carries two numerals without leading zero from 1 to `2^63 - 1` around a
colon; `I` carries a non-empty word; `C` carries a non-empty string of at most 31
bytes without white space and NUL; any other tag is a word that does not start
with one of the five letters. -/
def Y4mTag.wf : Y4mTag → Prop
  | .W ds => numeral ds ∧ 1 ≤ digits_val 10 ds ∧ digits_val 10 ds < 2147483648
  | .H ds => numeral ds ∧ 1 ≤ digits_val 10 ds ∧ digits_val 10 ds < 2147483648
  | .F ns ds =>
    (numeral ns ∧ ns.head? ≠ some 48 ∧ 1 ≤ digits_val 10 ns ∧
      digits_val 10 ns < 9223372036854775808) ∧
    (numeral ds ∧ ds.head? ≠ some 48 ∧ 1 ≤ digits_val 10 ds ∧
      digits_val 10 ds < 9223372036854775808)
  | .I v => v ≠ [] ∧ word v
  | .C t => t ≠ [] ∧ t.length < 32 ∧ ∀ x ∈ t, isspace x = false ∧ x ≠ 0
  | .other v =>
    word v ∧ v.head? ≠ some 87 ∧ v.head? ≠ some 72 ∧ v.head? ≠ some 70 ∧
      v.head? ≠ some 73 ∧ v.head? ≠ some 67

/-- Well-formedness of a tag is decidable. -/
instance Y4mTag.wf_decidable (t : Y4mTag) : Decidable t.wf :=
  match t with
  | .W ds =>
    inferInstanceAs (Decidable (numeral ds ∧ 1 ≤ digits_val 10 ds ∧
      digits_val 10 ds < 2147483648))
  | .H ds =>
    inferInstanceAs (Decidable (numeral ds ∧ 1 ≤ digits_val 10 ds ∧
      digits_val 10 ds < 2147483648))
  | .F ns ds =>
    inferInstanceAs (Decidable (
      (numeral ns ∧ ns.head? ≠ some 48 ∧ 1 ≤ digits_val 10 ns ∧
        digits_val 10 ns < 9223372036854775808) ∧
      (numeral ds ∧ ds.head? ≠ some 48 ∧ 1 ≤ digits_val 10 ds ∧
        digits_val 10 ds < 9223372036854775808)))
  | .I v => inferInstanceAs (Decidable (v ≠ [] ∧ word v))
  | .C t =>
    inferInstanceAs (Decidable (t ≠ [] ∧ t.length < 32 ∧
      ∀ x ∈ t, isspace x = false ∧ x ≠ 0))
  | .other v =>
    inferInstanceAs (Decidable (word v ∧ v.head? ≠ some 87 ∧ v.head? ≠ some 72 ∧
      v.head? ≠ some 70 ∧ v.head? ≠ some 73 ∧ v.head? ≠ some 67))

/-- An interlace tag whose value starts with `m` (mixed). -/
def Y4mTag.mixed : Y4mTag → Bool
  | .I v => v.head? == some 109
  | _ => false

/-- What a well-formed tag stores in the handle. -/
def Y4mTag.apply : Y4mTag → rs_hnd_t → rs_hnd_t
  | .W ds, rh => { rh with vi := { rh.vi with width := (digits_val 10 ds : Int) } }
  | .H ds, rh => { rh with vi := { rh.vi with height := (digits_val 10 ds : Int) } }
  | .F ns ds, rh =>
    { rh with vi := { rh.vi with fpsNum := (digits_val 10 ns : Int),
                                 fpsDen := (digits_val 10 ds : Int) } }
  | .I _, rh => rh
  | .C t, rh => { rh with src_format := format_of_ctag t }
  | .other _, rh => rh

/-- What a well-formed tag stores in the array `ctag`. -/
def Y4mTag.ctag : Y4mTag → List Nat → List Nat
  | .C t, _ => t
  | _, ctag => ctag

/-- The bytes of a list of tags, each after a space. -/
def render : List Y4mTag → List Nat
  | [] => []
  | t :: ts => 32 :: (t.bytes ++ render ts)

/-- The handle after a list of well-formed tags. -/
def apply_tags : List Y4mTag → rs_hnd_t → rs_hnd_t
  | [], rh => rh
  | t :: ts, rh => apply_tags ts (t.apply rh)

/-- The array `ctag` after a list of well-formed tags. -/
def ctag_tags : List Y4mTag → List Nat → List Nat
  | [], ctag => ctag
  | t :: ts, ctag => ctag_tags ts (t.ctag ctag)

/-- The handle `check_y4m` leaves on success when the header newline is at index
`p`. -/
def y4m_done (p : Nat) (rh : rs_hnd_t) : rs_hnd_t :=
  { rh with
    off_header := ((p + 1 : Nat) : Int),
    off_frame := 6,
    src_format := if rh.src_format.length = 0 then str "YUV420P8" else rh.src_format }

/-! ## Bytes of a frame -/

/-- Byte `b` of row `y` of plane `pl` of a frame. -/
def VSFrameRef.byte (f : VSFrameRef) (pl y b : Nat) : Option Nat :=
  match f.planes[pl]? with
  | none => none
  | some p => p.data[y * p.stride + b]?

/-- The geometry of a plane: width, height, stride and the size of its array. -/
def Plane.shape (p : Plane) : Nat × Nat × Nat × Nat :=
  (p.width, p.height, p.stride, p.data.length)

/-- The geometry of the planes of a frame. -/
def VSFrameRef.shape (f : VSFrameRef) : List (Nat × Nat × Nat × Nat) :=
  f.planes.map Plane.shape

/-- The row stride of a plane of a frame, 0 for a plane it does not have. -/
def VSFrameRef.stride (f : VSFrameRef) (pl : Nat) : Nat :=
  match f.planes[pl]? with
  | none => 0
  | some p => p.stride

/-- The frame `g` is the frame `f` with the bytes at the positions `W` replaced by
the values `V`: same geometry, `V` at every position of `W`, the byte of `f` at
every other position.  A position is a plane, a row and a byte of the row below the
stride. -/
def Upd (f g : VSFrameRef) (W : Nat → Nat → Nat → Prop) (V : Nat → Nat → Nat → Nat) : Prop :=
  g.shape = f.shape ∧
  ∀ pl y b, b < f.stride pl →
    (W pl y b → g.byte pl y b = some (V pl y b)) ∧
    (¬ W pl y b → g.byte pl y b = f.byte pl y b)

/-- The bytes plane `pl` of a frame takes in a planar payload with `bps` bytes per
sample: its rows without padding. -/
def VSFrameRef.plane_size (f : VSFrameRef) (bps pl : Nat) : Nat :=
  match f.planes[pl]? with
  | none => 0
  | some p => p.width * bps * p.height

/-- The offset of the `i`-th source plane of a planar payload whose `j`-th source
plane goes to the plane `ord j` of the frame: the source planes follow one another
without gap. -/
def planar_offset (f : VSFrameRef) (bps : Nat) (ord : Nat → Nat) : Nat → Nat
  | 0 => 0
  | i + 1 => planar_offset f bps ord i + f.plane_size bps (ord i)

/-- The payload byte that belongs at byte `b` of a row of plane `pl` when the
macropixels of the row start at offset `base` and the byte slots 0, 1, 2 of a
macropixel go to the planes `n0`, `n1`, `n2`: plane 0 takes every second byte from
its first slot on, a chroma plane takes every fourth byte from its slot on. -/
def yuv422_value (src : List Nat) (n0 n1 n2 base pl b : Nat) : Nat :=
  if pl = 0 then src.getD (base + 2 * b + (if n0 = 0 then 0 else 1)) 0
  else src.getD (base + 4 * b
    + (if n0 = pl then 0 else if n1 = pl then 1 else if n2 = pl then 2 else 3)) 0

/-- The destination plane named by slot `i` of a plane order. -/
def order_plane (order : List Int) (i : Nat) : Nat :=
  (order.getD i 0).toNat

/-- The number of bytes that precede the three channels in a packed RGB pixel: 1
when the first slot of the plane order is the sentinel 9, else 0. -/
def rgb_alpha (order : List Int) : Nat :=
  if order[0]? = some 9 then 1 else 0

/-- The destination plane of channel `c` of a packed RGB pixel: the slot of the
plane order after the sentinel, if there is one. -/
def rgb_plane (order : List Int) (c : Nat) : Nat :=
  (order.getD (rgb_alpha order + c) 0).toNat

/-- The handle a block of the scan loop leaves. -/
def Flow.rh : Flow → rs_hnd_t
  | .leave _ rh => rh
  | .next st => st.rh

/-- The members of a handle that the header reader never writes before the header
newline: the file with its size, and the header offset. -/
def keeps_file (a b : rs_hnd_t) : Prop :=
  b.file = a.file ∧ b.file_size = a.file_size ∧ b.off_header = a.off_header

/-- The format name of `b` is that of `a`, or a name `get_format` returns for some
tag text. -/
def keeps_format (a b : rs_hnd_t) : Prop :=
  b.src_format = a.src_format ∨ ∃ ctag, b.src_format = format_of_ctag ctag

/-- The chroma subsampling factors of a format, horizontal then vertical:
`2 ^ subSamplingW` and `2 ^ subSamplingH`. -/
def VSFormat.factors (fmt : VSFormat) : Int × Int :=
  ((2 ^ fmt.subSamplingW : Nat), (2 ^ fmt.subSamplingH : Nat))

/-- Whether `subsample_h` and `subsample_v` of a row of the format table are the
chroma subsampling factors of the format of its preset. -/
def FormatEntry.factors_match (e : FormatEntry) : Bool :=
  match getFormatPreset e.vsformat with
  | some fmt => decide (fmt.factors = (e.subsample_h, e.subsample_v))
  | none => false

/-- The result of a frame request served from the file offset `off`, as the
specification words it: nothing when the offset is negative or fewer than
`frame_size` bytes of the file follow it, else what the frame writer makes of the
`frame_size` bytes of the file from `off` on. -/
def frame_at {α : Type} (write_frame : rs_hnd_t → List Nat → α) (rh : rs_hnd_t)
    (off : Int) : Option α :=
  if off < 0 ∨ ((rh.file.length - off.toNat : Nat) : Int) < rh.frame_size then none
  else some (write_frame rh ((rh.file.drop off.toNat).take rh.frame_size.toNat))

/-! ## Concrete inputs -/

/-- A handle on a file that starts with the header of the test in the specification. -/
def y4m_example_handle : rs_hnd_t :=
  { rs_hnd_zero with file := str "YUV4MPEG2 W176 H144 F25:1 C420mpeg2\nFRAME\nabcdef" }

/-- The handle `check_y4m` leaves for `y4m_example_handle`. -/
def y4m_example_read : rs_hnd_t :=
  { y4m_example_handle with
    vi := { y4m_example_handle.vi with width := 176, height := 144, fpsNum := 25,
                                       fpsDen := 1 },
    src_format := str "YUV420P8",
    off_header := 36,
    off_frame := 6 }

/-- A handle on a file whose header declares the width `2^31`. -/
def big_width_handle : rs_hnd_t :=
  { rs_hnd_zero with file := str "YUV4MPEG2 W2147483648 H144 F25:1 C420mpeg2\nFRAME\nabcdef" }

/-- A handle on a file whose header declares top-field-first interlacing. -/
def top_field_handle : rs_hnd_t :=
  { rs_hnd_zero with file := str "YUV4MPEG2 W2 H2 F25:1 It\nFRAME\nabcdef" }

/-- A handle on a file whose header line is longer than the buffer, with the start
of an interlace tag in the last two bytes of the buffer. -/
def overlong_handle : rs_hnd_t :=
  { rs_hnd_zero with
    file := str "YUV4MPEG2" ++ List.replicate 245 120 ++ str " Ip A1:1\nFRAME\nabcdef" }

/-- A handle on a file whose header has no `W` tag. -/
def no_width_handle : rs_hnd_t :=
  { rs_hnd_zero with file := str "YUV4MPEG2 H2 F25:1\nFRAME\n" }

/-- A handle asking for 176x144 frames in the format named `yv12`. -/
def yv12_handle : rs_hnd_t :=
  { rs_hnd_zero with
    src_format := str "yv12",
    vi := { rs_hnd_zero.vi with width := 176, height := 144 } }

/-- A handle asking for 175x144 frames in the format named `i420`. -/
def odd_width_handle : rs_hnd_t :=
  { rs_hnd_zero with
    src_format := str "i420",
    vi := { rs_hnd_zero.vi with width := 175, height := 144 } }

/-- A handle asking for 4x4 frames in the format named `YUV9`. -/
def yuv9_handle : rs_hnd_t :=
  { rs_hnd_zero with
    src_format := str "YUV9",
    vi := { rs_hnd_zero.vi with width := 4, height := 4 } }

/-- A handle for a file of 4 GiB read as frames of one byte. -/
def big_file_handle : rs_hnd_t :=
  { rs_hnd_zero with file_size := 4294967296, frame_size := 1 }

/-- Arguments naming a headerless file of 13 bytes read as 2x2 frames in the default
format. -/
def two_frame_args : Args :=
  { source := some (List.replicate 13 7), width := some 2, height := some 2,
    fpsnum := none, fpsden := none, off_header := none, off_frame := none, src_fmt := none }

/-- The handle `create_source` builds for `two_frame_args`. -/
def two_frame_handle : rs_hnd_t :=
  { file := List.replicate 13 7, file_size := 13, frame_size := 6, src_format := str "I420",
    order := [0, 1, 2, 9], off_header := 0, off_frame := 0, index := [0, 6],
    write_frame := .write_planar_frame,
    vi := { format := .pfYUV420P8, fpsNum := 30000, fpsDen := 1001, width := 2, height := 2,
            numFrames := 2 } }

/-- The two-frame file after `check_args`, before the frames are counted. -/
def two_frame_resolved : rs_hnd_t :=
  { two_frame_handle with index := [], vi := { two_frame_handle.vi with numFrames := 0 } }

/-- The handle `create_source` builds for the file of `no_width_handle`. -/
def no_width_opened : rs_hnd_t :=
  { file := str "YUV4MPEG2 H2 F25:1\nFRAME\n", file_size := 25, frame_size := 0,
    src_format := str "YUV420P8", order := [0, 1, 2, 9], off_header := 19, off_frame := 6,
    index := [25], write_frame := .write_planar_frame,
    vi := { format := .pfYUV420P8, fpsNum := 25, fpsDen := 1, width := 0, height := 2,
            numFrames := 1 } }

/-- The handle `create_source` builds for the file of `top_field_handle`. -/
def top_field_opened : rs_hnd_t :=
  { file := str "YUV4MPEG2 W2 H2 F25:1 It\nFRAME\nabcdef", file_size := 37, frame_size := 6,
    src_format := str "YUV420P8", order := [0, 1, 2, 9], off_header := 25, off_frame := 6,
    index := [31], write_frame := .write_planar_frame,
    vi := { format := .pfYUV420P8, fpsNum := 25, fpsDen := 1, width := 2, height := 2,
            numFrames := 1 } }

/-- Arguments that name a file and nothing else. -/
def source_only (file : List Nat) : Args :=
  { source := some file, width := none, height := none, fpsnum := none, fpsden := none,
    off_header := none, off_frame := none, src_fmt := none }

/-- The tags `W2 H2 F25:1`. -/
def small_tags : List Y4mTag := [.W (str "2"), .H (str "2"), .F (str "25") (str "1")]

/-- The tags `W2 H2 F25:1 It`. -/
def top_field_tags : List Y4mTag :=
  [.W (str "2"), .H (str "2"), .F (str "25") (str "1"), .I (str "t")]

/-- The tags `W2 H2 F25:1 Im`. -/
def mixed_tags : List Y4mTag :=
  [.W (str "2"), .H (str "2"), .F (str "25") (str "1"), .I (str "m")]

/-- A handle on a file whose header declares mixed interlacing. -/
def mixed_handle : rs_hnd_t :=
  { rs_hnd_zero with file := str "YUV4MPEG2 W2 H2 F25:1 Im\nFRAME\nabcdef" }

/-- A handle on a file without frame marker after the header line. -/
def no_marker_handle : rs_hnd_t :=
  { rs_hnd_zero with file := str "YUV4MPEG2 W2 H2 F25:1\nFRAMX\nabcdef" }

/-- A handle on a file whose header has a `C` tag without value before ` Im`. -/
def swallowed_mixed_handle : rs_hnd_t :=
  { rs_hnd_zero with file := str "YUV4MPEG2 W2 H2 F25:1 C Im\nFRAME\nabcdef" }

/-- A handle on a file whose header newline is the last byte of the buffer. -/
def edge_newline_handle : rs_hnd_t :=
  { rs_hnd_zero with
    file := str "YUV4MPEG2" ++ List.replicate 246 120 ++ str "\nFRAMX\nabcdef" }

/-- A handle asking for `w` by `h` frames in the format named `fmt`. -/
def request (fmt : String) (w h : Int) : rs_hnd_t :=
  { rs_hnd_zero with
    src_format := str fmt,
    vi := { rs_hnd_zero.vi with width := w, height := h } }

/-- The row of the format table for a name, or the last row of the search. -/
def entry (fmt : String) : FormatEntry :=
  (format_lookup (str fmt)).getD (format_sentinel (str fmt))

/-- The handle `check_args` leaves for `request fmt w h` when the table has the name. -/
def session (fmt : String) (w h : Int) : rs_hnd_t :=
  resolved (request fmt w h) (entry fmt)

/-- A handle on a file whose header has a `C` tag with a value of 32 bytes. -/
def long_ctag_handle : rs_hnd_t :=
  { rs_hnd_zero with
    file := str "YUV4MPEG2 W2 H2 F25:1 C" ++ List.replicate 32 120 ++ str "\nFRAME\nabcdef" }

/-- A handle on a file whose header has a `C` tag with an unknown value of 31 bytes. -/
def short_ctag_handle : rs_hnd_t :=
  { rs_hnd_zero with
    file := str "YUV4MPEG2 W2 H2 F25:1 C" ++ List.replicate 31 120 ++ str "\nFRAME\nabcdef" }

/-- Arguments naming a headerless file of 13 bytes read as frames of width 0 that
are one byte apart. -/
def zero_width_args : Args :=
  { source := some (List.replicate 13 7), width := some 0, height := some 2,
    fpsnum := none, fpsden := none, off_header := none, off_frame := some 1, src_fmt := none }

/-- The handle `create_source` builds for `zero_width_args`. -/
def zero_width_opened : rs_hnd_t :=
  { file := List.replicate 13 7, file_size := 13, frame_size := 0, src_format := str "I420",
    order := [0, 1, 2, 9], off_header := 0, off_frame := 1,
    index := [1, 2, 3, 4, 5, 6, 7, 8, 9, 10, 11, 12, 13],
    write_frame := .write_planar_frame,
    vi := { format := .pfYUV420P8, fpsNum := 30000, fpsDen := 1001, width := 0, height := 2,
            numFrames := 13 } }

/-- Arguments naming a headerless file of 13 bytes read as `Y8` frames of width -1
and height 1 that are two bytes apart. -/
def negative_width_args : Args :=
  { source := some (List.replicate 13 7), width := some (-1), height := some 1,
    fpsnum := none, fpsden := none, off_header := none, off_frame := some 2,
    src_fmt := some (str "Y8") }

/-- The handle `create_source` builds for `negative_width_args`. -/
def negative_width_opened : rs_hnd_t :=
  { file := List.replicate 13 7, file_size := 13, frame_size := 4294967295,
    src_format := str "Y8", order := [0, 9, 9, 9], off_header := 0, off_frame := 2,
    index := [2, 4294967299, 8589934596, 12884901893, 17179869190, 21474836487,
      25769803784, 30064771081, 34359738378, 38654705675, 42949672972, 47244640269,
      51539607566],
    write_frame := .write_planar_frame,
    vi := { format := .pfGray8, fpsNum := 30000, fpsDen := 1001, width := -1, height := 1,
            numFrames := 13 } }

/-- A file whose header declares 3 by 119304647 frames in 4:4:4, followed by ten
bytes. -/
def overflow_file : List Nat :=
  str "YUV4MPEG2 W3 H119304647 F25:1 C444\nFRAME\nabcdefghij"

/-- The handle `create_source` builds for `overflow_file`. -/
def overflow_opened : rs_hnd_t :=
  { file := overflow_file, file_size := 51, frame_size := 4294967295,
    src_format := str "YUV444P8", order := [0, 1, 2, 9], off_header := 35, off_frame := 6,
    index := [41, 4294967342, 8589934643],
    write_frame := .write_planar_frame,
    vi := { format := .pfYUV444P8, fpsNum := 25, fpsDen := 1, width := 3,
            height := 119304647, numFrames := 3 } }

/-- The frame `write_px1x_frame` leaves for a 2 by 4 `P010` session, the bytes
0, 1, 2, ... in the scratch buffer and a zeroed frame with strides of 8 bytes. -/
def p010_2x4_decoded : VSFrameRef :=
  { planes :=
      [ { width := 2, height := 4, stride := 8,
          data := [0, 1, 2, 3, 0, 0, 0, 0, 4, 5, 6, 7, 0, 0, 0, 0,
                   0, 0, 0, 0, 0, 0, 0, 0, 0, 0, 0, 0, 0, 0, 0, 0] },
        { width := 1, height := 2, stride := 8,
          data := [8, 9, 0, 0, 0, 0, 0, 0, 12, 13, 0, 0, 0, 0, 0, 0] },
        { width := 1, height := 2, stride := 8,
          data := [10, 11, 0, 0, 0, 0, 0, 0, 14, 15, 0, 0, 0, 0, 0, 0] } ] }

/-- The frame `write_planar_frame` leaves for a 4 by 1 `YUV411P8` session and the
bytes 0, 1, 2, ... in the scratch buffer. -/
def yuv411p8_4x1_decoded : VSFrameRef :=
  { planes :=
      [ { width := 4, height := 1, stride := 8, data := [0, 1, 2, 3, 0, 0, 0, 0] },
        { width := 1, height := 1, stride := 8, data := [4, 0, 0, 0, 0, 0, 0, 0] },
        { width := 1, height := 1, stride := 8, data := [5, 0, 0, 0, 0, 0, 0, 0] } ] }

/-- The frame `write_planar_frame` leaves for a 4 by 1 `YV411` session and the
bytes 0, 1, 2, ... in the scratch buffer. -/
def yv411_4x1_decoded : VSFrameRef :=
  { planes :=
      [ { width := 4, height := 1, stride := 8, data := [0, 1, 2, 3, 0, 0, 0, 0] },
        { width := 4, height := 1, stride := 8, data := [8, 9, 10, 11, 0, 0, 0, 0] },
        { width := 4, height := 1, stride := 8, data := [4, 5, 6, 7, 0, 0, 0, 0] } ] }

/-- Arguments naming a headerless file of the 13 bytes 0, 1, ..., 12 read as 2x2
frames in the default format. -/
def ramp_args : Args :=
  { source := some (List.range 13), width := some 2, height := some 2,
    fpsnum := none, fpsden := none, off_header := none, off_frame := none, src_fmt := none }

/-- The handle `create_source` builds for `ramp_args`. -/
def ramp_handle : rs_hnd_t :=
  { file := List.range 13, file_size := 13, frame_size := 6, src_format := str "I420",
    order := [0, 1, 2, 9], off_header := 0, off_frame := 0, index := [0, 6],
    write_frame := .write_planar_frame,
    vi := { format := .pfYUV420P8, fpsNum := 30000, fpsDen := 1001, width := 2, height := 2,
            numFrames := 2 } }

/-- The frame `write_planar_frame` leaves for a 4 by 2 `YV411` session whose scratch
buffer holds the payload bytes 0, ..., 11 followed by 32 bytes of value 255. -/
def yv411_4x2_decoded : VSFrameRef :=
  { planes :=
      [ { width := 4, height := 2, stride := 8,
          data := [0, 1, 2, 3, 0, 0, 0, 0, 4, 5, 6, 7, 0, 0, 0, 0] },
        { width := 4, height := 2, stride := 8,
          data := [255, 255, 255, 255, 0, 0, 0, 0, 255, 255, 255, 255, 0, 0, 0, 0] },
        { width := 4, height := 2, stride := 8,
          data := [8, 9, 10, 11, 0, 0, 0, 0, 255, 255, 255, 255, 0, 0, 0, 0] } ] }

/-! # Theorems -/

set_option maxRecDepth 100000

/-! ## Machine integers -/

theorem wrap_i32_of_range (x : Int) (h1 : -2147483648 ≤ x) (h2 : x < 2147483648) :
    wrap_i32 x = x := by
  unfold wrap_i32; omega

theorem wrap_i32_range (x : Int) : -2147483648 ≤ wrap_i32 x ∧ wrap_i32 x < 2147483648 := by
  unfold wrap_i32; omega

theorem wrap_u32_of_range (x : Int) (h1 : 0 ≤ x) (h2 : x < 4294967296) :
    wrap_u32 x = x := by
  unfold wrap_u32; omega

theorem wrap_i64_of_range (x : Int) (h1 : -9223372036854775808 ≤ x)
    (h2 : x < 9223372036854775808) : wrap_i64 x = x := by
  unfold wrap_i64; omega

theorem wrap_i64_add_left (x y : Int) : wrap_i64 (wrap_i64 x + y) = wrap_i64 (x + y) := by
  unfold wrap_i64; omega

/-! ## The frame index (C2) and the frame count (C1) -/

theorem create_index_loop_length (off_frame frame_size : Int) (n : Nat) (pos : Int) :
    (create_index_loop off_frame frame_size n pos).length = n := by
  induction n generalizing pos with
  | zero => rfl
  | succ n ih => simp [create_index_loop, ih]

theorem create_index_loop_get (off_frame frame_size : Int) (n : Nat) :
    ∀ (pos : Int) (i : Nat), i < n →
      (create_index_loop off_frame frame_size n pos)[i]? =
        some (wrap_i64 (pos + off_frame + (i : Int) * (off_frame + frame_size))) := by
  induction n with
  | zero => intro pos i hi; omega
  | succ n ih =>
    intro pos i hi
    cases i with
    | zero => simp [create_index_loop]
    | succ i =>
      have hi2 : i < n := by omega
      simp only [create_index_loop, List.getElem?_cons_succ]
      rw [ih _ i hi2]
      congr 1
      rw [add_assoc (wrap_i64 _), wrap_i64_add_left, add_assoc (wrap_i64 _), wrap_i64_add_left]
      congr 1
      push_cast
      ring

theorem count_frames_val (rh : rs_hnd_t)
    (hfs : 0 ≤ rh.file_size) (hoh : 0 ≤ rh.off_header) (hoh2 : rh.off_header < 2147483648)
    (hpos : 0 < rh.off_frame + rh.frame_size)
    (hdiv : rh.off_frame + rh.frame_size < 4294967296)
    (hq : (rh.file_size - rh.off_header) / (rh.off_frame + rh.frame_size) < 2147483648) :
    ∃ n, count_frames rh = .ret n ∧
      (n < 1 ↔ (rh.file_size - rh.off_header) / (rh.off_frame + rh.frame_size) < 1) ∧
      (1 ≤ (rh.file_size - rh.off_header) / (rh.off_frame + rh.frame_size) →
        n = (rh.file_size - rh.off_header) / (rh.off_frame + rh.frame_size)) := by
  have hd : wrap_u32 (rh.off_frame + rh.frame_size) = rh.off_frame + rh.frame_size :=
    wrap_u32_of_range _ (le_of_lt hpos) hdiv
  have hne : rh.off_frame + rh.frame_size ≠ 0 := ne_of_gt hpos
  refine ⟨wrap_i32 ((rh.file_size - rh.off_header).tdiv (rh.off_frame + rh.frame_size)),
    by simp [count_frames, hd, hne], ?_⟩
  rcases le_or_lt 0 (rh.file_size - rh.off_header) with hN | hN
  · have ht := @Int.tdiv_eq_ediv (rh.file_size - rh.off_header)
      (rh.off_frame + rh.frame_size) hN (le_of_lt hpos)
    have hq0 : 0 ≤ (rh.file_size - rh.off_header) / (rh.off_frame + rh.frame_size) :=
      Int.ediv_nonneg hN (le_of_lt hpos)
    rw [ht, wrap_i32_of_range _ (by omega) hq]
    exact ⟨Iff.rfl, fun _ => rfl⟩
  · have hneg : (rh.file_size - rh.off_header) / (rh.off_frame + rh.frame_size) < 0 :=
      Int.ediv_neg' hN hpos
    have h1 : (rh.file_size - rh.off_header).tdiv (rh.off_frame + rh.frame_size)
        = -((-(rh.file_size - rh.off_header)) / (rh.off_frame + rh.frame_size)) := by
      rw [← @Int.tdiv_eq_ediv (-(rh.file_size - rh.off_header))
        (rh.off_frame + rh.frame_size) (by omega) (le_of_lt hpos), Int.neg_tdiv, neg_neg]
    have h2 : 0 ≤ (-(rh.file_size - rh.off_header)) / (rh.off_frame + rh.frame_size) :=
      Int.ediv_nonneg (by omega) (le_of_lt hpos)
    have h3 : (-(rh.file_size - rh.off_header)) / (rh.off_frame + rh.frame_size)
        ≤ -(rh.file_size - rh.off_header) :=
      Int.ediv_le_self _ (by omega)
    rw [h1, wrap_i32_of_range _ (by omega) (by omega)]
    constructor
    · constructor <;> intro _ <;> omega
    · intro h; omega

theorem create_source_frames_clip (rh : rs_hnd_t) (n : Int) (hc : count_frames rh = .ret n)
    (hn : 1 ≤ n) :
    create_source_frames rh = .ret (.clip
      { rh with
        vi := { rh.vi with numFrames := n },
        index := create_index_loop rh.off_frame rh.frame_size n.toNat rh.off_header }) := by
  have h1 : ¬ n < 1 := by omega
  have h2 : ¬ n < 0 := by omega
  simp [create_source_frames, hc, Exec.bind, h1, create_index, h2]

theorem create_source_frames_small (rh : rs_hnd_t) (n : Int) (hc : count_frames rh = .ret n) :
    create_source_frames rh = .ret (.error "too small file size") ↔ n < 1 := by
  constructor
  · intro h
    by_contra hn
    rw [create_source_frames_clip rh n hc (by omega)] at h
    simp at h
  · intro hn
    simp [create_source_frames, hc, Exec.bind, hn]

/-- C1 (amended).  For a handle with `0 ≤ file_size`, `0 ≤ off_header < 2^31`,
`0 < off_frame + frame_size < 2^32` and a quotient
`q = floor((file_size - off_header) / (off_frame + frame_size))` below `2^31`:
opening fails with "too small file size" exactly when `q < 1`; otherwise it goes on
with `numFrames = q`; in particular a file holding exactly `k ≥ 1` whole frames
after the header reports `numFrames = k`. -/
theorem create_source_frames_count (rh : rs_hnd_t)
    (hfs : 0 ≤ rh.file_size) (hoh : 0 ≤ rh.off_header) (hoh2 : rh.off_header < 2147483648)
    (hpos : 0 < rh.off_frame + rh.frame_size)
    (hdiv : rh.off_frame + rh.frame_size < 4294967296)
    (hq : (rh.file_size - rh.off_header) / (rh.off_frame + rh.frame_size) < 2147483648) :
    (create_source_frames rh = .ret (.error "too small file size") ↔
      (rh.file_size - rh.off_header) / (rh.off_frame + rh.frame_size) < 1) ∧
    (1 ≤ (rh.file_size - rh.off_header) / (rh.off_frame + rh.frame_size) →
      ∃ rh2, create_source_frames rh = .ret (.clip rh2) ∧
        rh2.vi.numFrames
          = (rh.file_size - rh.off_header) / (rh.off_frame + rh.frame_size)) ∧
    (∀ k : Int, 1 ≤ k →
      rh.file_size = rh.off_header + k * (rh.off_frame + rh.frame_size) →
      ∃ rh2, create_source_frames rh = .ret (.clip rh2) ∧ rh2.vi.numFrames = k) := by
  obtain ⟨n, hc, hlt, hge⟩ := count_frames_val rh hfs hoh hoh2 hpos hdiv hq
  have key : 1 ≤ (rh.file_size - rh.off_header) / (rh.off_frame + rh.frame_size) →
      ∃ rh2, create_source_frames rh = .ret (.clip rh2) ∧
        rh2.vi.numFrames
          = (rh.file_size - rh.off_header) / (rh.off_frame + rh.frame_size) := by
    intro h1
    have hn := hge h1
    exact ⟨_, create_source_frames_clip rh n hc (by omega), hn⟩
  refine ⟨(create_source_frames_small rh n hc).trans hlt, key, ?_⟩
  intro k hk hfile
  have hqk : (rh.file_size - rh.off_header) / (rh.off_frame + rh.frame_size) = k := by
    have : rh.file_size - rh.off_header = k * (rh.off_frame + rh.frame_size) := by omega
    rw [this]
    exact Int.mul_ediv_cancel k (ne_of_gt hpos)
  obtain ⟨rh2, h2, h3⟩ := key (by omega)
  exact ⟨rh2, h2, by omega⟩

/-- C1 (counterexample).  A file of `2^32` bytes read as one-byte frames without
offsets has the quotient `2^32`, which is not below 1, and yet opening fails with
"too small file size": the quotient does not fit the `int` member `numFrames`. -/
theorem count_frames_wraps :
    0 ≤ big_file_handle.off_header ∧ 0 ≤ big_file_handle.off_frame ∧
    0 < big_file_handle.off_frame + big_file_handle.frame_size ∧
    ¬ ((big_file_handle.file_size - big_file_handle.off_header)
        / (big_file_handle.off_frame + big_file_handle.frame_size) < 1) ∧
    create_source_frames big_file_handle = .ret (.error "too small file size") := by
  decide

theorem create_source_frames_inv (rh0 rh : rs_hnd_t)
    (h : create_source_frames rh0 = .ret (.clip rh)) :
    1 ≤ rh.vi.numFrames ∧ rh.vi.numFrames < 2147483648 ∧
    rh.index.length = rh.vi.numFrames.toNat := by
  cases hc : count_frames rh0 with
  | ret n =>
    rcases lt_or_le n 1 with hn | hn
    · rw [(create_source_frames_small rh0 n hc).mpr hn] at h
      simp at h
    · rw [create_source_frames_clip rh0 n hc hn] at h
      have hr : n = wrap_i32 ((rh0.file_size - rh0.off_header).tdiv
          (wrap_u32 (rh0.off_frame + rh0.frame_size))) := by
        unfold count_frames at hc
        dsimp only at hc
        split at hc
        · simp at hc
        · simpa using hc.symm
      simp only [Exec.ret.injEq, Opened.clip.injEq] at h
      subst h
      refine ⟨hn, ?_, by simp [create_index_loop_length]⟩
      show n < 2147483648
      rw [hr]
      exact (wrap_i32_range _).2
  | undefined => simp [create_source_frames, hc, Exec.bind] at h
  | nofuel => simp [create_source_frames, hc, Exec.bind] at h

theorem create_source_clip_frames (a : Args) (rh : rs_hnd_t)
    (h : create_source a = .ret (.clip rh)) :
    ∃ rh0, create_source_frames rh0 = .ret (.clip rh) := by
  unfold create_source at h
  split at h
  · simp at h
  · dsimp only at h
    split at h
    · simp at h
    · cases hy : check_y4m { rs_hnd_zero with file := _, file_size := _ } with
      | ret y =>
        rw [hy] at h
        simp only [Exec.bind] at h
        split at h
        · simp at h
        · split at h
          · simp at h
          · cases hb : (if y.1 > 0 then create_source_args a y.2 else Exec.ret y.2) with
            | ret r =>
              rw [hb] at h
              dsimp only at h
              cases hca : check_args r with
              | ret ca =>
                rw [hca] at h
                dsimp only at h
                split at h
                · simp at h
                · exact ⟨_, h⟩
              | undefined => rw [hca] at h; simp at h
              | nofuel => rw [hca] at h; simp at h
            | undefined => rw [hb] at h; simp at h
            | nofuel => rw [hb] at h; simp at h
      | undefined => rw [hy] at h; simp [Exec.bind] at h
      | nofuel => rw [hy] at h; simp [Exec.bind] at h

theorem create_source_clip_inv (a : Args) (rh : rs_hnd_t)
    (h : create_source a = .ret (.clip rh)) :
    1 ≤ rh.vi.numFrames ∧ rh.vi.numFrames < 2147483648 ∧
    rh.index.length = rh.vi.numFrames.toNat := by
  obtain ⟨rh0, h0⟩ := create_source_clip_frames a rh h
  exact create_source_frames_inv rh0 rh h0

/-- Witness for C1: a file of 13 bytes read as frames of 6 bytes has 2 frames. -/
theorem create_source_frames_count_witness :
    ∃ rh2, create_source_frames two_frame_resolved = .ret (.clip rh2) ∧
      rh2.vi.numFrames
        = (two_frame_resolved.file_size - two_frame_resolved.off_header)
          / (two_frame_resolved.off_frame + two_frame_resolved.frame_size) :=
  (create_source_frames_count two_frame_resolved (by decide) (by decide) (by decide)
    (by decide) (by decide) (by decide)).2.1 (by decide)

theorem strcasecmp_eq_self (t : List Nat) : strcasecmp_eq t t = true := by
  simp [strcasecmp_eq]

theorem check_args_loop_find (t : List Nat) (tbl : List FormatEntry) :
    check_args_loop t (tbl ++ [format_sentinel t]) =
      .ret ((tbl.find? (fun e => strcasecmp_eq t e.format_name)).getD (format_sentinel t)) := by
  induction tbl with
  | nil => simp [check_args_loop, format_sentinel, strcasecmp_eq_self]
  | cons e es ih =>
    by_cases h : strcasecmp_eq t e.format_name = true
    · simp [check_args_loop, h, List.find?]
    · simp only [Bool.not_eq_true] at h
      simp [check_args_loop, h, List.find?, ih]

theorem format_table_vsformat : ∀ e ∈ format_table, e.vsformat ≠ .pfNone := by
  decide

theorem format_table_arith : ∀ e ∈ format_table,
    0 < e.subsample_h ∧ 0 < e.subsample_v ∧ 0 < e.bits_per_pix ∧
    (8 : Int) ∣ e.subsample_h * e.subsample_v * e.bits_per_pix := by
  decide

theorem format_table_names : ∀ e ∈ format_table, format_lookup e.format_name = some e := by
  decide

theorem format_lookup_mem (t : List Nat) (e : FormatEntry) (h : format_lookup t = some e) :
    e ∈ format_table ∧ strcasecmp_eq t e.format_name = true := by
  unfold format_lookup at h
  exact ⟨List.mem_of_find?_eq_some h, by simpa using List.find?_some h⟩

theorem check_args_none (rh : rs_hnd_t) (h : format_lookup rh.src_format = none) :
    check_args rh = .ret (some "unsupported format", rh) := by
  unfold format_lookup at h
  simp only [check_args, check_args_loop_find, h, Exec.bind, Option.getD_none]
  simp [format_sentinel]

theorem check_args_some (rh : rs_hnd_t) (e : FormatEntry)
    (h : format_lookup rh.src_format = some e) :
    check_args rh =
      if ¬ e.subsample_h ∣ rh.vi.width then .ret (some "invalid width was specified", rh)
      else if ¬ e.subsample_v ∣ rh.vi.height then
        .ret (some "invalid height was specified", rh)
      else .ret (none, resolved rh e) := by
  have hv := format_table_vsformat e (format_lookup_mem _ _ h).1
  unfold format_lookup at h
  have hw : (Int.tmod rh.vi.width e.subsample_h ≠ 0) ↔ ¬ e.subsample_h ∣ rh.vi.width :=
    not_congr ⟨Int.dvd_of_tmod_eq_zero, Int.tmod_eq_zero_of_dvd⟩
  have hh : (Int.tmod rh.vi.height e.subsample_v ≠ 0) ↔ ¬ e.subsample_v ∣ rh.vi.height :=
    not_congr ⟨Int.dvd_of_tmod_eq_zero, Int.tmod_eq_zero_of_dvd⟩
  simp only [check_args, check_args_loop_find, h, Exec.bind, Option.getD_some, hv, if_false,
    hw, hh, resolved]

/-- C4.  For every format tag, width and height in the handle: `check_args` fails
with "unsupported format" if and only if no row of the format table has a name
equal to the tag ignoring letter case; otherwise, with `e` the matched row, it
fails with an invalid width or invalid height message if and only if the width is
not divisible by `e.subsample_h` or the height is not divisible by
`e.subsample_v`; otherwise it succeeds and stores the plane order, the frame
writer, the preset and the payload size computed from `e.bits_per_pix`. -/
theorem check_args_outcome (rh : rs_hnd_t) :
    (check_args rh = .ret (some "unsupported format", rh) ↔
      ∀ e ∈ format_table, strcasecmp_eq rh.src_format e.format_name = false) ∧
    (∀ e, format_lookup rh.src_format = some e →
      ((check_args rh = .ret (some "invalid width was specified", rh) ∨
          check_args rh = .ret (some "invalid height was specified", rh)) ↔
        (¬ e.subsample_h ∣ rh.vi.width ∨ ¬ e.subsample_v ∣ rh.vi.height)) ∧
      (e.subsample_h ∣ rh.vi.width → e.subsample_v ∣ rh.vi.height →
        check_args rh = .ret (none, resolved rh e) ∧
        (resolved rh e).order = e.order ∧ (resolved rh e).write_frame = e.func ∧
        (resolved rh e).vi.format = e.vsformat ∧
        (resolved rh e).frame_size = wrap_u32
          (wrap_i32 (wrap_i32 (rh.vi.width * rh.vi.height) * e.bits_per_pix) / 8))) := by
  constructor
  · constructor
    · intro h
      cases hl : format_lookup rh.src_format with
      | none =>
        unfold format_lookup at hl
        simpa using hl
      | some e =>
        rw [check_args_some rh e hl] at h
        split_ifs at h <;> simp at h
    · intro h
      apply check_args_none
      unfold format_lookup
      simpa using h
  · intro e he
    rw [check_args_some rh e he]
    constructor
    · by_cases hw : e.subsample_h ∣ rh.vi.width <;> by_cases hh : e.subsample_v ∣ rh.vi.height <;>
        simp [hw, hh]
    · intro hw hh
      simp [hw, hh, resolved]

/-- C5.  For every row `e` of the format table and every width and height, both at
least 1, that pass the divisibility check of `e`, with
`width * height * bits_per_pix` representable in an `int`: that product is
divisible by 8 and `check_args` computes a payload size with
`frame_size * 8 = width * height * bits_per_pix`. -/
theorem check_args_frame_size_exact (rh : rs_hnd_t) (e : FormatEntry)
    (he : e ∈ format_table) (hname : rh.src_format = e.format_name)
    (hw : 1 ≤ rh.vi.width) (hh : 1 ≤ rh.vi.height)
    (hdw : e.subsample_h ∣ rh.vi.width) (hdh : e.subsample_v ∣ rh.vi.height)
    (hfit : rh.vi.width * rh.vi.height * e.bits_per_pix < 2147483648) :
    (8 : Int) ∣ rh.vi.width * rh.vi.height * e.bits_per_pix ∧
    ∃ rh2, check_args rh = .ret (none, rh2) ∧
      rh2.frame_size * 8 = rh.vi.width * rh.vi.height * e.bits_per_pix := by
  obtain ⟨hsh, hsv, hbpp, h8⟩ := format_table_arith e he
  have hl : format_lookup rh.src_format = some e := by
    rw [hname]; exact format_table_names e he
  have hdiv : (8 : Int) ∣ rh.vi.width * rh.vi.height * e.bits_per_pix := by
    obtain ⟨a, ha⟩ := hdw
    obtain ⟨b, hb⟩ := hdh
    rw [ha, hb]
    have : e.subsample_h * a * (e.subsample_v * b) * e.bits_per_pix
        = (e.subsample_h * e.subsample_v * e.bits_per_pix) * (a * b) := by ring
    rw [this]
    exact Dvd.dvd.mul_right h8 _
  refine ⟨hdiv, resolved rh e, ?_, ?_⟩
  · rw [check_args_some rh e hl]
    simp [hdw, hdh]
  · have hwh : 0 < rh.vi.width * rh.vi.height := by positivity
    have hle : rh.vi.width * rh.vi.height ≤ rh.vi.width * rh.vi.height * e.bits_per_pix := by
      nlinarith
    have h1 : wrap_i32 (rh.vi.width * rh.vi.height) = rh.vi.width * rh.vi.height :=
      wrap_i32_of_range _ (by omega) (by omega)
    have h2 : wrap_i32 (rh.vi.width * rh.vi.height * e.bits_per_pix)
        = rh.vi.width * rh.vi.height * e.bits_per_pix :=
      wrap_i32_of_range _ (by omega) hfit
    obtain ⟨c, hc⟩ := hdiv
    have h3 : rh.vi.width * rh.vi.height * e.bits_per_pix / 8 = c := by
      rw [hc]; exact Int.mul_ediv_cancel_left c (by decide)
    show wrap_u32 (wrap_i32 (wrap_i32 (rh.vi.width * rh.vi.height) * e.bits_per_pix) / 8) * 8 = _
    rw [h1, h2, h3, wrap_u32_of_range c (by omega) (by omega)]
    omega

/-- Witness for C4: `yv12` at 176x144 resolves to the row `YV12`; `i420` at 175x144
is refused for its width. -/
theorem check_args_outcome_witness :
    (check_args yv12_handle = .ret (none, resolved yv12_handle
        (.row "YV12" 2 2 12 [0, 2, 1, 9] .pfYUV420P8 .write_planar_frame)) ∧
      (resolved yv12_handle
        (.row "YV12" 2 2 12 [0, 2, 1, 9] .pfYUV420P8 .write_planar_frame)).order
        = [0, 2, 1, 9]) ∧
    check_args odd_width_handle = .ret (some "invalid width was specified", odd_width_handle) :=
  ⟨⟨(((check_args_outcome yv12_handle).2 _ (by rfl)).2 (by decide) (by decide)).1,
    (((check_args_outcome yv12_handle).2 _ (by rfl)).2 (by decide) (by decide)).2.1⟩,
   by rfl⟩

/-- Witness for C5: `YUV9` at 4x4 has 144 bits, that is 18 bytes. -/
theorem check_args_frame_size_exact_witness :
    (8 : Int) ∣ yuv9_handle.vi.width * yuv9_handle.vi.height * 9 ∧
    ∃ rh2, check_args yuv9_handle = .ret (none, rh2) ∧
      rh2.frame_size * 8 = yuv9_handle.vi.width * yuv9_handle.vi.height * 9 :=
  check_args_frame_size_exact yuv9_handle
    (.row "YUV9" 4 4 9 [0, 1, 2, 9] .pfYUV410P8 .write_planar_frame)
    (by decide) (by rfl) (by decide) (by decide) (by decide) (by decide) (by decide)

/-! ## The header reader: the bound on the scan loop -/

theorem Exec.bind_eq_ret {α β : Type} (x : Exec α) (f : α → Exec β) (b : β) :
    x.bind f = .ret b ↔ ∃ a, x = .ret a ∧ f a = .ret b := by
  cases x <;> simp [Exec.bind]

theorem Exec.bind_ret {α β : Type} (a : α) (f : α → Exec β) :
    (Exec.ret a).bind f = f a := rfl

theorem y4m_tag_W_i (buff : List Nat) (st st2 : Y4mState)
    (h : y4m_tag_W buff st = .ret (.next st2)) : st.i ≤ st2.i := by
  simp only [y4m_tag_W, Exec.bind_eq_ret] at h
  obtain ⟨m, -, h⟩ := h
  cases m
  · simp only [Bool.false_eq_true, if_false, Exec.ret.injEq, Flow.next.injEq] at h
    subst h; exact le_refl _
  · simp only [if_true, Exec.bind_eq_ret] at h
    obtain ⟨v, -, h⟩ := h
    split at h
    · simp at h
    · simp only [Exec.ret.injEq, Flow.next.injEq] at h
      subst h; simp

theorem y4m_tag_H_i (buff : List Nat) (st st2 : Y4mState)
    (h : y4m_tag_H buff st = .ret (.next st2)) : st.i ≤ st2.i := by
  simp only [y4m_tag_H, Exec.bind_eq_ret] at h
  obtain ⟨m, -, h⟩ := h
  cases m
  · simp only [Bool.false_eq_true, if_false, Exec.ret.injEq, Flow.next.injEq] at h
    subst h; exact le_refl _
  · simp only [if_true, Exec.bind_eq_ret] at h
    obtain ⟨v, -, h⟩ := h
    split at h
    · simp at h
    · simp only [Exec.ret.injEq, Flow.next.injEq] at h
      subst h; simp

theorem y4m_tag_F_i (buff : List Nat) (st st2 : Y4mState)
    (h : y4m_tag_F buff st = .ret (.next st2)) : st.i ≤ st2.i := by
  simp only [y4m_tag_F, Exec.bind_eq_ret] at h
  obtain ⟨m, -, h⟩ := h
  cases m
  · simp only [Bool.false_eq_true, if_false, Exec.ret.injEq, Flow.next.injEq] at h
    subst h; exact le_refl _
  · simp only [if_true, Exec.bind_eq_ret] at h
    obtain ⟨v, -, h⟩ := h
    split at h
    · simp at h
    · simp only [Exec.ret.injEq, Flow.next.injEq] at h
      subst h; simp

theorem y4m_tag_I_i (buff : List Nat) (st st2 : Y4mState)
    (h : y4m_tag_I buff st = .ret (.next st2)) : st.i ≤ st2.i := by
  simp only [y4m_tag_I, Exec.bind_eq_ret] at h
  obtain ⟨m, -, h⟩ := h
  cases m
  · simp only [Bool.false_eq_true, if_false, Exec.ret.injEq, Flow.next.injEq] at h
    subst h; exact le_refl _
  · simp only [if_true] at h
    split at h
    · simp at h
    · split at h
      · simp at h
      · simp only [Exec.ret.injEq, Flow.next.injEq] at h
        subst h; simp

theorem y4m_tag_C_i (buff : List Nat) (st st2 : Y4mState)
    (h : y4m_tag_C buff st = .ret (.next st2)) : st.i ≤ st2.i := by
  simp only [y4m_tag_C, Exec.bind_eq_ret] at h
  obtain ⟨m, -, h⟩ := h
  cases m
  · simp only [Bool.false_eq_true, if_false, Exec.ret.injEq, Flow.next.injEq] at h
    subst h; exact le_refl _
  · simp only [if_true, Exec.bind_eq_ret] at h
    obtain ⟨v, -, f, -, h⟩ := h
    simp only [Exec.ret.injEq, Flow.next.injEq] at h
    subst h; simp

theorem y4m_end_check_i (st st2 : Y4mState)
    (h : y4m_end_check st = .ret (.next st2)) : st.i ≤ st2.i := by
  unfold y4m_end_check at h
  split at h
  · simp at h
  · simp only [Exec.ret.injEq, Flow.next.injEq] at h
    subst h; exact le_refl _

theorem Flow.andThen_next (x : Exec Flow) (f : Y4mState → Exec Flow) (st2 : Y4mState)
    (h : Flow.andThen x f = .ret (.next st2)) :
    ∃ st1, x = .ret (.next st1) ∧ f st1 = .ret (.next st2) := by
  simp only [Flow.andThen, Exec.bind_eq_ret] at h
  obtain ⟨fl, hx, h⟩ := h
  cases fl with
  | leave code rh => simp at h
  | next st1 => exact ⟨st1, hx, h⟩

theorem y4m_body_i (buff : List Nat) (st st2 : Y4mState)
    (h : y4m_body buff st = .ret (.next st2)) : st.i ≤ st2.i := by
  unfold y4m_body at h
  obtain ⟨s5, h, h6⟩ := Flow.andThen_next _ _ _ h
  obtain ⟨s4, h, h5⟩ := Flow.andThen_next _ _ _ h
  obtain ⟨s3, h, h4⟩ := Flow.andThen_next _ _ _ h
  obtain ⟨s2, h, h3⟩ := Flow.andThen_next _ _ _ h
  obtain ⟨s1, h, h2⟩ := Flow.andThen_next _ _ _ h
  have := y4m_tag_W_i _ _ _ h
  have := y4m_tag_H_i _ _ _ h2
  have := y4m_tag_F_i _ _ _ h3
  have := y4m_tag_I_i _ _ _ h4
  have := y4m_tag_C_i _ _ _ h5
  have := y4m_end_check_i _ _ h6
  omega

theorem y4m_loop_succ (buff : List Nat) (f : Nat) (st : Y4mState) :
    y4m_loop buff (f + 1) st =
      match buff.drop st.i with
      | [] => .undefined
      | c :: _ =>
        if c = 10 then y4m_after buff st
        else
          (y4m_body buff st).bind fun fl =>
          match fl with
          | .leave code rh => .ret (code, rh)
          | .next st2 => y4m_loop buff f { st2 with i := st2.i + 1 } := by
  rw [y4m_loop]

theorem y4m_loop_fuel (buff : List Nat) (hlen : buff.length ≤ 256) (f : Nat) :
    ∀ st : Y4mState, 257 ≤ f + 1 + st.i →
      y4m_loop buff (f + 2) st = y4m_loop buff (f + 1) st := by
  induction f with
  | zero =>
    intro st h
    have hd : buff.drop st.i = [] := List.drop_eq_nil_of_le (by omega)
    simp [y4m_loop, hd]
  | succ f ih =>
    intro st h
    rw [y4m_loop_succ buff (f + 1 + 1), y4m_loop_succ buff (f + 1)]
    cases hd : buff.drop st.i with
    | nil => rfl
    | cons c r =>
      dsimp only
      split
      · rfl
      · cases hb : y4m_body buff st with
        | ret fl =>
          cases fl with
          | leave code rh => rfl
          | next st2 =>
            have := y4m_body_i _ _ _ hb
            simp only [Exec.bind]
            exact ih _ (by simp only []; omega)
        | undefined => rfl
        | nofuel => rfl

theorem y4m_loop_step (buff : List Nat) (hlen : buff.length ≤ 256) (st : Y4mState) :
    y4m_loop buff 257 st =
      match buff.drop st.i with
      | [] => .undefined
      | c :: _ =>
        if c = 10 then y4m_after buff st
        else
          (y4m_body buff st).bind fun fl =>
          match fl with
          | .leave code rh => .ret (code, rh)
          | .next st2 => y4m_loop buff 257 { st2 with i := st2.i + 1 } := by
  rw [show (257 : Nat) = 256 + 1 from rfl, y4m_loop_succ buff 256]
  cases hd : buff.drop st.i with
  | nil => rfl
  | cons c r =>
    dsimp only
    split
    · rfl
    · cases hb : y4m_body buff st with
      | ret fl =>
        cases fl with
        | leave code rh => simp only [Exec.bind]
        | next st2 =>
          simp only [Exec.bind]
          exact (y4m_loop_fuel buff hlen 255 _ (by simp only []; omega)).symm
      | undefined => simp only [Exec.bind]
      | nofuel => simp only [Exec.bind]

theorem y4m_after_ne_nofuel (buff : List Nat) (st : Y4mState) :
    y4m_after buff st ≠ .nofuel := by
  unfold y4m_after
  dsimp only
  cases hm : strncmp_eq (buff.drop (st.i + 1)) (str "FRAME\n") with
  | ret m =>
    simp only [Exec.bind]
    split
    · simp
    · split <;> simp
  | undefined => simp [Exec.bind]
  | nofuel =>
    exfalso
    revert hm
    generalize buff.drop (st.i + 1) = s
    generalize str "FRAME\n" = l
    induction l generalizing s with
    | nil => simp [strncmp_eq]
    | cons x xs ih =>
      cases s with
      | nil => simp [strncmp_eq]
      | cons c s =>
        simp only [strncmp_eq]
        split
        · exact ih s
        · simp

/-! ## The header reader: blocks of the loop body -/

theorem str_W : str " W" = [32, 87] := by decide

theorem str_H : str " H" = [32, 72] := by decide

theorem str_F : str " F" = [32, 70] := by decide

theorem str_I : str " I" = [32, 73] := by decide

theorem str_C : str " C" = [32, 67] := by decide

theorem strncmp_eq_two_head (c l : Nat) (r : List Nat) (h : c ≠ 32) :
    strncmp_eq (c :: r) [32, l] = .ret false := by
  simp [strncmp_eq, h]

theorem strncmp_eq_two (d l : Nat) (r : List Nat) :
    strncmp_eq (32 :: d :: r) [32, l] = .ret (decide (d = l)) := by
  by_cases h : d = l <;> simp [strncmp_eq, h]

theorem drop_of_drop_append {l : List Nat} {i : Nat} {a b : List Nat}
    (h : l.drop i = a ++ b) : l.drop (i + a.length) = b := by
  rw [← List.drop_drop, h, List.drop_left]

theorem drop_succ_of_drop_cons {l : List Nat} {i : Nat} {c : Nat} {r : List Nat}
    (h : l.drop i = c :: r) : l.drop (i + 1) = r :=
  drop_of_drop_append (a := [c]) h

theorem drop_two_of_drop_cons {l : List Nat} {i : Nat} {c d : Nat} {r : List Nat}
    (h : l.drop i = c :: d :: r) : l.drop (i + 2) = r :=
  drop_of_drop_append (a := [c, d]) h

theorem Flow.andThen_ret_next (st : Y4mState) (f : Y4mState → Exec Flow) :
    Flow.andThen (.ret (.next st)) f = f st := rfl

theorem Flow.andThen_ret_leave (code : Int) (rh : rs_hnd_t) (f : Y4mState → Exec Flow) :
    Flow.andThen (.ret (.leave code rh)) f = .ret (.leave code rh) := rfl

theorem y4m_tag_W_skip (buff : List Nat) (st : Y4mState)
    (h : strncmp_eq (buff.drop st.i) [32, 87] = .ret false) :
    y4m_tag_W buff st = .ret (.next st) := by
  simp [y4m_tag_W, str_W, h, Exec.bind]

theorem y4m_tag_H_skip (buff : List Nat) (st : Y4mState)
    (h : strncmp_eq (buff.drop st.i) [32, 72] = .ret false) :
    y4m_tag_H buff st = .ret (.next st) := by
  simp [y4m_tag_H, str_H, h, Exec.bind]

theorem y4m_tag_F_skip (buff : List Nat) (st : Y4mState)
    (h : strncmp_eq (buff.drop st.i) [32, 70] = .ret false) :
    y4m_tag_F buff st = .ret (.next st) := by
  simp [y4m_tag_F, str_F, h, Exec.bind]

theorem y4m_tag_I_skip (buff : List Nat) (st : Y4mState)
    (h : strncmp_eq (buff.drop st.i) [32, 73] = .ret false) :
    y4m_tag_I buff st = .ret (.next st) := by
  simp [y4m_tag_I, str_I, h, Exec.bind]

theorem y4m_tag_C_skip (buff : List Nat) (st : Y4mState)
    (h : strncmp_eq (buff.drop st.i) [32, 67] = .ret false) :
    y4m_tag_C buff st = .ret (.next st) := by
  simp [y4m_tag_C, str_C, h, Exec.bind]

theorem y4m_end_check_skip (st : Y4mState) (h : st.i ≠ 255) :
    y4m_end_check st = .ret (.next st) := by
  simp [y4m_end_check, h]

/-- The body does nothing at a byte that is not a space. -/
theorem y4m_body_nonspace (buff : List Nat) (st : Y4mState) (c : Nat) (r : List Nat)
    (hd : buff.drop st.i = c :: r) (hc : c ≠ 32) (hi : st.i ≠ 255) :
    y4m_body buff st = .ret (.next st) := by
  have h (l : Nat) : strncmp_eq (buff.drop st.i) [32, l] = .ret false := by
    rw [hd]; exact strncmp_eq_two_head c l r hc
  simp only [y4m_body, y4m_tag_W_skip _ _ (h _), y4m_tag_H_skip _ _ (h _),
    y4m_tag_F_skip _ _ (h _), y4m_tag_I_skip _ _ (h _), y4m_tag_C_skip _ _ (h _),
    y4m_end_check_skip _ hi, Flow.andThen_ret_next]

/-- The body does nothing at a space that no tag letter follows. -/
theorem y4m_body_other (buff : List Nat) (st : Y4mState) (d : Nat) (r : List Nat)
    (hd : buff.drop st.i = 32 :: d :: r)
    (hl : d ≠ 87 ∧ d ≠ 72 ∧ d ≠ 70 ∧ d ≠ 73 ∧ d ≠ 67) (hi : st.i ≠ 255) :
    y4m_body buff st = .ret (.next st) := by
  have h (l : Nat) (hne : d ≠ l) : strncmp_eq (buff.drop st.i) [32, l] = .ret false := by
    rw [hd, strncmp_eq_two]; simp [hne]
  simp only [y4m_body, y4m_tag_W_skip _ _ (h _ hl.1), y4m_tag_H_skip _ _ (h _ hl.2.1),
    y4m_tag_F_skip _ _ (h _ hl.2.2.1), y4m_tag_I_skip _ _ (h _ hl.2.2.2.1),
    y4m_tag_C_skip _ _ (h _ hl.2.2.2.2), y4m_end_check_skip _ hi, Flow.andThen_ret_next]

/-- One iteration of the loop at a position where the body does nothing. -/
theorem y4m_loop_idle (buff : List Nat) (hlen : buff.length ≤ 256) (st : Y4mState)
    (c : Nat) (r : List Nat) (hd : buff.drop st.i = c :: r) (hc : c ≠ 10)
    (hb : y4m_body buff st = .ret (.next st)) :
    y4m_loop buff 257 st = y4m_loop buff 257 { st with i := st.i + 1 } := by
  rw [y4m_loop_step buff hlen, hd]
  simp only [hc, if_false, hb, Exec.bind]

/-- The loop walks over a run of bytes that are neither spaces nor newlines. -/
theorem y4m_loop_run (buff : List Nat) (hlen : buff.length ≤ 256) (run : List Nat) :
    ∀ (i : Nat) (rh : rs_hnd_t) (ctag rest : List Nat),
      buff.drop i = run ++ rest → (∀ c ∈ run, c ≠ 32 ∧ c ≠ 10) → i + run.length ≤ 255 →
      y4m_loop buff 257 { i := i, rh := rh, ctag := ctag } =
        y4m_loop buff 257 { i := i + run.length, rh := rh, ctag := ctag } := by
  induction run with
  | nil => intro i rh ctag rest _ _ _; rfl
  | cons c run ih =>
    intro i rh ctag rest hd hrun hi
    have hc := hrun c (List.mem_cons_self _ _)
    simp only [List.length_cons] at hi
    rw [y4m_loop_idle buff hlen _ c (run ++ rest) hd hc.2
      (y4m_body_nonspace buff _ c (run ++ rest) hd hc.1 (by simp only []; omega))]
    rw [ih (i + 1) rh ctag rest (drop_succ_of_drop_cons hd)
      (fun x hx => hrun x (List.mem_cons_of_mem _ hx)) (by omega)]
    simp only [List.length_cons]
    congr 2
    omega

/-! ## The header reader: conversions of `sscanf` -/

theorem scan_run_append (p : Nat → Bool) (ds : List Nat) (c : Nat) (rest : List Nat)
    (hds : ∀ x ∈ ds, p x = true) (hc : p c = false) :
    scan_run p (ds ++ c :: rest) = .ret (ds, c :: rest) := by
  have h1 : (ds ++ c :: rest).dropWhile p = c :: rest := by
    induction ds with
    | nil => simp [List.dropWhile, hc]
    | cons d ds ih =>
      simp only [List.cons_append, List.dropWhile, hds d (List.mem_cons_self _ _)]
      exact ih (fun x hx => hds x (List.mem_cons_of_mem _ hx))
  have h2 : ∀ l : List Nat, (∀ x ∈ l, p x = true) → (l ++ c :: rest).takeWhile p = l := by
    intro l
    induction l with
    | nil => intro _; simp [List.takeWhile, hc]
    | cons d l ih =>
      intro hl
      rw [List.cons_append, List.takeWhile_cons, hl d (List.mem_cons_self _ _)]
      simp only [if_true]
      rw [ih (fun x hx => hl x (List.mem_cons_of_mem _ hx))]
  simp only [scan_run, h1, h2 ds hds]

theorem isdigit_bounds (c : Nat) (h : isdigit c = true) : 48 ≤ c ∧ c ≤ 57 := by
  simpa [isdigit] using h

theorem skip_space_nonspace (c : Nat) (s : List Nat) (h : isspace c = false) :
    skip_space (c :: s) = .ret (c :: s) := by
  simp [skip_space, h]

theorem isspace_of_isdigit (c : Nat) (h : isdigit c = true) : isspace c = false := by
  have := isdigit_bounds c h
  simp only [isspace, Bool.or_eq_false_iff, beq_eq_false_iff_ne, Bool.and_eq_false_iff,
    decide_eq_false_iff_not]
  omega

theorem scan_sign_digit (c : Nat) (s : List Nat) (h : isdigit c = true) :
    scan_sign (c :: s) = (false, c :: s) := by
  have := isdigit_bounds c h
  have h1 : c ≠ 45 := by omega
  have h2 : c ≠ 43 := by omega
  simp [scan_sign, h1, h2]

theorem sscanf_d_numeral (ds : List Nat) (c : Nat) (rest : List Nat) (hne : ds ≠ [])
    (hds : ∀ x ∈ ds, isdigit x = true) (hc : isdigit c = false)
    (hv : digits_val 10 ds < 2147483648) (hz : 0 ∈ c :: rest) :
    sscanf_d (ds ++ c :: rest) = .ret (some (digits_val 10 ds : Int)) := by
  cases ds with
  | nil => exact absurd rfl hne
  | cons d ds =>
    have hd := hds d (List.mem_cons_self _ _)
    have hmem : 0 ∈ d :: (ds ++ c :: rest) :=
      List.mem_cons_of_mem _ (List.mem_append_right _ hz)
    have hrun := scan_run_append isdigit (d :: ds) c rest hds hc
    simp only [List.cons_append] at hrun
    have h1 : (-2147483648 : Int) ≤ (digits_val 10 (d :: ds) : Int) := by omega
    have h2 : ((digits_val 10 (d :: ds) : Nat) : Int) < 2147483648 := by omega
    simp only [sscanf_d, List.cons_append, hmem, if_true,
      skip_space_nonspace d _ (isspace_of_isdigit d hd),
      Exec.bind, scan_sign_digit d _ hd, hrun, signed]
    simp [h1, h2]

theorem scan_i64_numeral (ds : List Nat) (c : Nat) (rest : List Nat) (hne : ds ≠ [])
    (hds : ∀ x ∈ ds, isdigit x = true) (h0 : ds.head? ≠ some 48) (hc : isdigit c = false)
    (hv : digits_val 10 ds < 9223372036854775808) :
    scan_i64 (ds ++ c :: rest) = .ret (some (digits_val 10 ds : Int), c :: rest) := by
  cases ds with
  | nil => exact absurd rfl hne
  | cons d ds =>
    have hd := hds d (List.mem_cons_self _ _)
    have hd48 : d ≠ 48 := by simpa using h0
    have hrun := scan_run_append isdigit (d :: ds) c rest hds hc
    simp only [List.cons_append] at hrun
    have h1 : (-9223372036854775808 : Int) ≤ (digits_val 10 (d :: ds) : Int) := by omega
    have h2 : ((digits_val 10 (d :: ds) : Nat) : Int) < 9223372036854775808 := by omega
    simp only [scan_i64, List.cons_append, skip_space_nonspace d _ (isspace_of_isdigit d hd),
      Exec.bind, scan_sign_digit d _ hd, scan_based, List.head?_cons, Option.some.injEq, hd48,
      if_false, hrun, signed]
    simp [h1, h2]

theorem sscanf_i64_colon_i64_numerals (ns ds : List Nat) (c : Nat) (rest : List Nat)
    (hnne : ns ≠ []) (hns : ∀ x ∈ ns, isdigit x = true) (hn0 : ns.head? ≠ some 48)
    (hnv : digits_val 10 ns < 9223372036854775808)
    (hdne : ds ≠ []) (hds : ∀ x ∈ ds, isdigit x = true) (hd0 : ds.head? ≠ some 48)
    (hdv : digits_val 10 ds < 9223372036854775808) (hc : isdigit c = false)
    (hz : 0 ∈ c :: rest) :
    sscanf_i64_colon_i64 (ns ++ 58 :: (ds ++ c :: rest)) =
      .ret (some (digits_val 10 ns : Int), some (digits_val 10 ds : Int)) := by
  have hmem : 0 ∈ ns ++ 58 :: (ds ++ c :: rest) :=
    List.mem_append_right _ (List.mem_cons_of_mem _ (List.mem_append_right _ hz))
  simp only [sscanf_i64_colon_i64, hmem, if_true,
    scan_i64_numeral ns 58 (ds ++ c :: rest) hnne hns hn0 (by decide) hnv,
    scan_i64_numeral ds c rest hdne hds hd0 hc hdv, Exec.bind]

theorem sscanf_s_word (t : List Nat) (c : Nat) (rest : List Nat) (hne : t ≠ [])
    (ht : ∀ x ∈ t, isspace x = false ∧ x ≠ 0) (hc : isspace c = true ∨ c = 0)
    (hlen : t.length < 32) (hz : 0 ∈ c :: rest) :
    sscanf_s (t ++ c :: rest) = .ret (some t) := by
  cases t with
  | nil => exact absurd rfl hne
  | cons d t =>
    have hd := ht d (List.mem_cons_self _ _)
    have hmem : 0 ∈ d :: (t ++ c :: rest) :=
      List.mem_cons_of_mem _ (List.mem_append_right _ hz)
    have hrun := scan_run_append (fun c => !isspace c && c != 0) (d :: t) c rest
      (by intro x hx; have := ht x hx; simp [this.1, this.2])
      (by rcases hc with h | h <;> simp [h])
    simp only [List.cons_append] at hrun
    simp only [sscanf_s, List.cons_append, hmem, if_true, skip_space_nonspace d _ hd.1,
      Exec.bind, hrun]
    simp only [List.length_cons] at hlen
    simp [hlen]

theorem get_format_loop_find (ctag dflt : List Nat) (tbl : List (List Nat × List Nat)) :
    get_format_loop ctag (tbl ++ [(ctag, dflt)]) =
      .ret (match tbl.find? (fun r => strcasecmp_eq ctag r.1) with
        | some r => r.2
        | none => dflt) := by
  induction tbl with
  | nil => simp [get_format_loop, strcasecmp_eq_self]
  | cons r rs ih =>
    by_cases h : strcasecmp_eq ctag r.1 = true
    · simp [get_format_loop, h, List.find?]
    · simp only [Bool.not_eq_true] at h
      simp [get_format_loop, h, List.find?, ih]

theorem get_format_eq (ctag : List Nat) : get_format ctag = .ret (format_of_ctag ctag) := by
  rw [get_format, get_format_loop_find, format_of_ctag, List.find?_map]
  cases h : get_format_table.find? ((fun r => strcasecmp_eq ctag r.1) ∘ fun r => (str r.1, str r.2)) with
  | none =>
    have h2 : get_format_table.find? (fun r => strcasecmp_eq ctag (str r.1)) = none := h
    simp [h2]
  | some r =>
    have h2 : get_format_table.find? (fun r => strcasecmp_eq ctag (str r.1)) = some r := h
    simp [h2]

/-! ## The header reader: one tag -/

/-- No block does anything at a byte that is not a space. -/
theorem y4m_blocks_nonspace (buff : List Nat) (st : Y4mState) (d : Nat) (r : List Nat)
    (hd : buff.drop st.i = d :: r) (hne : d ≠ 32) (hi : st.i ≠ 255) :
    y4m_tag_W buff st = .ret (.next st) ∧ y4m_tag_H buff st = .ret (.next st) ∧
    y4m_tag_F buff st = .ret (.next st) ∧ y4m_tag_I buff st = .ret (.next st) ∧
    y4m_tag_C buff st = .ret (.next st) ∧ y4m_end_check st = .ret (.next st) := by
  have h (l : Nat) : strncmp_eq (buff.drop st.i) [32, l] = .ret false := by
    rw [hd]; exact strncmp_eq_two_head d l r hne
  exact ⟨y4m_tag_W_skip _ _ (h _), y4m_tag_H_skip _ _ (h _), y4m_tag_F_skip _ _ (h _),
    y4m_tag_I_skip _ _ (h _), y4m_tag_C_skip _ _ (h _), y4m_end_check_skip _ hi⟩

/-- A block does nothing at a space followed by another letter than its own. -/
theorem strncmp_eq_letter (buff : List Nat) (i d l : Nat) (r : List Nat)
    (hd : buff.drop i = 32 :: d :: r) (hne : d ≠ l) :
    strncmp_eq (buff.drop i) [32, l] = .ret false := by
  rw [hd, strncmp_eq_two]; simp [hne]

theorem y4m_body_W (buff : List Nat) (i : Nat) (rh : rs_hnd_t) (ctag : List Nat)
    (ds : List Nat) (c : Nat) (rest : List Nat)
    (hd : buff.drop i = 32 :: 87 :: (ds ++ c :: rest)) (hds : numeral ds)
    (hc : isdigit c = false) (h1 : 1 ≤ digits_val 10 ds)
    (h2 : digits_val 10 ds < 2147483648) (hi : i + 2 ≠ 255) (hz : 0 ∈ c :: rest) :
    y4m_body buff { i := i, rh := rh, ctag := ctag } =
      .ret (.next { i := i + 2, rh := (Y4mTag.W ds).apply rh, ctag := ctag }) := by
  have hd2 : buff.drop (i + 2) = ds ++ c :: rest := drop_two_of_drop_cons hd
  obtain ⟨d0, ds1, rfl⟩ := List.exists_cons_of_ne_nil hds.1
  have hd0 : d0 ≠ 32 := by
    have := isdigit_bounds d0 (hds.2 d0 (List.mem_cons_self _ _)); omega
  have hW : y4m_tag_W buff { i := i, rh := rh, ctag := ctag } =
      .ret (.next { i := i + 2, rh := (Y4mTag.W (d0 :: ds1)).apply rh, ctag := ctag }) := by
    have hv : ¬ ((digits_val 10 (d0 :: ds1) : Nat) : Int) < 1 := by omega
    simp only [y4m_tag_W, str_W, hd, strncmp_eq_two, decide_True, Exec.bind, if_true, hd2,
      sscanf_d_numeral (d0 :: ds1) c rest hds.1 hds.2 hc h2 hz, hv, if_false, Y4mTag.apply]
  obtain ⟨-, hH, hF, hI, hC, hE⟩ := y4m_blocks_nonspace buff
    { i := i + 2, rh := (Y4mTag.W (d0 :: ds1)).apply rh, ctag := ctag } d0 _ hd2 hd0 hi
  simp only [y4m_body, hW, Flow.andThen_ret_next, hH, hF, hI, hC, hE]

theorem y4m_body_H (buff : List Nat) (i : Nat) (rh : rs_hnd_t) (ctag : List Nat)
    (ds : List Nat) (c : Nat) (rest : List Nat)
    (hd : buff.drop i = 32 :: 72 :: (ds ++ c :: rest)) (hds : numeral ds)
    (hc : isdigit c = false) (h1 : 1 ≤ digits_val 10 ds)
    (h2 : digits_val 10 ds < 2147483648) (hi : i + 2 ≠ 255) (hz : 0 ∈ c :: rest) :
    y4m_body buff { i := i, rh := rh, ctag := ctag } =
      .ret (.next { i := i + 2, rh := (Y4mTag.H ds).apply rh, ctag := ctag }) := by
  have hd2 : buff.drop (i + 2) = ds ++ c :: rest := drop_two_of_drop_cons hd
  obtain ⟨d0, ds1, rfl⟩ := List.exists_cons_of_ne_nil hds.1
  have hd0 : d0 ≠ 32 := by
    have := isdigit_bounds d0 (hds.2 d0 (List.mem_cons_self _ _)); omega
  have hW := y4m_tag_W_skip buff { i := i, rh := rh, ctag := ctag }
    (strncmp_eq_letter buff i 72 87 _ hd (by decide))
  have hH : y4m_tag_H buff { i := i, rh := rh, ctag := ctag } =
      .ret (.next { i := i + 2, rh := (Y4mTag.H (d0 :: ds1)).apply rh, ctag := ctag }) := by
    have hv : ¬ ((digits_val 10 (d0 :: ds1) : Nat) : Int) < 1 := by omega
    simp only [y4m_tag_H, str_H, hd, strncmp_eq_two, decide_True, Exec.bind, if_true, hd2,
      sscanf_d_numeral (d0 :: ds1) c rest hds.1 hds.2 hc h2 hz, hv, if_false, Y4mTag.apply]
  obtain ⟨-, -, hF, hI, hC, hE⟩ := y4m_blocks_nonspace buff
    { i := i + 2, rh := (Y4mTag.H (d0 :: ds1)).apply rh, ctag := ctag } d0 _ hd2 hd0 hi
  simp only [y4m_body, hW, hH, Flow.andThen_ret_next, hF, hI, hC, hE]

theorem y4m_body_F (buff : List Nat) (i : Nat) (rh : rs_hnd_t) (ctag : List Nat)
    (ns ds : List Nat) (c : Nat) (rest : List Nat)
    (hd : buff.drop i = 32 :: 70 :: ((ns ++ 58 :: ds) ++ c :: rest))
    (hwf : (Y4mTag.F ns ds).wf) (hc : isdigit c = false) (hi : i + 2 ≠ 255)
    (hz : 0 ∈ c :: rest) :
    y4m_body buff { i := i, rh := rh, ctag := ctag } =
      .ret (.next { i := i + 2, rh := (Y4mTag.F ns ds).apply rh, ctag := ctag }) := by
  obtain ⟨⟨hns, hn0, hn1, hn2⟩, ⟨hds, hd0, hd1, hd2⟩⟩ := hwf
  have hdr : buff.drop (i + 2) = ns ++ 58 :: (ds ++ c :: rest) := by
    rw [drop_two_of_drop_cons hd]; simp
  obtain ⟨n0, ns1, rfl⟩ := List.exists_cons_of_ne_nil hns.1
  have hn32 : n0 ≠ 32 := by
    have := isdigit_bounds n0 (hns.2 n0 (List.mem_cons_self _ _)); omega
  have hW := y4m_tag_W_skip buff { i := i, rh := rh, ctag := ctag }
    (strncmp_eq_letter buff i 70 87 _ hd (by decide))
  have hH := y4m_tag_H_skip buff { i := i, rh := rh, ctag := ctag }
    (strncmp_eq_letter buff i 70 72 _ hd (by decide))
  have hF : y4m_tag_F buff { i := i, rh := rh, ctag := ctag } =
      .ret (.next { i := i + 2, rh := (Y4mTag.F (n0 :: ns1) ds).apply rh, ctag := ctag }) := by
    have hv1 : ¬ ((digits_val 10 (n0 :: ns1) : Nat) : Int) < 1 := by omega
    have hv2 : ¬ ((digits_val 10 ds : Nat) : Int) < 1 := by omega
    simp only [y4m_tag_F, str_F, hd, strncmp_eq_two, decide_True, Exec.bind, if_true, hdr,
      sscanf_i64_colon_i64_numerals (n0 :: ns1) ds c rest hns.1 hns.2 hn0 hn2 hds.1 hds.2 hd0
        hd2 hc hz, hv1, hv2, or_self, if_false, Y4mTag.apply]
  obtain ⟨-, -, -, hI, hC, hE⟩ := y4m_blocks_nonspace buff
    { i := i + 2, rh := (Y4mTag.F (n0 :: ns1) ds).apply rh, ctag := ctag } n0 _ hdr hn32 hi
  simp only [y4m_body, hW, hH, hF, Flow.andThen_ret_next, hI, hC, hE]

theorem y4m_body_I (buff : List Nat) (i : Nat) (rh : rs_hnd_t) (ctag : List Nat)
    (v0 : Nat) (r : List Nat)
    (hd : buff.drop i = 32 :: 73 :: v0 :: r) (h32 : v0 ≠ 32) (hm : v0 ≠ 109)
    (hi : i + 2 ≠ 255) :
    y4m_body buff { i := i, rh := rh, ctag := ctag } =
      .ret (.next { i := i + 2, rh := rh, ctag := ctag }) := by
  have hd2 : buff.drop (i + 2) = v0 :: r := drop_two_of_drop_cons hd
  have hW := y4m_tag_W_skip buff { i := i, rh := rh, ctag := ctag }
    (strncmp_eq_letter buff i 73 87 _ hd (by decide))
  have hH := y4m_tag_H_skip buff { i := i, rh := rh, ctag := ctag }
    (strncmp_eq_letter buff i 73 72 _ hd (by decide))
  have hF := y4m_tag_F_skip buff { i := i, rh := rh, ctag := ctag }
    (strncmp_eq_letter buff i 73 70 _ hd (by decide))
  have hI : y4m_tag_I buff { i := i, rh := rh, ctag := ctag } =
      .ret (.next { i := i + 2, rh := rh, ctag := ctag }) := by
    simp only [y4m_tag_I, str_I, hd, strncmp_eq_two, decide_True, Exec.bind, if_true, hd2, hm,
      if_false]
  obtain ⟨-, -, -, -, hC, hE⟩ := y4m_blocks_nonspace buff
    { i := i + 2, rh := rh, ctag := ctag } v0 _ hd2 h32 hi
  simp only [y4m_body, hW, hH, hF, hI, Flow.andThen_ret_next, hC, hE]

theorem y4m_body_I_mixed (buff : List Nat) (i : Nat) (rh : rs_hnd_t) (ctag : List Nat)
    (r : List Nat) (hd : buff.drop i = 32 :: 73 :: 109 :: r) :
    y4m_body buff { i := i, rh := rh, ctag := ctag } = .ret (.leave (-2) rh) := by
  have hd2 : buff.drop (i + 2) = 109 :: r := drop_two_of_drop_cons hd
  have hW := y4m_tag_W_skip buff { i := i, rh := rh, ctag := ctag }
    (strncmp_eq_letter buff i 73 87 _ hd (by decide))
  have hH := y4m_tag_H_skip buff { i := i, rh := rh, ctag := ctag }
    (strncmp_eq_letter buff i 73 72 _ hd (by decide))
  have hF := y4m_tag_F_skip buff { i := i, rh := rh, ctag := ctag }
    (strncmp_eq_letter buff i 73 70 _ hd (by decide))
  have hI : y4m_tag_I buff { i := i, rh := rh, ctag := ctag } = .ret (.leave (-2) rh) := by
    simp only [y4m_tag_I, str_I, hd, strncmp_eq_two, decide_True, Exec.bind, if_true, hd2]
  simp only [y4m_body, hW, hH, hF, hI, Flow.andThen_ret_next, Flow.andThen_ret_leave]

theorem y4m_body_C (buff : List Nat) (i : Nat) (rh : rs_hnd_t) (ctag : List Nat)
    (t : List Nat) (c : Nat) (rest : List Nat)
    (hd : buff.drop i = 32 :: 67 :: (t ++ c :: rest)) (hwf : (Y4mTag.C t).wf)
    (hc : isspace c = true) (hi : i + 2 ≠ 255) (hz : 0 ∈ c :: rest) :
    y4m_body buff { i := i, rh := rh, ctag := ctag } =
      .ret (.next { i := i + 2, rh := (Y4mTag.C t).apply rh, ctag := t }) := by
  obtain ⟨hne, hlen, ht⟩ := hwf
  have hd2 : buff.drop (i + 2) = t ++ c :: rest := drop_two_of_drop_cons hd
  obtain ⟨t0, t1, rfl⟩ := List.exists_cons_of_ne_nil hne
  have ht0 : t0 ≠ 32 := by
    have := (ht t0 (List.mem_cons_self _ _)).1
    intro h; subst h; simp [isspace] at this
  have hW := y4m_tag_W_skip buff { i := i, rh := rh, ctag := ctag }
    (strncmp_eq_letter buff i 67 87 _ hd (by decide))
  have hH := y4m_tag_H_skip buff { i := i, rh := rh, ctag := ctag }
    (strncmp_eq_letter buff i 67 72 _ hd (by decide))
  have hF := y4m_tag_F_skip buff { i := i, rh := rh, ctag := ctag }
    (strncmp_eq_letter buff i 67 70 _ hd (by decide))
  have hI := y4m_tag_I_skip buff { i := i, rh := rh, ctag := ctag }
    (strncmp_eq_letter buff i 67 73 _ hd (by decide))
  have hC : y4m_tag_C buff { i := i, rh := rh, ctag := ctag } =
      .ret (.next { i := i + 2, rh := (Y4mTag.C (t0 :: t1)).apply rh, ctag := t0 :: t1 }) := by
    simp only [y4m_tag_C, str_C, hd, strncmp_eq_two, decide_True, Exec.bind, if_true, hd2,
      sscanf_s_word (t0 :: t1) c rest hne ht (Or.inl hc) hlen hz, get_format_eq, Y4mTag.apply]
  have hE := y4m_end_check_skip
    { i := i + 2, rh := (Y4mTag.C (t0 :: t1)).apply rh, ctag := t0 :: t1 } hi
  simp only [y4m_body, hW, hH, hF, hI, hC, Flow.andThen_ret_next, hE]

/-- One iteration whose body moves `i` by two, followed by the walk over the rest
of the value. -/
theorem y4m_loop_jump (buff : List Nat) (hlen : buff.length ≤ 256) (i : Nat)
    (rh rh2 : rs_hnd_t) (ctag ctag2 : List Nat) (l v0 : Nat) (v rest : List Nat)
    (hd : buff.drop i = 32 :: l :: ((v0 :: v) ++ rest)) (hv : word v)
    (hi : i + 2 + (v0 :: v).length ≤ 255)
    (hb : y4m_body buff { i := i, rh := rh, ctag := ctag } =
      .ret (.next { i := i + 2, rh := rh2, ctag := ctag2 })) :
    y4m_loop buff 257 { i := i, rh := rh, ctag := ctag } =
      y4m_loop buff 257 { i := i + 2 + (v0 :: v).length, rh := rh2, ctag := ctag2 } := by
  have hd3 : buff.drop (i + 2 + 1) = v ++ rest :=
    drop_succ_of_drop_cons (drop_two_of_drop_cons hd)
  simp only [List.length_cons] at hi
  rw [y4m_loop_step buff hlen, hd]
  simp only [show (32 : Nat) ≠ 10 by decide, if_false, hb, Exec.bind]
  rw [y4m_loop_run buff hlen v (i + 2 + 1) rh2 ctag2 rest hd3 hv (by omega)]
  simp only [List.length_cons]
  congr 2
  omega

theorem word_of_digits (ds : List Nat) (h : ∀ x ∈ ds, isdigit x = true) : word ds := by
  intro x hx
  have := isdigit_bounds x (h x hx)
  omega

theorem word_of_nonspace (t : List Nat) (h : ∀ x ∈ t, isspace x = false ∧ x ≠ 0) : word t := by
  intro x hx
  have := (h x hx).1
  constructor <;> intro h2 <;> subst h2 <;> simp [isspace] at this

theorem isdigit_sep (c : Nat) (hc : c = 32 ∨ c = 10) : isdigit c = false := by
  rcases hc with h | h <;> subst h <;> decide

theorem isspace_sep (c : Nat) (hc : c = 32 ∨ c = 10) : isspace c = true := by
  rcases hc with h | h <;> subst h <;> decide

/-- The loop over one well-formed tag that is not a mixed interlace tag. -/
theorem y4m_loop_tag (buff : List Nat) (hlen : buff.length ≤ 256) (t : Y4mTag)
    (hwf : t.wf) (hm : t.mixed = false) (i : Nat) (rh : rs_hnd_t) (ctag : List Nat)
    (c : Nat) (rest : List Nat)
    (hd : buff.drop i = 32 :: (t.bytes ++ c :: rest)) (hc : c = 32 ∨ c = 10)
    (hi : i + 1 + t.bytes.length ≤ 255) (hz : 0 ∈ c :: rest) :
    y4m_loop buff 257 { i := i, rh := rh, ctag := ctag } =
      y4m_loop buff 257
        { i := i + 1 + t.bytes.length, rh := t.apply rh, ctag := t.ctag ctag } := by
  cases t with
  | W ds =>
    obtain ⟨hds, h1, h2⟩ := hwf
    obtain ⟨d0, ds1, rfl⟩ := List.exists_cons_of_ne_nil hds.1
    simp only [Y4mTag.bytes, List.length_cons, List.cons_append] at hd hi ⊢
    have hb := y4m_body_W buff i rh ctag (d0 :: ds1) c rest hd hds (isdigit_sep c hc) h1 h2
      (by omega) hz
    have hw : word ds1 := word_of_digits ds1 (fun x hx => hds.2 x (List.mem_cons_of_mem _ hx))
    rw [y4m_loop_jump buff hlen i rh _ ctag ctag 87 d0 ds1 (c :: rest) hd hw
      (by simp only [List.length_cons]; omega) hb]
    simp only [List.length_cons, Y4mTag.ctag]
    congr 2
    omega
  | H ds =>
    obtain ⟨hds, h1, h2⟩ := hwf
    obtain ⟨d0, ds1, rfl⟩ := List.exists_cons_of_ne_nil hds.1
    simp only [Y4mTag.bytes, List.length_cons, List.cons_append] at hd hi ⊢
    have hb := y4m_body_H buff i rh ctag (d0 :: ds1) c rest hd hds (isdigit_sep c hc) h1 h2
      (by omega) hz
    have hw : word ds1 := word_of_digits ds1 (fun x hx => hds.2 x (List.mem_cons_of_mem _ hx))
    rw [y4m_loop_jump buff hlen i rh _ ctag ctag 72 d0 ds1 (c :: rest) hd hw
      (by simp only [List.length_cons]; omega) hb]
    simp only [List.length_cons, Y4mTag.ctag]
    congr 2
    omega
  | F ns ds =>
    have hwf2 := hwf
    obtain ⟨⟨hns, -, -, -⟩, ⟨hds, -, -, -⟩⟩ := hwf
    obtain ⟨n0, ns1, rfl⟩ := List.exists_cons_of_ne_nil hns.1
    simp only [Y4mTag.bytes, List.length_cons, List.cons_append, List.length_append] at hd hi ⊢
    have hb := y4m_body_F buff i rh ctag (n0 :: ns1) ds c rest
      (by simpa using hd) hwf2 (isdigit_sep c hc) (by omega) hz
    have hw : word (ns1 ++ 58 :: ds) := by
      intro x hx
      rcases List.mem_append.1 hx with h | h
      · exact word_of_digits ns1 (fun x hx => hns.2 x (List.mem_cons_of_mem _ hx)) x h
      · rcases List.mem_cons.1 h with h | h
        · subst h; decide
        · exact word_of_digits ds hds.2 x h
    rw [y4m_loop_jump buff hlen i rh _ ctag ctag 70 n0 (ns1 ++ 58 :: ds) (c :: rest)
      (by simpa using hd) hw (by simp only [List.length_cons, List.length_append]; omega) hb]
    simp only [List.length_cons, List.length_append, Y4mTag.ctag]
    congr 2
    omega
  | I v =>
    obtain ⟨hne, hv⟩ := hwf
    obtain ⟨v0, v1, rfl⟩ := List.exists_cons_of_ne_nil hne
    simp only [Y4mTag.bytes, List.length_cons, List.cons_append] at hd hi ⊢
    have hv0 := hv v0 (List.mem_cons_self _ _)
    have hm0 : v0 ≠ 109 := by simpa [Y4mTag.mixed] using hm
    have hb := y4m_body_I buff i rh ctag v0 (v1 ++ c :: rest) hd hv0.1 hm0 (by omega)
    rw [y4m_loop_jump buff hlen i rh _ ctag ctag 73 v0 v1 (c :: rest) hd
      (fun x hx => hv x (List.mem_cons_of_mem _ hx))
      (by simp only [List.length_cons]; omega) hb]
    simp only [List.length_cons, Y4mTag.ctag, Y4mTag.apply]
    congr 2
    omega
  | C t =>
    have hwf2 := hwf
    obtain ⟨hne, -, ht⟩ := hwf
    obtain ⟨t0, t1, rfl⟩ := List.exists_cons_of_ne_nil hne
    simp only [Y4mTag.bytes, List.length_cons, List.cons_append] at hd hi ⊢
    have hb := y4m_body_C buff i rh ctag (t0 :: t1) c rest hd hwf2 (isspace_sep c hc)
      (by omega) hz
    have hw : word t1 := fun x hx => word_of_nonspace (t0 :: t1) ht x (List.mem_cons_of_mem _ hx)
    rw [y4m_loop_jump buff hlen i rh _ ctag _ 67 t0 t1 (c :: rest) hd hw
      (by simp only [List.length_cons]; omega) hb]
    simp only [List.length_cons, Y4mTag.ctag]
    congr 2
    omega
  | other v =>
    obtain ⟨hv, h87, h72, h70, h73, h67⟩ := hwf
    simp only [Y4mTag.bytes, Y4mTag.apply, Y4mTag.ctag] at hd hi ⊢
    obtain ⟨d, r, hdr, hl⟩ : ∃ d r, v ++ c :: rest = d :: r ∧
        (d ≠ 87 ∧ d ≠ 72 ∧ d ≠ 70 ∧ d ≠ 73 ∧ d ≠ 67) := by
      cases v with
      | nil =>
        refine ⟨c, rest, rfl, ?_⟩
        rcases hc with h | h <;> subst h <;> decide
      | cons v0 v1 =>
        refine ⟨v0, v1 ++ c :: rest, rfl, ?_⟩
        simp only [List.head?_cons, ne_eq, Option.some.injEq] at h87 h72 h70 h73 h67
        exact ⟨h87, h72, h70, h73, h67⟩
    rw [hdr] at hd
    have hb := y4m_body_other buff { i := i, rh := rh, ctag := ctag } d r hd hl
      (by simp only []; omega)
    rw [y4m_loop_idle buff hlen _ 32 (d :: r) hd (by decide) hb]
    have hd1 : buff.drop (i + 1) = v ++ c :: rest := by
      rw [drop_succ_of_drop_cons hd, hdr]
    exact y4m_loop_run buff hlen v (i + 1) rh ctag (c :: rest) hd1 hv (by omega)

/-! ## The header reader: a header line of tags -/

theorem render_sep (ts : List Y4mTag) (c : Nat) (rest : List Nat) (hc : c = 32 ∨ c = 10) :
    ∃ c2 rest2, render ts ++ c :: rest = c2 :: rest2 ∧ (c2 = 32 ∨ c2 = 10) := by
  cases ts with
  | nil => exact ⟨c, rest, rfl, hc⟩
  | cons t ts => exact ⟨32, _, rfl, Or.inl rfl⟩

/-- The loop over a list of well-formed tags without a mixed interlace tag. -/
theorem y4m_loop_tags (buff : List Nat) (hlen : buff.length ≤ 256) (tags : List Y4mTag) :
    ∀ (i : Nat) (rh : rs_hnd_t) (ctag : List Nat) (c : Nat) (rest : List Nat),
      (∀ t ∈ tags, t.wf ∧ t.mixed = false) →
      buff.drop i = render tags ++ c :: rest → (c = 32 ∨ c = 10) →
      i + (render tags).length ≤ 255 → 0 ∈ rest →
      y4m_loop buff 257 { i := i, rh := rh, ctag := ctag } =
        y4m_loop buff 257
          { i := i + (render tags).length, rh := apply_tags tags rh,
            ctag := ctag_tags tags ctag } := by
  induction tags with
  | nil => intro i rh ctag c rest _ _ _ _ _; rfl
  | cons t ts ih =>
    intro i rh ctag c rest hwf hd hc hi hz
    obtain ⟨c2, rest2, hsep, hc2⟩ := render_sep ts c rest hc
    have hz2 : 0 ∈ c2 :: rest2 := by
      rw [← hsep]
      exact List.mem_append_right _ (List.mem_cons_of_mem _ hz)
    simp only [render, List.length_cons, List.length_append, List.cons_append,
      List.append_assoc] at hd hi ⊢
    have ht := hwf t (List.mem_cons_self _ _)
    have hd1 : buff.drop i = 32 :: (t.bytes ++ c2 :: rest2) := by rw [hd, hsep]
    rw [y4m_loop_tag buff hlen t ht.1 ht.2 i rh ctag c2 rest2 hd1 hc2 (by omega) hz2]
    have hd2 : buff.drop (i + 1 + t.bytes.length) = render ts ++ c :: rest := by
      have := drop_of_drop_append (a := 32 :: t.bytes) (b := render ts ++ c :: rest)
        (by simpa using hd)
      simpa [Nat.add_comm, Nat.add_left_comm, Nat.add_assoc] using this
    rw [ih (i + 1 + t.bytes.length) (t.apply rh) (t.ctag ctag) c rest
      (fun x hx => hwf x (List.mem_cons_of_mem _ hx)) hd2 hc (by omega) hz]
    simp only [apply_tags, ctag_tags]
    congr 2
    omega

/-- The loop returns -2 at a mixed interlace tag. -/
theorem y4m_loop_mixed (buff : List Nat) (hlen : buff.length ≤ 256) (i : Nat) (rh : rs_hnd_t)
    (ctag r : List Nat) (hd : buff.drop i = 32 :: 73 :: 109 :: r) :
    y4m_loop buff 257 { i := i, rh := rh, ctag := ctag } = .ret (-2, rh) := by
  rw [y4m_loop_step buff hlen, hd]
  simp only [show (32 : Nat) ≠ 10 by decide, if_false, y4m_body_I_mixed buff i rh ctag r hd,
    Exec.bind]

/-- The loop ends at a newline. -/
theorem y4m_loop_newline (buff : List Nat) (hlen : buff.length ≤ 256) (st : Y4mState)
    (r : List Nat) (hd : buff.drop st.i = 10 :: r) :
    y4m_loop buff 257 st = y4m_after buff st := by
  rw [y4m_loop_step buff hlen, hd]
  simp only [if_true]

theorem strncmp_eq_append (l : List Nat) :
    ∀ (a tail : List Nat), a.length = l.length →
      strncmp_eq (a ++ tail) l = .ret (decide (a = l)) := by
  induction l with
  | nil =>
    intro a tail h
    have : a = [] := List.length_eq_zero.1 h
    subst this
    simp [strncmp_eq]
  | cons x xs ih =>
    intro a tail h
    cases a with
    | nil => simp at h
    | cons c a =>
      simp only [List.length_cons, Nat.add_right_cancel_iff] at h
      by_cases hcx : c = x
      · subst hcx
        rw [List.cons_append, strncmp_eq, if_pos rfl, ih a tail h]
        simp
      · simp [strncmp_eq, hcx]

theorem y4m_after_marker (buff : List Nat) (p : Nat) (rh : rs_hnd_t) (ctag tail : List Nat)
    (hd : buff.drop (p + 1) = str "FRAME\n" ++ tail) :
    y4m_after buff { i := p, rh := rh, ctag := ctag } = .ret (0, y4m_done p rh) := by
  by_cases h : rh.src_format.length = 0 <;>
    simp [y4m_after, hd, strncmp_eq_append (str "FRAME\n") (str "FRAME\n") tail rfl,
      Exec.bind, y4m_done, h]

theorem y4m_after_no_marker (buff : List Nat) (p : Nat) (rh : rs_hnd_t)
    (ctag six tail : List Nat) (hd : buff.drop (p + 1) = six ++ tail)
    (h6 : six.length = 6) (hne : six ≠ str "FRAME\n") :
    y4m_after buff { i := p, rh := rh, ctag := ctag } =
      .ret (-2, { rh with off_header := ((p + 1 : Nat) : Int) }) := by
  simp only [y4m_after, hd, strncmp_eq_append (str "FRAME\n") six tail (by rw [h6]; rfl),
    Exec.bind, hne, decide_False, Bool.not_false, if_true]

theorem fread256_length (file : List Nat) : (fread256 file).length = 256 := by
  simp only [fread256, List.length_append, List.length_take, List.length_replicate]
  omega

theorem fread256_append (a b : List Nat) (h : a.length ≤ 256) :
    ∃ tail, fread256 (a ++ b) = a ++ tail := by
  refine ⟨b.take (256 - a.length) ++ List.replicate (256 - (a ++ b).length) 0, ?_⟩
  simp only [fread256, List.take_append_eq_append_take, List.append_assoc]
  rw [List.take_of_length_le h]

theorem str_magic : str "YUV4MPEG2" = [89, 85, 86, 52, 77, 80, 69, 71, 50] := by decide

/-- After the magic token `check_y4m` runs the loop from index 9. -/
theorem check_y4m_magic (rh : rs_hnd_t) (body : List Nat)
    (hbuf : fread256 rh.file = str "YUV4MPEG2" ++ body) :
    check_y4m rh = y4m_loop (fread256 rh.file) 257 { i := 9, rh := rh, ctag := [] } ∧
    (fread256 rh.file).drop 9 = body := by
  constructor
  · simp only [check_y4m]
    rw [show strncmp_eq (fread256 rh.file) (str "YUV4MPEG2") = .ret true by
      rw [hbuf, strncmp_eq_append (str "YUV4MPEG2") (str "YUV4MPEG2") body rfl]; simp]
    simp only [Exec.bind, Bool.not_true, Bool.false_eq_true, if_false]
  · rw [hbuf, show (9 : Nat) = (str "YUV4MPEG2").length by rfl, List.drop_left]

/-- The loop returns -2 when a list of well-formed tags holds a mixed interlace
tag. -/
theorem y4m_loop_tags_mixed (buff : List Nat) (hlen : buff.length ≤ 256)
    (tags : List Y4mTag) :
    ∀ (i : Nat) (rh : rs_hnd_t) (ctag : List Nat) (c : Nat) (rest : List Nat),
      (∀ t ∈ tags, t.wf) → (∃ t ∈ tags, t.mixed = true) →
      buff.drop i = render tags ++ c :: rest → (c = 32 ∨ c = 10) →
      i + (render tags).length ≤ 255 → 0 ∈ rest →
      ∃ rh2, y4m_loop buff 257 { i := i, rh := rh, ctag := ctag } = .ret (-2, rh2) := by
  induction tags with
  | nil => intro i rh ctag c rest _ hex; simp at hex
  | cons t ts ih =>
    intro i rh ctag c rest hwf hex hd hc hi hz
    simp only [render, List.length_cons, List.length_append, List.cons_append,
      List.append_assoc] at hd hi
    by_cases hm : t.mixed = true
    · cases t with
      | I v =>
        cases v with
        | nil => simp [Y4mTag.mixed] at hm
        | cons v0 v1 =>
          have hv0 : v0 = 109 := by simpa [Y4mTag.mixed] using hm
          subst hv0
          exact ⟨rh, y4m_loop_mixed buff hlen i rh ctag _ (by simpa [Y4mTag.bytes] using hd)⟩
      | W ds => simp [Y4mTag.mixed] at hm
      | H ds => simp [Y4mTag.mixed] at hm
      | F ns ds => simp [Y4mTag.mixed] at hm
      | C t => simp [Y4mTag.mixed] at hm
      | other v => simp [Y4mTag.mixed] at hm
    · simp only [Bool.not_eq_true] at hm
      obtain ⟨c2, rest2, hsep, hc2⟩ := render_sep ts c rest hc
      have hz2 : 0 ∈ c2 :: rest2 := by
        rw [← hsep]
        exact List.mem_append_right _ (List.mem_cons_of_mem _ hz)
      have hd1 : buff.drop i = 32 :: (t.bytes ++ c2 :: rest2) := by rw [hd, hsep]
      rw [y4m_loop_tag buff hlen t (hwf t (List.mem_cons_self _ _)) hm i rh ctag c2 rest2 hd1
        hc2 (by omega) hz2]
      have hd2 : buff.drop (i + 1 + t.bytes.length) = render ts ++ c :: rest := by
        have := drop_of_drop_append (a := 32 :: t.bytes) (b := render ts ++ c :: rest)
          (by simpa using hd)
        simpa [Nat.add_comm, Nat.add_left_comm, Nat.add_assoc] using this
      obtain ⟨x, hx, hxm⟩ := hex
      have hx2 : x ∈ ts := by
        rcases List.mem_cons.1 hx with h | h
        · subst h; rw [hm] at hxm; exact absurd hxm (by decide)
        · exact h
      exact ih _ _ _ c rest (fun y hy => hwf y (List.mem_cons_of_mem _ hy)) ⟨x, hx2, hxm⟩ hd2 hc
        (by omega) hz

theorem str_magic_length : (str "YUV4MPEG2").length = 9 := rfl

theorem str_frame_length : (str "FRAME\n").length = 6 := rfl

theorem str_marker_line : str "\nFRAME\n" = 10 :: str "FRAME\n" := by decide

theorem str_mixed : str " Im" = [32, 73, 109] := by decide

/-- A header line of well-formed tags without mixed interlace tag, followed by
the frame marker, in a buffer with a NUL byte after the marker: `check_y4m`
succeeds. -/
theorem check_y4m_tags_ok (rh : rs_hnd_t) (tags : List Y4mTag) (rest : List Nat)
    (hwf : ∀ t ∈ tags, t.wf ∧ t.mixed = false)
    (hbuf : fread256 rh.file = str "YUV4MPEG2" ++ render tags ++ str "\nFRAME\n" ++ rest)
    (hz : 0 ∈ rest) :
    check_y4m rh = .ret (0, y4m_done (9 + (render tags).length) (apply_tags tags rh)) := by
  have hlen := fread256_length rh.file
  have hl : (fread256 rh.file).length ≤ 256 := le_of_eq hlen
  rw [str_marker_line] at hbuf
  have hbuf2 : fread256 rh.file
      = str "YUV4MPEG2" ++ (render tags ++ 10 :: (str "FRAME\n" ++ rest)) := by
    rw [hbuf]; simp
  obtain ⟨h1, h2⟩ := check_y4m_magic rh _ hbuf2
  have hsz : 9 + (render tags).length + 7 + rest.length = 256 := by
    have h := congrArg List.length hbuf2
    rw [hlen] at h
    simp only [List.length_append, List.length_cons, str_magic_length, str_frame_length] at h
    omega
  rw [h1, y4m_loop_tags _ hl tags 9 rh [] 10 _ hwf h2 (Or.inr rfl) (by omega)
    (List.mem_append_right _ hz)]
  have hd3 := drop_of_drop_append h2
  rw [y4m_loop_newline _ hl _ _ hd3]
  exact y4m_after_marker _ _ _ _ rest (drop_succ_of_drop_cons hd3)

/-! ## The header reader: the claims C6, C8 and C9 -/

/-- C8 (amended).  For a header line made of well-formed tags and followed by the
frame marker inside the buffer, when the buffer holds a NUL byte after the marker
(so that every `sscanf` call of the tag blocks reads a string): `check_y4m` succeeds
when no interlace tag has a value that starts with `m`, whatever other interlace
values (`t`, `b`, `p`) the line declares, and returns -2 (unsupported header) when
some interlace tag has a value that starts with `m`. -/
theorem check_y4m_interlace (rh : rs_hnd_t) (tags : List Y4mTag) (rest : List Nat)
    (hwf : ∀ t ∈ tags, t.wf)
    (hbuf : fread256 rh.file = str "YUV4MPEG2" ++ render tags ++ str "\nFRAME\n" ++ rest)
    (hz : 0 ∈ rest) :
    ((∀ t ∈ tags, t.mixed = false) →
      check_y4m rh = .ret (0, y4m_done (9 + (render tags).length) (apply_tags tags rh))) ∧
    ((∃ t ∈ tags, t.mixed = true) → ∃ rh2, check_y4m rh = .ret (-2, rh2)) := by
  constructor
  · intro hm
    exact check_y4m_tags_ok rh tags rest (fun t ht => ⟨hwf t ht, hm t ht⟩) hbuf hz
  · intro hex
    have hlen := fread256_length rh.file
    have hl : (fread256 rh.file).length ≤ 256 := le_of_eq hlen
    rw [str_marker_line] at hbuf
    have hbuf2 : fread256 rh.file
        = str "YUV4MPEG2" ++ (render tags ++ 10 :: (str "FRAME\n" ++ rest)) := by
      rw [hbuf]; simp
    obtain ⟨h1, h2⟩ := check_y4m_magic rh _ hbuf2
    have hsz : 9 + (render tags).length + 7 + rest.length = 256 := by
      have h := congrArg List.length hbuf2
      rw [hlen] at h
      simp only [List.length_append, List.length_cons, str_magic_length, str_frame_length] at h
      omega
    rw [h1]
    exact y4m_loop_tags_mixed _ hl tags 9 rh [] 10 _ hwf hex h2 (Or.inr rfl) (by omega)
      (List.mem_append_right _ hz)

/-- C9 (amended).  For every buffer that starts with the magic token followed by
well-formed tags none of which is a mixed interlace tag, and that holds a NUL byte
after these tags (so that every `sscanf` call of the tag blocks reads a string): if
the interlace tag ` Im` comes next, or if the header newline comes next and the six
bytes after it (inside the buffer) are not `FRAME` and a newline, `check_y4m` returns
-2 (unsupported header), so it does not report success. -/
theorem check_y4m_unsupported (rh : rs_hnd_t) (tags : List Y4mTag)
    (hwf : ∀ t ∈ tags, t.wf ∧ t.mixed = false) :
    (∀ rest : List Nat,
      fread256 rh.file = str "YUV4MPEG2" ++ render tags ++ str " Im" ++ rest →
      0 ∈ rest →
      ∃ rh2, check_y4m rh = .ret (-2, rh2)) ∧
    (∀ six rest : List Nat, six.length = 6 → six ≠ str "FRAME\n" →
      fread256 rh.file = str "YUV4MPEG2" ++ render tags ++ 10 :: (six ++ rest) →
      0 ∈ six ++ rest →
      ∃ rh2, check_y4m rh = .ret (-2, rh2)) := by
  have hlen := fread256_length rh.file
  have hl : (fread256 rh.file).length ≤ 256 := le_of_eq hlen
  constructor
  · intro rest hbuf hz
    have hbuf2 : fread256 rh.file
        = str "YUV4MPEG2" ++ (render tags ++ 32 :: (73 :: 109 :: rest)) := by
      rw [hbuf, str_mixed]; simp
    obtain ⟨h1, h2⟩ := check_y4m_magic rh _ hbuf2
    have hsz : 9 + (render tags).length + 3 + rest.length = 256 := by
      have h := congrArg List.length hbuf2
      rw [hlen] at h
      simp only [List.length_append, List.length_cons, str_magic_length] at h
      omega
    rw [h1, y4m_loop_tags _ hl tags 9 rh [] 32 _ hwf h2 (Or.inl rfl) (by omega)
      (List.mem_cons_of_mem _ (List.mem_cons_of_mem _ hz))]
    exact ⟨_, y4m_loop_mixed _ hl _ _ _ rest (drop_of_drop_append h2)⟩
  · intro six rest h6 hne hbuf hz
    have hbuf2 : fread256 rh.file
        = str "YUV4MPEG2" ++ (render tags ++ 10 :: (six ++ rest)) := by
      rw [hbuf]; simp
    obtain ⟨h1, h2⟩ := check_y4m_magic rh _ hbuf2
    have hsz : 9 + (render tags).length + 7 + rest.length = 256 := by
      have h := congrArg List.length hbuf2
      rw [hlen] at h
      simp only [List.length_append, List.length_cons, str_magic_length, h6] at h
      omega
    rw [h1, y4m_loop_tags _ hl tags 9 rh [] 10 _ hwf h2 (Or.inr rfl) (by omega) hz]
    have hd3 := drop_of_drop_append h2
    rw [y4m_loop_newline _ hl _ _ hd3]
    exact ⟨_, y4m_after_no_marker _ _ _ _ six rest (drop_succ_of_drop_cons hd3) h6 hne⟩

theorem get_format_table_tags : ∀ r ∈ get_format_table,
    (str r.1 ≠ [] ∧ (str r.1).length < 32 ∧ ∀ x ∈ str r.1, isspace x = false ∧ x ≠ 0) ∧
    format_of_ctag (str r.1) = str r.2 ∧ (str r.2).length ≠ 0 := by
  decide

/-- C6 (amended).  For decimal numerals `w`, `h` with values from 1 to `2^31 - 1`,
numerals `n`, `d` without leading zero with values from 1 to `2^63 - 1` and every
row `(tag, fmt)` of the table of `get_format`: when the file starts with
`YUV4MPEG2 W<w> H<h> F<n>:<d> C<tag>`, a newline, `FRAME` and a newline, all within
256 bytes, and the buffer `fread` fills holds a NUL byte (the file is shorter than
256 bytes or has a zero byte among its first 256, so that every `sscanf` call reads
a string), `check_y4m` returns 0 with the width, height and frame rate set to the
values of the numerals, `src_format` set to `fmt`, `off_header` the number of bytes
up to and including the header newline and `off_frame = 6`. -/
theorem check_y4m_header (rh : rs_hnd_t) (w h n d : List Nat) (tag fmt : String)
    (payload : List Nat)
    (hw : numeral w ∧ 1 ≤ digits_val 10 w ∧ digits_val 10 w < 2147483648)
    (hh : numeral h ∧ 1 ≤ digits_val 10 h ∧ digits_val 10 h < 2147483648)
    (hn : numeral n ∧ n.head? ≠ some 48 ∧ 1 ≤ digits_val 10 n ∧
      digits_val 10 n < 9223372036854775808)
    (hd : numeral d ∧ d.head? ≠ some 48 ∧ 1 ≤ digits_val 10 d ∧
      digits_val 10 d < 9223372036854775808)
    (htag : (tag, fmt) ∈ get_format_table)
    (hfile : rh.file = str "YUV4MPEG2 W" ++ w ++ str " H" ++ h ++ str " F" ++ n ++ str ":" ++ d
      ++ str " C" ++ str tag ++ str "\nFRAME\n" ++ payload)
    (hlen : (str "YUV4MPEG2 W" ++ w ++ str " H" ++ h ++ str " F" ++ n ++ str ":" ++ d
      ++ str " C" ++ str tag ++ str "\nFRAME\n").length ≤ 256)
    (hz : 0 ∈ fread256 rh.file) :
    check_y4m rh = .ret (0,
      { rh with
        vi := { rh.vi with
          width := (digits_val 10 w : Int),
          height := (digits_val 10 h : Int),
          fpsNum := (digits_val 10 n : Int),
          fpsDen := (digits_val 10 d : Int) },
        src_format := str fmt,
        off_header := (((str "YUV4MPEG2 W" ++ w ++ str " H" ++ h ++ str " F" ++ n ++ str ":" ++ d
          ++ str " C" ++ str tag ++ str "\n").length : Nat) : Int),
        off_frame := 6 }) := by
  obtain ⟨hC, hfmt, hfl⟩ := get_format_table_tags (tag, fmt) htag
  have hwf : ∀ t ∈ [Y4mTag.W w, Y4mTag.H h, Y4mTag.F n d, Y4mTag.C (str tag)],
      t.wf ∧ t.mixed = false := by
    intro t ht
    simp only [List.mem_cons, List.mem_singleton, List.not_mem_nil, or_false] at ht
    rcases ht with rfl | rfl | rfl | rfl
    · exact ⟨hw, rfl⟩
    · exact ⟨hh, rfl⟩
    · exact ⟨⟨hn, hd⟩, rfl⟩
    · exact ⟨hC, rfl⟩
  have hshape : str "YUV4MPEG2 W" ++ w ++ str " H" ++ h ++ str " F" ++ n ++ str ":" ++ d
      ++ str " C" ++ str tag
      = str "YUV4MPEG2" ++ render [Y4mTag.W w, Y4mTag.H h, Y4mTag.F n d, Y4mTag.C (str tag)] := by
    have e1 : str "YUV4MPEG2 W" = str "YUV4MPEG2" ++ [32, 87] := by decide
    have e2 : str ":" = [58] := by decide
    simp [render, Y4mTag.bytes, e1, e2, str_H, str_F, str_C]
  obtain ⟨tail, htail⟩ := fread256_append _ payload hlen
  have hbuf : fread256 rh.file
      = str "YUV4MPEG2" ++ render [Y4mTag.W w, Y4mTag.H h, Y4mTag.F n d, Y4mTag.C (str tag)]
        ++ str "\nFRAME\n" ++ tail := by
    rw [hfile, htail, hshape]
  have hnz : ∀ ds : List Nat, (∀ x ∈ ds, isdigit x = true) → 0 ∉ ds := by
    intro ds hds h0
    have := isdigit_bounds 0 (hds 0 h0)
    omega
  have hztail : 0 ∈ tail := by
    rw [hfile, htail] at hz
    have a1 : 0 ∉ str "YUV4MPEG2 W" := by decide
    have a2 : 0 ∉ str " H" := by decide
    have a3 : 0 ∉ str " F" := by decide
    have a4 : 0 ∉ str ":" := by decide
    have a5 : 0 ∉ str " C" := by decide
    have a6 : 0 ∉ str "\nFRAME\n" := by decide
    have b1 := hnz w hw.1.2
    have b2 := hnz h hh.1.2
    have b3 := hnz n hn.1.2
    have b4 := hnz d hd.1.2
    have b5 : 0 ∉ str tag := fun h0 => (hC.2.2 0 h0).2 rfl
    simpa only [List.mem_append, a1, a2, a3, a4, a5, a6, b1, b2, b3, b4, b5, false_or]
      using hz
  rw [check_y4m_tags_ok rh _ tail hwf hbuf hztail]
  have hoff : (str "YUV4MPEG2 W" ++ w ++ str " H" ++ h ++ str " F" ++ n ++ str ":" ++ d
      ++ str " C" ++ str tag ++ str "\n").length
      = 9 + (render [Y4mTag.W w, Y4mTag.H h, Y4mTag.F n d, Y4mTag.C (str tag)]).length + 1 := by
    rw [hshape]
    simp only [List.length_append, str_magic_length]
    rfl
  rw [hoff]
  simp [y4m_done, apply_tags, Y4mTag.apply, hfmt, hfl]

/-! ## The header reader: concrete headers (C6 to C10) -/

/-- Witness for C6: the header of the test in the specification. -/
theorem check_y4m_header_witness :
    check_y4m y4m_example_handle = .ret (0,
      { y4m_example_handle with
        vi := { y4m_example_handle.vi with width := 176, height := 144, fpsNum := 25,
                                           fpsDen := 1 },
        src_format := str "YUV420P8",
        off_header := 36,
        off_frame := 6 }) :=
  check_y4m_header y4m_example_handle (str "176") (str "144") (str "25") (str "1")
    "420mpeg2" "YUV420P8" (str "abcdef") (by decide) (by decide) (by decide) (by decide)
    (by decide) (by rfl) (by decide) (by decide)

/-- C6 (counterexample).  The width `2147483648` is a decimal numeral without
leading zero, and the header that declares it fits the buffer, but the value does
not fit the `int` member `width`: the conversion leaves defined behaviour and
`check_y4m` does not succeed with that width. -/
theorem check_y4m_width_overflow :
    numeral (str "2147483648") ∧ (str "2147483648").head? ≠ some 48 ∧
    digits_val 10 (str "2147483648") = 2147483648 ∧
    check_y4m big_width_handle = .undefined := by
  decide

/-- C8 (counterexample).  A header that declares top-field-first interlacing
(`It`) is not rejected: `check_y4m` returns 0 and `create_source` opens the file. -/
theorem check_y4m_top_field_first :
    (check_y4m top_field_handle).bind (fun r => .ret r.1) = .ret 0 ∧
    create_source (source_only top_field_handle.file) = .ret (.clip top_field_opened) := by
  decide

/-- Witness for C8: the tags `W2 H2 F25:1 It` are accepted, the tags
`W2 H2 F25:1 Im` are refused. -/
theorem check_y4m_interlace_witness :
    check_y4m top_field_handle =
      .ret (0, y4m_done (9 + (render top_field_tags).length)
        (apply_tags top_field_tags top_field_handle)) ∧
    ∃ rh2, check_y4m mixed_handle = .ret (-2, rh2) :=
  ⟨(check_y4m_interlace top_field_handle top_field_tags
      (str "abcdef" ++ List.replicate 219 0) (by decide) (by decide) (by decide)).1
      (by decide),
   (check_y4m_interlace mixed_handle mixed_tags
      (str "abcdef" ++ List.replicate 219 0) (by decide) (by decide) (by decide)).2
      ⟨.I (str "m"), by decide, by decide⟩⟩

/-- C9 (counterexample).  Two buffers on which the claim fails.  In the first the
header line holds ` Im` after a `C` tag without value: the `%s` conversion takes
`Im` as the value of `C`, and `check_y4m` returns 0.  In the second the header
newline is the last byte of the buffer: the marker is compared with bytes outside
the buffer. -/
theorem check_y4m_mixed_swallowed :
    (∃ a b, swallowed_mixed_handle.file = a ++ str " Im" ++ b ∧ 10 ∉ a) ∧
    (check_y4m swallowed_mixed_handle).bind (fun r => .ret r.1) = .ret 0 ∧
    (fread256 edge_newline_handle.file)[255]? = some 10 ∧
    check_y4m edge_newline_handle = .undefined :=
  ⟨⟨str "YUV4MPEG2 W2 H2 F25:1 C", str "\nFRAME\nabcdef", by decide, by decide⟩,
    by decide, by decide, by decide⟩

/-- Witness for C9: ` Im` after `W2 H2 F25:1`, and `FRAMX` in place of the marker. -/
theorem check_y4m_unsupported_witness :
    (∃ rh2, check_y4m mixed_handle = .ret (-2, rh2)) ∧
    (∃ rh2, check_y4m no_marker_handle = .ret (-2, rh2)) :=
  ⟨(check_y4m_unsupported mixed_handle small_tags (by decide)).1
      (str "\nFRAME\nabcdef" ++ List.replicate 219 0) (by decide) (by decide),
   (check_y4m_unsupported no_marker_handle small_tags (by decide)).2
      (str "FRAMX\n") (str "abcdef" ++ List.replicate 222 0) (by decide) (by decide)
      (by decide) (by decide)⟩

/-- C10 (failing input).  A buffer that starts with the magic token, holds no
newline and has ` I` in its last two bytes: the block for ` I` moves the scan index
from 254 to 256, the test `i == 255` is never true, and the next read is outside
the buffer instead of a return of -2. -/
theorem check_y4m_scan_past_buffer :
    (fread256 overlong_handle.file).take 9 = str "YUV4MPEG2" ∧
    10 ∉ fread256 overlong_handle.file ∧
    check_y4m overlong_handle = .undefined := by
  decide

/-- C7 (failing input).  A header without `W` tag: `check_y4m` returns 0 and leaves
the width 0, and `create_source` opens the file with that width. -/
theorem check_y4m_missing_width :
    check_y4m no_width_handle = .ret (0,
      { no_width_handle with
        vi := { no_width_handle.vi with width := 0, height := 2, fpsNum := 25, fpsDen := 1 },
        src_format := str "YUV420P8",
        off_header := 19,
        off_frame := 6 }) ∧
    create_source (source_only no_width_handle.file) = .ret (.clip no_width_opened) ∧
    no_width_opened.vi.width = 0 := by
  decide

/-! ## No run ends for lack of loop iterations -/

theorem Exec.bind_ne_nofuel {α β : Type} (x : Exec α) (f : α → Exec β)
    (hx : x ≠ .nofuel) (hf : ∀ a, f a ≠ .nofuel) : x.bind f ≠ .nofuel := by
  cases x with
  | ret a => exact hf a
  | undefined => simp [Exec.bind]
  | nofuel => exact absurd rfl hx

theorem strncmp_eq_ne_nofuel (l : List Nat) : ∀ s : List Nat, strncmp_eq s l ≠ .nofuel := by
  induction l with
  | nil => intro s; simp [strncmp_eq]
  | cons x xs ih =>
    intro s
    cases s with
    | nil => simp [strncmp_eq]
    | cons c s =>
      simp only [strncmp_eq]
      split
      · exact ih s
      · simp

theorem skip_space_ne_nofuel (s : List Nat) : skip_space s ≠ .nofuel := by
  induction s with
  | nil => simp [skip_space]
  | cons c s ih =>
    simp only [skip_space]
    split
    · exact ih
    · simp

theorem scan_run_ne_nofuel (p : Nat → Bool) (s : List Nat) : scan_run p s ≠ .nofuel := by
  unfold scan_run
  split <;> simp

theorem sscanf_d_ne_nofuel (s : List Nat) : sscanf_d s ≠ .nofuel := by
  unfold sscanf_d
  split
  · refine Exec.bind_ne_nofuel _ _ (skip_space_ne_nofuel s) (fun t => ?_)
    refine Exec.bind_ne_nofuel _ _ (scan_run_ne_nofuel _ _) (fun r => ?_)
    dsimp only
    split
    · simp
    · split <;> simp
  · simp

theorem scan_based_ne_nofuel (s : List Nat) : scan_based s ≠ .nofuel := by
  unfold scan_based
  split
  · split
    · exact Exec.bind_ne_nofuel _ _ (scan_run_ne_nofuel _ _) (fun r => by simp)
    · exact Exec.bind_ne_nofuel _ _ (scan_run_ne_nofuel _ _) (fun r => by simp)
  · exact Exec.bind_ne_nofuel _ _ (scan_run_ne_nofuel _ _) (fun r => by simp)

theorem scan_i64_ne_nofuel (s : List Nat) : scan_i64 s ≠ .nofuel := by
  unfold scan_i64
  refine Exec.bind_ne_nofuel _ _ (skip_space_ne_nofuel s) (fun t => ?_)
  refine Exec.bind_ne_nofuel _ _ (scan_based_ne_nofuel _) (fun r => ?_)
  dsimp only
  split
  · simp
  · split <;> simp

theorem sscanf_i64_colon_i64_ne_nofuel (s : List Nat) : sscanf_i64_colon_i64 s ≠ .nofuel := by
  unfold sscanf_i64_colon_i64
  split
  · refine Exec.bind_ne_nofuel _ _ (scan_i64_ne_nofuel s) (fun r => ?_)
    split
    · simp
    · exact Exec.bind_ne_nofuel _ _ (scan_i64_ne_nofuel _) (fun q => by simp)
    · simp
  · simp

theorem sscanf_s_ne_nofuel (s : List Nat) : sscanf_s s ≠ .nofuel := by
  unfold sscanf_s
  split
  · refine Exec.bind_ne_nofuel _ _ (skip_space_ne_nofuel s) (fun t => ?_)
    refine Exec.bind_ne_nofuel _ _ (scan_run_ne_nofuel _ _) (fun r => ?_)
    split
    · simp
    · split <;> simp
  · simp

theorem y4m_tag_W_ne_nofuel (buff : List Nat) (st : Y4mState) :
    y4m_tag_W buff st ≠ .nofuel := by
  unfold y4m_tag_W
  refine Exec.bind_ne_nofuel _ _ (strncmp_eq_ne_nofuel _ _) (fun m => ?_)
  split
  · refine Exec.bind_ne_nofuel _ _ (sscanf_d_ne_nofuel _) (fun v => ?_)
    dsimp only
    split <;> simp
  · simp

theorem y4m_tag_H_ne_nofuel (buff : List Nat) (st : Y4mState) :
    y4m_tag_H buff st ≠ .nofuel := by
  unfold y4m_tag_H
  refine Exec.bind_ne_nofuel _ _ (strncmp_eq_ne_nofuel _ _) (fun m => ?_)
  split
  · refine Exec.bind_ne_nofuel _ _ (sscanf_d_ne_nofuel _) (fun v => ?_)
    dsimp only
    split <;> simp
  · simp

theorem y4m_tag_F_ne_nofuel (buff : List Nat) (st : Y4mState) :
    y4m_tag_F buff st ≠ .nofuel := by
  unfold y4m_tag_F
  refine Exec.bind_ne_nofuel _ _ (strncmp_eq_ne_nofuel _ _) (fun m => ?_)
  split
  · refine Exec.bind_ne_nofuel _ _ (sscanf_i64_colon_i64_ne_nofuel _) (fun v => ?_)
    dsimp only
    split <;> simp
  · simp

theorem y4m_tag_I_ne_nofuel (buff : List Nat) (st : Y4mState) :
    y4m_tag_I buff st ≠ .nofuel := by
  unfold y4m_tag_I
  refine Exec.bind_ne_nofuel _ _ (strncmp_eq_ne_nofuel _ _) (fun m => ?_)
  split
  · split
    · simp
    · split <;> simp
  · simp

theorem y4m_tag_C_ne_nofuel (buff : List Nat) (st : Y4mState) :
    y4m_tag_C buff st ≠ .nofuel := by
  unfold y4m_tag_C
  refine Exec.bind_ne_nofuel _ _ (strncmp_eq_ne_nofuel _ _) (fun m => ?_)
  split
  · refine Exec.bind_ne_nofuel _ _ (sscanf_s_ne_nofuel _) (fun v => ?_)
    dsimp only
    rw [get_format_eq]
    simp [Exec.bind]
  · simp

theorem Flow.andThen_ne_nofuel (x : Exec Flow) (f : Y4mState → Exec Flow)
    (hx : x ≠ .nofuel) (hf : ∀ st, f st ≠ .nofuel) : Flow.andThen x f ≠ .nofuel := by
  unfold Flow.andThen
  refine Exec.bind_ne_nofuel _ _ hx (fun fl => ?_)
  cases fl with
  | leave code rh => simp
  | next st => exact hf st

theorem y4m_body_ne_nofuel (buff : List Nat) (st : Y4mState) : y4m_body buff st ≠ .nofuel := by
  unfold y4m_body
  refine Flow.andThen_ne_nofuel _ _ ?_ (fun s => by unfold y4m_end_check; split <;> simp)
  refine Flow.andThen_ne_nofuel _ _ ?_ (y4m_tag_C_ne_nofuel buff)
  refine Flow.andThen_ne_nofuel _ _ ?_ (y4m_tag_I_ne_nofuel buff)
  refine Flow.andThen_ne_nofuel _ _ ?_ (y4m_tag_F_ne_nofuel buff)
  exact Flow.andThen_ne_nofuel _ _ (y4m_tag_W_ne_nofuel buff st) (y4m_tag_H_ne_nofuel buff)

/-- The bound of 257 iterations is never reached: with a buffer of at most 256
bytes the loop ends by a return, or by a read outside the buffer. -/
theorem y4m_loop_ne_nofuel (buff : List Nat) (hlen : buff.length ≤ 256) (f : Nat) :
    ∀ st : Y4mState, 257 ≤ f + 1 + st.i → y4m_loop buff (f + 1) st ≠ .nofuel := by
  induction f with
  | zero =>
    intro st h
    have hd : buff.drop st.i = [] := List.drop_eq_nil_of_le (by omega)
    simp [y4m_loop, hd]
  | succ f ih =>
    intro st h
    rw [y4m_loop_succ buff (f + 1)]
    cases hd : buff.drop st.i with
    | nil => simp
    | cons c r =>
      dsimp only
      split
      · exact y4m_after_ne_nofuel buff st
      · cases hb : y4m_body buff st with
        | ret fl =>
          cases fl with
          | leave code rh => simp [Exec.bind]
          | next st2 =>
            have := y4m_body_i _ _ _ hb
            simp only [Exec.bind]
            exact ih _ (by simp only []; omega)
        | undefined => simp [Exec.bind]
        | nofuel => exact absurd hb (y4m_body_ne_nofuel buff st)

theorem check_y4m_ne_nofuel (rh : rs_hnd_t) : check_y4m rh ≠ .nofuel := by
  unfold check_y4m
  dsimp only
  refine Exec.bind_ne_nofuel _ _ (strncmp_eq_ne_nofuel _ _) (fun m => ?_)
  split
  · simp
  · exact y4m_loop_ne_nofuel _ (le_of_eq (fread256_length rh.file)) 256 _ (by simp only []; omega)

theorem check_args_ne_nofuel (rh : rs_hnd_t) : check_args rh ≠ .nofuel := by
  unfold check_args
  rw [check_args_loop_find]
  simp only [Exec.bind]
  split
  · simp
  · split
    · simp
    · split <;> simp

theorem create_source_frames_ne_nofuel (rh : rs_hnd_t) : create_source_frames rh ≠ .nofuel := by
  unfold create_source_frames
  refine Exec.bind_ne_nofuel _ _ (by unfold count_frames; dsimp only; split <;> simp)
    (fun n => ?_)
  dsimp only
  split
  · simp
  · split <;> simp

/-- The function `create_source` never ends for lack of loop iterations. -/
theorem create_source_ne_nofuel (a : Args) : create_source a ≠ .nofuel := by
  unfold create_source
  split
  · simp
  · dsimp only
    split
    · simp
    · refine Exec.bind_ne_nofuel _ _ (check_y4m_ne_nofuel _) (fun y => ?_)
      split
      · simp
      · split
        · simp
        · refine Exec.bind_ne_nofuel _ _ ?_ (fun r => ?_)
          · split
            · unfold create_source_args set_args_data
              refine Exec.bind_ne_nofuel _ _ (by dsimp only; split <;> simp) (fun f => by simp)
            · simp
          · refine Exec.bind_ne_nofuel _ _ (check_args_ne_nofuel r) (fun ca => ?_)
            split
            · simp
            · exact create_source_frames_ne_nofuel _

/-! ## Decimal numerals -/

theorem digits_val_append_singleton (b : Nat) (ds : List Nat) (c : Nat) :
    digits_val b (ds ++ [c]) = digits_val b ds * b + digit_val c := by
  simp [digits_val, List.foldl_append]

/-- Every integer from 1 on is the value of a decimal numeral without leading
zero. -/
theorem numeral_of_nat (w : Nat) (hw : 1 ≤ w) :
    ∃ ds, numeral ds ∧ ds.head? ≠ some 48 ∧ digits_val 10 ds = w := by
  induction w using Nat.strong_induction_on with
  | _ w ih =>
    by_cases h10 : w < 10
    · refine ⟨[w + 48], ⟨by simp, ?_⟩, ?_, ?_⟩
      · intro x hx
        simp only [List.mem_singleton] at hx
        subst hx
        simp only [isdigit, Bool.and_eq_true, decide_eq_true_eq]
        omega
      · simp only [List.head?_cons, ne_eq, Option.some.injEq]
        omega
      · have h1 : 48 ≤ w + 48 ∧ w + 48 ≤ 57 := by omega
        simp [digits_val, digit_val, h1]
    · obtain ⟨ds, hds, hhead, hval⟩ := ih (w / 10) (by omega) (by omega)
      refine ⟨ds ++ [w % 10 + 48], ⟨by simp, ?_⟩, ?_, ?_⟩
      · intro x hx
        rcases List.mem_append.1 hx with h | h
        · exact hds.2 x h
        · simp only [List.mem_singleton] at h
          subst h
          simp only [isdigit, Bool.and_eq_true, decide_eq_true_eq]
          omega
      · obtain ⟨d0, ds1, rfl⟩ := List.exists_cons_of_ne_nil hds.1
        simpa using hhead
      · have h1 : 48 ≤ w % 10 + 48 ∧ w % 10 + 48 ≤ 57 := by omega
        rw [digits_val_append_singleton, hval]
        simp only [digit_val, h1, and_self, if_true, Nat.add_sub_cancel]
        omega

/-! ## Frames: stores and loops -/

theorem store_getElem (data : List Nat) (off : Nat) (bs d : List Nat)
    (h : store data off bs = .ret d) :
    d.length = data.length ∧
    ∀ j, d[j]? = if off ≤ j ∧ j < off + bs.length then bs[j - off]? else data[j]? := by
  unfold store at h
  split at h
  · rename_i hle
    simp only [Exec.ret.injEq] at h
    subst h
    constructor
    · simp only [List.length_append, List.length_take, List.length_drop]; omega
    · intro j
      by_cases h1 : j < off
      · have : ¬ (off ≤ j ∧ j < off + bs.length) := by omega
        rw [if_neg this, List.append_assoc, List.getElem?_append_left (by simp; omega)]
        rw [List.getElem?_take_of_lt h1]
      · by_cases h2 : j < off + bs.length
        · have : off ≤ j ∧ j < off + bs.length := by omega
          rw [if_pos this, List.append_assoc, List.getElem?_append_right (by simp; omega)]
          have hl : (List.take off data).length = off := by simp; omega
          rw [hl, List.getElem?_append_left (by omega)]
        · have : ¬ (off ≤ j ∧ j < off + bs.length) := by omega
          rw [if_neg this, List.getElem?_append_right (by simp; omega)]
          have hl : (List.take off data ++ bs).length = off + bs.length := by simp; omega
          rw [hl, List.getElem?_drop]
          congr 1
          omega
  · simp at h

theorem row_pos (s y0 b0 len y b : Nat) (hb : b < s) (hlen : b0 + len ≤ s) :
    (y0 * s + b0 ≤ y * s + b ∧ y * s + b < y0 * s + b0 + len) ↔
      (y = y0 ∧ b0 ≤ b ∧ b < b0 + len) := by
  constructor
  · rintro ⟨h1, h2⟩
    rcases Nat.lt_trichotomy y y0 with hy | hy | hy
    · exfalso
      have := Nat.mul_le_mul_right s (show y + 1 ≤ y0 from hy)
      rw [Nat.succ_mul] at this
      omega
    · subst hy; omega
    · exfalso
      have := Nat.mul_le_mul_right s (show y0 + 1 ≤ y from hy)
      rw [Nat.succ_mul] at this
      omega
  · rintro ⟨rfl, h1, h2⟩
    omega

theorem bytes_le32_bitor8to32 (b0 b1 b2 b3 : Nat) (h0 : b0 < 256) (h1 : b1 < 256)
    (h2 : b2 < 256) (h3 : b3 < 256) :
    bytes_le32 (bitor8to32 b3 b2 b1 b0) = [b0, b1, b2, b3] := by
  have e : bitor8to32 b3 b2 b1 b0 = b3 * 16777216 + b2 * 65536 + b1 * 256 + b0 := by
    unfold bitor8to32
    simp only [Nat.shiftLeft_eq]
    have a1 : b3 * 2 ^ 24 ||| b2 * 2 ^ 16 = b3 * 2 ^ 24 + b2 * 2 ^ 16 := by
      have := @Nat.mul_add_lt_is_or 24 (b2 * 2 ^ 16) (by omega) b3
      rw [Nat.mul_comm b3, ← this]
    rw [a1]
    have a2 : (b3 * 2 ^ 24 + b2 * 2 ^ 16) ||| b1 * 2 ^ 8
        = b3 * 2 ^ 24 + b2 * 2 ^ 16 + b1 * 2 ^ 8 := by
      have := @Nat.mul_add_lt_is_or 16 (b1 * 2 ^ 8) (by omega) (b3 * 2 ^ 8 + b2)
      rw [show b3 * 2 ^ 24 + b2 * 2 ^ 16 = 2 ^ 16 * (b3 * 2 ^ 8 + b2) by ring, ← this]
    rw [a2]
    have a3 : (b3 * 2 ^ 24 + b2 * 2 ^ 16 + b1 * 2 ^ 8) ||| b0
        = b3 * 2 ^ 24 + b2 * 2 ^ 16 + b1 * 2 ^ 8 + b0 := by
      have := @Nat.mul_add_lt_is_or 8 b0 (by omega) (b3 * 2 ^ 16 + b2 * 2 ^ 8 + b1)
      rw [show b3 * 2 ^ 24 + b2 * 2 ^ 16 + b1 * 2 ^ 8
        = 2 ^ 8 * (b3 * 2 ^ 16 + b2 * 2 ^ 8 + b1) by ring, ← this]
    rw [a3]
    norm_num
  rw [e]
  simp only [bytes_le32, List.cons.injEq, and_true]
  refine ⟨?_, ?_, ?_, ?_⟩ <;> omega

theorem shape_getElem (f g : VSFrameRef) (h : g.shape = f.shape) (pl : Nat) :
    (g.planes[pl]?).map Plane.shape = (f.planes[pl]?).map Plane.shape := by
  have := congrArg (fun l => l[pl]?) h
  simpa [VSFrameRef.shape, List.getElem?_map] using this

theorem shape_plane (f g : VSFrameRef) (h : g.shape = f.shape) (pl : Nat) (p : Plane)
    (hp : f.planes[pl]? = some p) :
    ∃ q, g.planes[pl]? = some q ∧ q.width = p.width ∧ q.height = p.height ∧
      q.stride = p.stride ∧ q.data.length = p.data.length := by
  have := shape_getElem f g h pl
  rw [hp] at this
  cases hq : g.planes[pl]? with
  | none => rw [hq] at this; simp at this
  | some q =>
    rw [hq] at this
    simp only [Option.map_some', Option.some.injEq, Plane.shape, Prod.mk.injEq] at this
    exact ⟨q, rfl, this⟩

theorem shape_stride (f g : VSFrameRef) (h : g.shape = f.shape) (pl : Nat) :
    g.stride pl = f.stride pl := by
  have := shape_getElem f g h pl
  unfold VSFrameRef.stride
  cases hf : f.planes[pl]? with
  | none =>
    rw [hf] at this
    cases hg : g.planes[pl]? with
    | none => rfl
    | some q => rw [hg] at this; simp at this
  | some p =>
    obtain ⟨q, hq, -, -, hs, -⟩ := shape_plane f g h pl p hf
    rw [hq]
    exact hs

theorem shape_length (f g : VSFrameRef) (h : g.shape = f.shape) :
    g.planes.length = f.planes.length := by
  have := congrArg List.length h
  simpa [VSFrameRef.shape] using this

theorem Upd.refl (f : VSFrameRef) (V : Nat → Nat → Nat → Nat) :
    Upd f f (fun _ _ _ => False) V :=
  ⟨rfl, fun _ _ _ _ => ⟨fun h => h.elim, fun _ => rfl⟩⟩

theorem Upd.trans {f g h : VSFrameRef} {W1 W2 : Nat → Nat → Nat → Prop}
    {V : Nat → Nat → Nat → Nat} (h1 : Upd f g W1 V) (h2 : Upd g h W2 V) :
    Upd f h (fun pl y b => W1 pl y b ∨ W2 pl y b) V := by
  refine ⟨h2.1.trans h1.1, fun pl y b hb => ?_⟩
  have hb2 : b < g.stride pl := by rw [shape_stride f g h1.1]; exact hb
  have a1 := h1.2 pl y b hb
  have a2 := h2.2 pl y b hb2
  constructor
  · intro hw
    by_cases hw2 : W2 pl y b
    · exact a2.1 hw2
    · rw [a2.2 hw2]
      rcases hw with hw | hw
      · exact a1.1 hw
      · exact absurd hw hw2
  · intro hw
    rw [a2.2 (fun x => hw (Or.inr x)), a1.2 (fun x => hw (Or.inl x))]

theorem Upd.congr {f g : VSFrameRef} {W W2 : Nat → Nat → Nat → Prop}
    {V V2 : Nat → Nat → Nat → Nat} (h : Upd f g W V)
    (hW : ∀ pl y b, b < f.stride pl → (W2 pl y b ↔ W pl y b))
    (hV : ∀ pl y b, b < f.stride pl → W pl y b → V2 pl y b = V pl y b) :
    Upd f g W2 V2 := by
  refine ⟨h.1, fun pl y b hb => ?_⟩
  have a := h.2 pl y b hb
  constructor
  · intro hw
    rw [hV pl y b hb ((hW pl y b hb).1 hw)]
    exact a.1 ((hW pl y b hb).1 hw)
  · intro hw
    exact a.2 (fun x => hw ((hW pl y b hb).2 x))

theorem VSFrameRef.store_upd (f : VSFrameRef) (pl y0 b0 : Nat) (bs : List Nat) (p : Plane)
    (V : Nat → Nat → Nat → Nat)
    (hp : f.planes[pl]? = some p) (hb : b0 + bs.length ≤ p.stride)
    (hlen : y0 * p.stride + b0 + bs.length ≤ p.data.length)
    (hV : ∀ j, j < bs.length → bs[j]? = some (V pl y0 (b0 + j))) :
    ∃ g, f.store pl (y0 * p.stride + b0) bs = .ret g ∧
      Upd f g (fun pl2 y b => pl2 = pl ∧ y = y0 ∧ b0 ≤ b ∧ b < b0 + bs.length) V := by
  have hs : ∃ d, RawSource.store p.data (y0 * p.stride + b0) bs = .ret d := by
    unfold RawSource.store
    rw [if_pos hlen]
    exact ⟨_, rfl⟩
  obtain ⟨d, hd⟩ := hs
  obtain ⟨hdl, hdg⟩ := store_getElem _ _ _ _ hd
  have hpl : pl < f.planes.length := by
    by_contra hc
    rw [List.getElem?_eq_none (by omega)] at hp
    simp at hp
  refine ⟨{ planes := f.planes.set pl { p with data := d } }, ?_, ?_, ?_⟩
  · unfold VSFrameRef.store
    rw [hp]
    simp only [hd, Exec.bind]
  · unfold VSFrameRef.shape
    apply List.ext_getElem?
    intro i
    simp only [List.getElem?_map, List.getElem?_set]
    by_cases hi : pl = i
    · subst hi
      simp [hpl, hp, Plane.shape, hdl]
    · simp [hi]
  · intro pl2 y b hb2
    unfold VSFrameRef.byte
    by_cases hi : pl2 = pl
    · subst hi
      have hbs : b < p.stride := by
        simpa [VSFrameRef.stride, hp] using hb2
      simp only [List.getElem?_set, hpl, if_true, hp, true_and]
      rw [hdg]
      have hr := row_pos p.stride y0 b0 bs.length y b hbs hb
      constructor
      · intro hw
        have hc : y0 * p.stride + b0 ≤ y * p.stride + b ∧
            y * p.stride + b < y0 * p.stride + b0 + bs.length := by
          have := hr.2 hw; omega
        rw [if_pos hc]
        obtain ⟨rfl, h1, h2⟩ := hw
        have hj := hV (b - b0) (by omega)
        rw [show b0 + (b - b0) = b by omega] at hj
        rw [← hj]
        congr 1
        omega
      · intro hw
        have hc : ¬ (y0 * p.stride + b0 ≤ y * p.stride + b ∧
            y * p.stride + b < y0 * p.stride + b0 + bs.length) := by
          intro hc
          exact hw (hr.1 ⟨hc.1, by omega⟩)
        rw [if_neg hc]
    · have hne : ¬ pl = pl2 := fun h => hi h.symm
      simp only [List.getElem?_set, hne, if_false]
      simp [hi]

theorem for_loop_upd {τ : Type} (body : Nat → τ → Exec τ) (mk : Nat → VSFrameRef → τ)
    (W : Nat → Nat → Nat → Nat → Prop) (V : Nat → Nat → Nat → Nat) (n : Nat) :
    ∀ (i0 : Nat) (dst : VSFrameRef),
      (∀ i, i0 ≤ i → i < i0 + n → ∀ f, f.shape = dst.shape →
        ∃ g, body i (mk i f) = .ret (mk (i + 1) g) ∧ Upd f g (W i) V) →
      ∃ g, for_loop body n i0 (mk i0 dst) = .ret (mk (i0 + n) g) ∧
        Upd dst g (fun pl y b => ∃ i, i0 ≤ i ∧ i < i0 + n ∧ W i pl y b) V := by
  induction n with
  | zero =>
    intro i0 dst _
    refine ⟨dst, rfl, ?_⟩
    exact (Upd.refl dst V).congr (fun pl y b _ => ⟨fun ⟨i, h1, h2, _⟩ => by omega, fun h => h.elim⟩)
      (fun _ _ _ _ h => h.elim)
  | succ n ih =>
    intro i0 dst hbody
    obtain ⟨g1, hg1, hu1⟩ := hbody i0 (le_refl _) (by omega) dst rfl
    obtain ⟨g2, hg2, hu2⟩ := ih (i0 + 1) g1 (fun i h1 h2 f hf =>
      hbody i (by omega) (by omega) f (hf.trans hu1.1))
    refine ⟨g2, ?_, ?_⟩
    · simp only [for_loop, hg1, Exec.bind]
      rw [hg2]
      congr 2
      omega
    · refine (hu1.trans hu2).congr (fun pl y b _ => ?_) (fun _ _ _ _ _ => rfl)
      constructor
      · rintro ⟨i, h1, h2, hw⟩
        rcases Nat.eq_or_lt_of_le h1 with h | h
        · subst h; exact Or.inl hw
        · exact Or.inr ⟨i, h, by omega, hw⟩
      · rintro (hw | ⟨i, h1, h2, hw⟩)
        · exact ⟨i0, le_refl _, by omega, hw⟩
        · exact ⟨i, by omega, by omega, hw⟩

theorem load_getD (src : List Nat) (off n : Nat) (h : off + n ≤ src.length) :
    ∃ bl, load src off n = .ret bl ∧ bl.length = n ∧
      ∀ i, i < n → bl.getD i 0 = src.getD (off + i) 0 ∧ bl[i]? = some (src.getD (off + i) 0) := by
  refine ⟨(src.drop off).take n, by simp [load, h], by simp; omega, fun i hi => ?_⟩
  have h1 : ((src.drop off).take n)[i]? = some (src.getD (off + i) 0) := by
    rw [List.getElem?_take_of_lt hi, List.getElem?_drop, List.getD_eq_getElem?_getD,
      List.getElem?_eq_getElem (by omega)]
    rfl
  exact ⟨by rw [List.getD_eq_getElem?_getD, h1]; rfl, h1⟩

/-! ## The packed RGB writers -/

theorem store_word_upd (f : VSFrameRef) (pl y x s : Nat) (v0 v1 v2 v3 : Nat)
    (V : Nat → Nat → Nat → Nat) (p : Plane)
    (hp : f.planes[pl]? = some p) (hs : p.stride = s) (hx : 4 * x + 4 ≤ s)
    (hlen : y * s + s ≤ p.data.length)
    (h0 : v0 < 256) (h1 : v1 < 256) (h2 : v2 < 256) (h3 : v3 < 256)
    (hV0 : V pl y (4 * x) = v0) (hV1 : V pl y (4 * x + 1) = v1)
    (hV2 : V pl y (4 * x + 2) = v2) (hV3 : V pl y (4 * x + 3) = v3) :
    ∃ g, f.store pl (y * s + 4 * x) (bytes_le32 (bitor8to32 v3 v2 v1 v0)) = .ret g ∧
      Upd f g (fun pl2 y2 b => pl2 = pl ∧ y2 = y ∧ 4 * x ≤ b ∧ b < 4 * x + 4) V := by
  rw [bytes_le32_bitor8to32 v0 v1 v2 v3 h0 h1 h2 h3]
  subst hs
  have := VSFrameRef.store_upd f pl y (4 * x) [v0, v1, v2, v3] p V hp
    (by simpa using hx) (by simp only [List.length_cons, List.length_nil]; omega)
    (by
      intro j hj
      simp only [List.length_cons, List.length_nil] at hj
      interval_cases j
      · simp [hV0]
      · simp [hV1]
      · simp [hV2]
      · simp [hV3])
  simpa using this

theorem getD_lt_of_forall (src : List Nat) (hb : ∀ x ∈ src, x < 256) (i : Nat) :
    src.getD i 0 < 256 := by
  rw [List.getD_eq_getElem?_getD]
  cases h : src[i]? with
  | none => simp
  | some v => exact hb v (List.mem_iff_getElem?.2 ⟨i, h⟩)

theorem getWritePtr_of_plane (dst : VSFrameRef) (pl : Nat) (p : Plane)
    (h : dst.planes[pl]? = some p) : getWritePtr dst pl = .ret pl := by
  simp [getWritePtr, h]

theorem getStride_of_plane (dst : VSFrameRef) (pl : Nat) (p : Plane)
    (h : dst.planes[pl]? = some p) : getStride dst pl = .ret p.stride := by
  simp [getStride, h]

theorem getFrameWidth_of_plane (dst : VSFrameRef) (pl : Nat) (p : Plane)
    (h : dst.planes[pl]? = some p) : getFrameWidth dst pl = .ret p.width := by
  simp [getFrameWidth, h]

theorem getFrameHeight_of_plane (dst : VSFrameRef) (pl : Nat) (p : Plane)
    (h : dst.planes[pl]? = some p) : getFrameHeight dst pl = .ret p.height := by
  simp [getFrameHeight, h]

theorem row_le (y h s : Nat) (hy : y < h) : y * s + s ≤ h * s := by
  have := Nat.mul_le_mul_right s (show y + 1 ≤ h from hy)
  rw [Nat.succ_mul] at this
  exact this

theorem words_cover (n b : Nat) : (∃ x, 0 ≤ x ∧ x < 0 + n ∧ 4 * x ≤ b ∧ b < 4 * x + 4) ↔ b < 4 * n := by
  constructor
  · rintro ⟨x, -, h1, h2, h3⟩; omega
  · intro h; exact ⟨b / 4, by omega, by omega, by omega, by omega⟩

theorem rgb_value (src bl : List Nat) (base a step x k c e : Nat)
    (hbl : ∀ i, i < 3 * step + 3 → bl.getD (a + i) 0 = src.getD (base + a + i) 0)
    (hk : k < 4) (hc : c < 3) (hstep : 3 ≤ step) (he : e = a + (k * step + c)) :
    src.getD (base + a + step * (4 * x + k - 4 * x) + c) 0 = bl.getD e 0 := by
  subst he
  have hlt : k * step + c < 3 * step + 3 := by
    interval_cases k <;> omega
  rw [hbl _ hlt, show 4 * x + k - 4 * x = k by omega]
  congr 1
  ring

/-- The three word stores of one step of the packed RGB writers. -/
theorem rgb_step_upd (src : List Nat) (hbytes : ∀ v ∈ src, v < 256) (f : VSFrameRef)
    (o0 o1 o2 s h y x base step a : Nat) (bl : List Nat)
    (hd01 : o0 ≠ o1) (hd02 : o0 ≠ o2) (hd12 : o1 ≠ o2)
    (hplanes : ∀ pl, pl = o0 ∨ pl = o1 ∨ pl = o2 →
      ∃ p, f.planes[pl]? = some p ∧ p.stride = s ∧ h * s ≤ p.data.length)
    (hy : y < h) (hx : 4 * x + 4 ≤ s)
    (hbl : ∀ i, i < 3 * step + 3 → bl.getD (a + i) 0 = src.getD (base + a + i) 0) (hstep : 3 ≤ step) :
    ∃ g,
      ((f.store o0 (y * s + 4 * x)
        (bytes_le32 (bitor8to32 (bl.getD (a + 3 * step) 0) (bl.getD (a + 2 * step) 0)
          (bl.getD (a + step) 0) (bl.getD a 0)))).bind fun d =>
      (d.store o1 (y * s + 4 * x)
        (bytes_le32 (bitor8to32 (bl.getD (a + 3 * step + 1) 0) (bl.getD (a + 2 * step + 1) 0)
          (bl.getD (a + step + 1) 0) (bl.getD (a + 1) 0)))).bind fun d =>
      d.store o2 (y * s + 4 * x)
        (bytes_le32 (bitor8to32 (bl.getD (a + 3 * step + 2) 0) (bl.getD (a + 2 * step + 2) 0)
          (bl.getD (a + step + 2) 0) (bl.getD (a + 2) 0)))) = .ret g ∧
      Upd f g (fun pl y2 b => (pl = o0 ∨ pl = o1 ∨ pl = o2) ∧ y2 = y ∧ 4 * x ≤ b ∧ b < 4 * x + 4)
        (fun pl _ b => src.getD (base + a + step * (b - 4 * x)
          + (if pl = o0 then 0 else if pl = o1 then 1 else 2)) 0) := by
  have hrow := row_le y h s hy
  have hg : ∀ e, (∃ i, i < 3 * step + 3 ∧ e = a + i) → bl.getD e 0 < 256 := by
    rintro e ⟨i, hi, rfl⟩
    rw [hbl i hi]; exact getD_lt_of_forall src hbytes _
  have hv : ∀ pl k c e, k < 4 → c < 3 → e = a + (k * step + c) →
      (if pl = o0 then 0 else if pl = o1 then 1 else 2) = c →
      (fun pl (_ : Nat) b => src.getD (base + a + step * (b - 4 * x)
          + (if pl = o0 then 0 else if pl = o1 then 1 else 2)) 0) pl y (4 * x + k)
        = bl.getD e 0 := by
    intro pl k c e hk hc he hch
    show src.getD (base + a + step * (4 * x + k - 4 * x)
      + (if pl = o0 then 0 else if pl = o1 then 1 else 2)) 0 = _
    rw [hch]
    exact rgb_value src bl base a step x k c e hbl hk hc hstep he
  have c0 : (if o0 = o0 then 0 else if o0 = o1 then 1 else 2) = 0 := if_pos rfl
  have c1 : (if o1 = o0 then 0 else if o1 = o1 then 1 else 2) = 1 := by
    rw [if_neg hd01.symm, if_pos rfl]
  have c2 : (if o2 = o0 then 0 else if o2 = o1 then 1 else 2) = 2 := by
    rw [if_neg hd02.symm, if_neg hd12.symm]
  obtain ⟨p0, hp0, hs0, hl0⟩ := hplanes o0 (Or.inl rfl)
  obtain ⟨g0, hg0e, hu0⟩ := store_word_upd f o0 y x s (bl.getD a 0) (bl.getD (a + step) 0)
    (bl.getD (a + 2 * step) 0) (bl.getD (a + 3 * step) 0)
    (fun pl (_ : Nat) b => src.getD (base + a + step * (b - 4 * x)
          + (if pl = o0 then 0 else if pl = o1 then 1 else 2)) 0) p0 hp0 hs0 hx (by omega)
    (hg _ ⟨0, by omega, rfl⟩) (hg _ ⟨step, by omega, rfl⟩) (hg _ ⟨2 * step, by omega, rfl⟩)
    (hg _ ⟨3 * step, by omega, rfl⟩)
    (hv o0 0 0 a (by omega) (by omega) (by omega) c0)
    (hv o0 1 0 (a + step) (by omega) (by omega) (by omega) c0)
    (hv o0 2 0 (a + 2 * step) (by omega) (by omega) (by omega) c0)
    (hv o0 3 0 (a + 3 * step) (by omega) (by omega) (by omega) c0)
  obtain ⟨p1, hp1, hs1, hl1⟩ := hplanes o1 (Or.inr (Or.inl rfl))
  obtain ⟨q1, hq1, -, -, hqs1, hql1⟩ := shape_plane f g0 hu0.1 o1 p1 hp1
  obtain ⟨g1, hg1e, hu1⟩ := store_word_upd g0 o1 y x s (bl.getD (a + 1) 0)
    (bl.getD (a + step + 1) 0)
    (bl.getD (a + 2 * step + 1) 0) (bl.getD (a + 3 * step + 1) 0)
    (fun pl (_ : Nat) b => src.getD (base + a + step * (b - 4 * x)
          + (if pl = o0 then 0 else if pl = o1 then 1 else 2)) 0) q1 hq1 (hqs1.trans hs1) hx
    (by omega)
    (hg _ ⟨1, by omega, rfl⟩) (hg _ ⟨step + 1, by omega, by omega⟩)
    (hg _ ⟨2 * step + 1, by omega, by omega⟩) (hg _ ⟨3 * step + 1, by omega, by omega⟩)
    (hv o1 0 1 (a + 1) (by omega) (by omega) (by omega) c1)
    (hv o1 1 1 (a + step + 1) (by omega) (by omega) (by omega) c1)
    (hv o1 2 1 (a + 2 * step + 1) (by omega) (by omega) (by omega) c1)
    (hv o1 3 1 (a + 3 * step + 1) (by omega) (by omega) (by omega) c1)
  obtain ⟨p2, hp2, hs2, hl2⟩ := hplanes o2 (Or.inr (Or.inr rfl))
  obtain ⟨q2, hq2, -, -, hqs2, hql2⟩ := shape_plane f g1 (hu1.1.trans hu0.1) o2 p2 hp2
  obtain ⟨g2, hg2e, hu2⟩ := store_word_upd g1 o2 y x s (bl.getD (a + 2) 0)
    (bl.getD (a + step + 2) 0)
    (bl.getD (a + 2 * step + 2) 0) (bl.getD (a + 3 * step + 2) 0)
    (fun pl (_ : Nat) b => src.getD (base + a + step * (b - 4 * x)
          + (if pl = o0 then 0 else if pl = o1 then 1 else 2)) 0) q2 hq2 (hqs2.trans hs2) hx
    (by omega)
    (hg _ ⟨2, by omega, rfl⟩) (hg _ ⟨step + 2, by omega, by omega⟩)
    (hg _ ⟨2 * step + 2, by omega, by omega⟩) (hg _ ⟨3 * step + 2, by omega, by omega⟩)
    (hv o2 0 2 (a + 2) (by omega) (by omega) (by omega) c2)
    (hv o2 1 2 (a + step + 2) (by omega) (by omega) (by omega) c2)
    (hv o2 2 2 (a + 2 * step + 2) (by omega) (by omega) (by omega) c2)
    (hv o2 3 2 (a + 3 * step + 2) (by omega) (by omega) (by omega) c2)
  refine ⟨g2, by simp only [hg0e, hg1e, hg2e, Exec.bind], ?_⟩
  refine ((hu0.trans hu1).trans hu2).congr (fun pl y2 b _ => ?_) (fun _ _ _ _ _ => rfl)
  constructor
  · rintro ⟨h1 | h1 | h1, h2⟩
    · exact Or.inl (Or.inl ⟨h1, h2⟩)
    · exact Or.inl (Or.inr ⟨h1, h2⟩)
    · exact Or.inr ⟨h1, h2⟩
  · rintro ((⟨h1, h2⟩ | ⟨h1, h2⟩) | ⟨h1, h2⟩)
    · exact ⟨Or.inl h1, h2⟩
    · exact ⟨Or.inr (Or.inl h1), h2⟩
    · exact ⟨Or.inr (Or.inr h1), h2⟩

theorem order_at_of (rh : rs_hnd_t) (i : Nat) (o : Nat) (h : rh.order[i]? = some (o : Int)) :
    order_at rh i = .ret o := by
  simp [order_at, h]

theorem write_packed_rgb24_upd (rh : rs_hnd_t) (src : List Nat) (dst : VSFrameRef)
    (w h s o0 o1 o2 : Nat) (hbytes : ∀ v ∈ src, v < 256)
    (hw : rh.vi.width = (w : Int)) (hh : rh.vi.height = (h : Int))
    (ho0 : order_at rh 0 = .ret o0) (ho1 : order_at rh 1 = .ret o1)
    (ho2 : order_at rh 2 = .ret o2)
    (hd01 : o0 ≠ o1) (hd02 : o0 ≠ o2) (hd12 : o1 ≠ o2)
    (hplanes : ∀ pl, pl = 0 ∨ pl = o0 ∨ pl = o1 ∨ pl = o2 →
      ∃ p, dst.planes[pl]? = some p ∧ p.stride = s ∧ h * s ≤ p.data.length)
    (hs : 4 * ((w + 3) / 4) ≤ s)
    (hsrc : h * (w * 3) + 32 ≤ src.length) :
    ∃ out, write_packed_rgb24 rh src dst = .ret out ∧
      Upd dst out
        (fun pl y b => (pl = o0 ∨ pl = o1 ∨ pl = o2) ∧ y < h ∧ b < 4 * ((w + 3) / 4))
        (fun pl y b => src.getD (y * (w * 3) + 3 * b
          + (if pl = o0 then 0 else if pl = o1 then 1 else 2)) 0) := by
  obtain ⟨pz, hpz, hsz, -⟩ := hplanes 0 (Or.inl rfl)
  obtain ⟨p0, hp0, -, -⟩ := hplanes o0 (Or.inr (Or.inl rfl))
  obtain ⟨p1, hp1, -, -⟩ := hplanes o1 (Or.inr (Or.inr (Or.inl rfl)))
  obtain ⟨p2, hp2, -, -⟩ := hplanes o2 (Or.inr (Or.inr (Or.inr rfl)))
  unfold write_packed_rgb24
  simp only [hw, hh, Int.toNat_ofNat, ho0, ho1, ho2, Exec.bind_ret,
    getWritePtr_of_plane dst o0 p0 hp0, getWritePtr_of_plane dst o1 p1 hp1,
    getWritePtr_of_plane dst o2 p2 hp2, getStride_of_plane dst 0 pz hpz, hsz]
  obtain ⟨out, hout, hu⟩ := for_loop_upd
    (fun y d =>
      for_loop (fun x d =>
          (load src (y * (w * 3) + 12 * x) 12).bind fun c =>
          (d.store o0 (y * s + 4 * x)
            (bytes_le32 (bitor8to32 (c.getD 9 0) (c.getD 6 0) (c.getD 3 0) (c.getD 0 0)))).bind
          fun d =>
          (d.store o1 (y * s + 4 * x)
            (bytes_le32 (bitor8to32 (c.getD 10 0) (c.getD 7 0) (c.getD 4 0) (c.getD 1 0)))).bind
          fun d =>
          d.store o2 (y * s + 4 * x)
            (bytes_le32 (bitor8to32 (c.getD 11 0) (c.getD 8 0) (c.getD 5 0) (c.getD 2 0))))
        ((w + 3) / 4) 0 d)
    (fun _ f => f)
    (fun y pl y2 b => (pl = o0 ∨ pl = o1 ∨ pl = o2) ∧ y2 = y ∧ b < 4 * ((w + 3) / 4))
    (fun pl y b => src.getD (y * (w * 3) + 3 * b
      + (if pl = o0 then 0 else if pl = o1 then 1 else 2)) 0) h 0 dst
    (by
      intro y _ hy f hf
      have hy2 : y < h := by omega
      have hrow := row_le y h (w * 3) hy2
      obtain ⟨g, hg, hug⟩ := for_loop_upd
        (fun x d =>
          (load src (y * (w * 3) + 12 * x) 12).bind fun c =>
          (d.store o0 (y * s + 4 * x)
            (bytes_le32 (bitor8to32 (c.getD 9 0) (c.getD 6 0) (c.getD 3 0) (c.getD 0 0)))).bind
          fun d =>
          (d.store o1 (y * s + 4 * x)
            (bytes_le32 (bitor8to32 (c.getD 10 0) (c.getD 7 0) (c.getD 4 0) (c.getD 1 0)))).bind
          fun d =>
          d.store o2 (y * s + 4 * x)
            (bytes_le32 (bitor8to32 (c.getD 11 0) (c.getD 8 0) (c.getD 5 0) (c.getD 2 0))))
        (fun _ f => f)
        (fun x pl y2 b => (pl = o0 ∨ pl = o1 ∨ pl = o2) ∧ y2 = y ∧ 4 * x ≤ b ∧ b < 4 * x + 4)
        (fun pl y b => src.getD (y * (w * 3) + 3 * b
          + (if pl = o0 then 0 else if pl = o1 then 1 else 2)) 0) ((w + 3) / 4) 0 f
        (by
          intro x _ hx f2 hf2
          have hx2 : x < (w + 3) / 4 := by omega
          obtain ⟨bl, hbl, -, hblg⟩ := load_getD src (y * (w * 3) + 12 * x) 12 (by omega)
          have hpl2 : ∀ pl, pl = o0 ∨ pl = o1 ∨ pl = o2 →
              ∃ p, f2.planes[pl]? = some p ∧ p.stride = s ∧ h * s ≤ p.data.length := by
            intro pl hpl
            obtain ⟨p, hp, hps, hpl3⟩ := hplanes pl (Or.inr hpl)
            obtain ⟨q, hq, -, -, hqs, hql⟩ := shape_plane dst f2 (hf2.trans hf) pl p hp
            exact ⟨q, hq, hqs.trans hps, by omega⟩
          obtain ⟨g, hg, hug⟩ := rgb_step_upd src hbytes f2 o0 o1 o2 s h y x
            (y * (w * 3) + 12 * x) 3 0 bl hd01 hd02 hd12 hpl2 hy2 (by omega)
            (fun i hi => by
              have := (hblg i (by omega)).1
              simpa using this) (le_refl _)
          refine ⟨g, ?_, ?_⟩
          · simp only [hbl, Exec.bind_ret]
            exact hg
          · refine hug.congr (fun _ _ _ _ => Iff.rfl) ?_
            rintro pl y2 b - ⟨-, rfl, hb1, hb2⟩
            show src.getD _ 0 = src.getD _ 0
            congr 1
            omega)
      refine ⟨g, hg, hug.congr (fun pl y2 b _ => ?_) (fun _ _ _ _ _ => rfl)⟩
      constructor
      · rintro ⟨h1, h2, h3⟩
        obtain ⟨x, hx⟩ := (words_cover ((w + 3) / 4) b).2 h3
        exact ⟨x, hx.1, hx.2.1, h1, h2, hx.2.2⟩
      · rintro ⟨x, hx1, hx2, h1, h2, hx3⟩
        exact ⟨h1, h2, (words_cover ((w + 3) / 4) b).1 ⟨x, hx1, hx2, hx3⟩⟩)
  refine ⟨out, by simpa using hout, hu.congr (fun pl y2 b _ => ?_) (fun _ _ _ _ _ => rfl)⟩
  constructor
  · rintro ⟨h1, h2, h3⟩
    exact ⟨y2, by omega, by omega, h1, rfl, h3⟩
  · rintro ⟨y, hy1, hy2, h1, rfl, h3⟩
    exact ⟨h1, by omega, h3⟩

theorem write_packed_rgb32_upd (rh : rs_hnd_t) (src : List Nat) (dst : VSFrameRef)
    (w h s a o0 o1 o2 : Nat) (hbytes : ∀ v ∈ src, v < 256)
    (hw : rh.vi.width = (w : Int)) (hh : rh.vi.height = (h : Int))
    (ha : (if rh.order[0]? = some 9 then 1 else 0) = a)
    (ho0 : order_at rh a = .ret o0) (ho1 : order_at rh (a + 1) = .ret o1)
    (ho2 : order_at rh (a + 2) = .ret o2)
    (hd01 : o0 ≠ o1) (hd02 : o0 ≠ o2) (hd12 : o1 ≠ o2)
    (hplanes : ∀ pl, pl = 0 ∨ pl = o0 ∨ pl = o1 ∨ pl = o2 →
      ∃ p, dst.planes[pl]? = some p ∧ p.stride = s ∧ h * s ≤ p.data.length)
    (hs : 4 * ((w + 3) / 4) ≤ s)
    (hsrc : h * (w * 4) + 32 ≤ src.length) :
    ∃ out, write_packed_rgb32 rh src dst = .ret out ∧
      Upd dst out
        (fun pl y b => (pl = o0 ∨ pl = o1 ∨ pl = o2) ∧ y < h ∧ b < 4 * ((w + 3) / 4))
        (fun pl y b => src.getD (y * (w * 4) + 4 * b + a
          + (if pl = o0 then 0 else if pl = o1 then 1 else 2)) 0) := by
  have ha1 : a ≤ 1 := by
    rw [← ha]; split <;> omega
  obtain ⟨pz, hpz, hsz, -⟩ := hplanes 0 (Or.inl rfl)
  obtain ⟨p0, hp0, -, -⟩ := hplanes o0 (Or.inr (Or.inl rfl))
  obtain ⟨p1, hp1, -, -⟩ := hplanes o1 (Or.inr (Or.inr (Or.inl rfl)))
  obtain ⟨p2, hp2, -, -⟩ := hplanes o2 (Or.inr (Or.inr (Or.inr rfl)))
  unfold write_packed_rgb32
  simp only [hw, hh, Int.toNat_ofNat, ha, ho0, ho1, ho2, Exec.bind_ret,
    getWritePtr_of_plane dst o0 p0 hp0, getWritePtr_of_plane dst o1 p1 hp1,
    getWritePtr_of_plane dst o2 p2 hp2, getStride_of_plane dst 0 pz hpz, hsz]
  obtain ⟨out, hout, hu⟩ := for_loop_upd
    (fun y d =>
      for_loop (fun x d =>
          (load src (y * (w * 4) + 16 * x) (a + 15)).bind fun c =>
          (d.store o0 (y * s + 4 * x)
            (bytes_le32 (bitor8to32 (c.getD (a + 12) 0) (c.getD (a + 8) 0)
              (c.getD (a + 4) 0) (c.getD a 0)))).bind
          fun d =>
          (d.store o1 (y * s + 4 * x)
            (bytes_le32 (bitor8to32 (c.getD (a + 13) 0) (c.getD (a + 9) 0)
              (c.getD (a + 5) 0) (c.getD (a + 1) 0)))).bind
          fun d =>
          d.store o2 (y * s + 4 * x)
            (bytes_le32 (bitor8to32 (c.getD (a + 14) 0) (c.getD (a + 10) 0)
              (c.getD (a + 6) 0) (c.getD (a + 2) 0))))
        ((w + 3) / 4) 0 d)
    (fun _ f => f)
    (fun y pl y2 b => (pl = o0 ∨ pl = o1 ∨ pl = o2) ∧ y2 = y ∧ b < 4 * ((w + 3) / 4))
    (fun pl y b => src.getD (y * (w * 4) + 4 * b + a
      + (if pl = o0 then 0 else if pl = o1 then 1 else 2)) 0) h 0 dst
    (by
      intro y _ hy f hf
      have hy2 : y < h := by omega
      have hrow := row_le y h (w * 4) hy2
      obtain ⟨g, hg, hug⟩ := for_loop_upd
        (fun x d =>
          (load src (y * (w * 4) + 16 * x) (a + 15)).bind fun c =>
          (d.store o0 (y * s + 4 * x)
            (bytes_le32 (bitor8to32 (c.getD (a + 12) 0) (c.getD (a + 8) 0)
              (c.getD (a + 4) 0) (c.getD a 0)))).bind
          fun d =>
          (d.store o1 (y * s + 4 * x)
            (bytes_le32 (bitor8to32 (c.getD (a + 13) 0) (c.getD (a + 9) 0)
              (c.getD (a + 5) 0) (c.getD (a + 1) 0)))).bind
          fun d =>
          d.store o2 (y * s + 4 * x)
            (bytes_le32 (bitor8to32 (c.getD (a + 14) 0) (c.getD (a + 10) 0)
              (c.getD (a + 6) 0) (c.getD (a + 2) 0))))
        (fun _ f => f)
        (fun x pl y2 b => (pl = o0 ∨ pl = o1 ∨ pl = o2) ∧ y2 = y ∧ 4 * x ≤ b ∧ b < 4 * x + 4)
        (fun pl y b => src.getD (y * (w * 4) + 4 * b + a
          + (if pl = o0 then 0 else if pl = o1 then 1 else 2)) 0) ((w + 3) / 4) 0 f
        (by
          intro x _ hx f2 hf2
          have hx2 : x < (w + 3) / 4 := by omega
          obtain ⟨bl, hbl, -, hblg⟩ := load_getD src (y * (w * 4) + 16 * x) (a + 15) (by omega)
          have hpl2 : ∀ pl, pl = o0 ∨ pl = o1 ∨ pl = o2 →
              ∃ p, f2.planes[pl]? = some p ∧ p.stride = s ∧ h * s ≤ p.data.length := by
            intro pl hpl
            obtain ⟨p, hp, hps, hpl3⟩ := hplanes pl (Or.inr hpl)
            obtain ⟨q, hq, -, -, hqs, hql⟩ := shape_plane dst f2 (hf2.trans hf) pl p hp
            exact ⟨q, hq, hqs.trans hps, by omega⟩
          obtain ⟨g, hg, hug⟩ := rgb_step_upd src hbytes f2 o0 o1 o2 s h y x
            (y * (w * 4) + 16 * x) 4 a bl hd01 hd02 hd12 hpl2 hy2 (by omega)
            (fun i hi => by
              have := (hblg (a + i) (by omega)).1
              rw [this]
              congr 1
              omega) (by omega)
          refine ⟨g, ?_, ?_⟩
          · simp only [hbl, Exec.bind_ret]
            exact hg
          · refine hug.congr (fun _ _ _ _ => Iff.rfl) ?_
            rintro pl y2 b - ⟨-, rfl, hb1, hb2⟩
            show src.getD _ 0 = src.getD _ 0
            congr 1
            omega)
      refine ⟨g, hg, hug.congr (fun pl y2 b _ => ?_) (fun _ _ _ _ _ => rfl)⟩
      constructor
      · rintro ⟨h1, h2, h3⟩
        obtain ⟨x, hx⟩ := (words_cover ((w + 3) / 4) b).2 h3
        exact ⟨x, hx.1, hx.2.1, h1, h2, hx.2.2⟩
      · rintro ⟨x, hx1, hx2, h1, h2, hx3⟩
        exact ⟨h1, h2, (words_cover ((w + 3) / 4) b).1 ⟨x, hx1, hx2, hx3⟩⟩)
  refine ⟨out, by simpa using hout, hu.congr (fun pl y2 b _ => ?_) (fun _ _ _ _ _ => rfl)⟩
  constructor
  · rintro ⟨h1, h2, h3⟩
    exact ⟨y2, by omega, by omega, h1, rfl, h3⟩
  · rintro ⟨y, hy1, hy2, h1, rfl, h3⟩
    exact ⟨h1, by omega, h3⟩

/-! ## rs_bit_blt and the semi-planar writer -/

theorem stride_of_plane (f : VSFrameRef) (pl : Nat) (p : Plane)
    (h : f.planes[pl]? = some p) : f.stride pl = p.stride := by
  simp [VSFrameRef.stride, h]

theorem VSFrameRef.store_bulk_upd (f : VSFrameRef) (pl height : Nat) (bs : List Nat)
    (p : Plane) (V : Nat → Nat → Nat → Nat)
    (hp : f.planes[pl]? = some p) (hlen : bs.length = height * p.stride)
    (hfit : height * p.stride ≤ p.data.length)
    (hV : ∀ y b, y < height → b < p.stride → bs[y * p.stride + b]? = some (V pl y b)) :
    ∃ g, f.store pl 0 bs = .ret g ∧ Upd f g (fun pl2 y _ => pl2 = pl ∧ y < height) V := by
  have hs : ∃ d, RawSource.store p.data 0 bs = .ret d := by
    unfold RawSource.store
    rw [if_pos (by omega)]
    exact ⟨_, rfl⟩
  obtain ⟨d, hd⟩ := hs
  obtain ⟨hdl, hdg⟩ := store_getElem _ _ _ _ hd
  have hpl : pl < f.planes.length := by
    by_contra hc
    rw [List.getElem?_eq_none (by omega)] at hp
    simp at hp
  refine ⟨{ planes := f.planes.set pl { p with data := d } }, ?_, ?_, ?_⟩
  · unfold VSFrameRef.store
    rw [hp]
    simp only [hd, Exec.bind]
  · unfold VSFrameRef.shape
    apply List.ext_getElem?
    intro i
    simp only [List.getElem?_map, List.getElem?_set]
    by_cases hi : pl = i
    · subst hi
      simp [hpl, hp, Plane.shape, hdl]
    · simp [hi]
  · intro pl2 y b hb2
    unfold VSFrameRef.byte
    by_cases hi : pl2 = pl
    · subst hi
      have hbs : b < p.stride := by
        simpa [VSFrameRef.stride, hp] using hb2
      simp only [List.getElem?_set, hpl, if_true, hp, true_and]
      rw [hdg]
      constructor
      · intro hw
        have := row_le y height p.stride hw
        rw [if_pos (by omega)]
        exact hV y b hw hbs
      · intro hw
        have := Nat.mul_le_mul_right p.stride (show height ≤ y by omega)
        rw [if_neg (by omega)]
    · have hne : ¬ pl = pl2 := fun h => hi h.symm
      simp only [List.getElem?_set, hne, if_false]
      simp [hi]

theorem for_loop_inv {τ : Type} (body : Nat → τ → Exec τ) (Inv : Nat → τ → Prop) (n : Nat) :
    ∀ (i0 : Nat) (s : τ), Inv i0 s →
      (∀ i s, i0 ≤ i → i < i0 + n → Inv i s → ∃ s2, body i s = .ret s2 ∧ Inv (i + 1) s2) →
      ∃ s2, for_loop body n i0 s = .ret s2 ∧ Inv (i0 + n) s2 := by
  induction n with
  | zero => intro i0 s h _; exact ⟨s, rfl, h⟩
  | succ n ih =>
    intro i0 s h hbody
    obtain ⟨s1, hs1, hi1⟩ := hbody i0 s (le_refl _) (by omega) h
    obtain ⟨s2, hs2, hi2⟩ := ih (i0 + 1) s1 hi1 (fun i s h1 h2 h3 =>
      hbody i s (by omega) (by omega) h3)
    refine ⟨s2, ?_, ?_⟩
    · simp only [for_loop, hs1, Exec.bind]
      exact hs2
    · rw [show i0 + (n + 1) = i0 + 1 + n by omega]
      exact hi2

/-- What `rs_bit_blt` does to a frame: `height` rows of `row_size` bytes of the
plane are replaced by the bytes of the buffer from `srcp` on, in both branches. -/
theorem rs_bit_blt_upd (src : List Nat) (srcp row_size height : Nat) (dst : VSFrameRef)
    (pl : Nat) (p : Plane) (hp : dst.planes[pl]? = some p) (hrow : row_size ≤ p.stride)
    (hlen : height * p.stride ≤ p.data.length)
    (hsrc : srcp + row_size * height ≤ src.length) :
    ∃ out, rs_bit_blt src srcp row_size height dst pl = .ret out ∧
      Upd dst out (fun pl2 y b => pl2 = pl ∧ y < height ∧ b < row_size)
        (fun _ y b => src.getD (srcp + y * row_size + b) 0) := by
  unfold rs_bit_blt
  simp only [getWritePtr_of_plane dst pl p hp, getStride_of_plane dst pl p hp, Exec.bind_ret]
  by_cases heq : row_size = p.stride
  · rw [if_pos heq]
    subst heq
    obtain ⟨bl, hbl, hbll, hblg⟩ := load_getD src srcp (p.stride * height) hsrc
    obtain ⟨g, hg, hu⟩ := VSFrameRef.store_bulk_upd dst pl height bl p
      (fun _ y b => src.getD (srcp + y * p.stride + b) 0) hp
      (by rw [hbll, Nat.mul_comm]) hlen
      (by
        intro y b hy hb
        have := row_le y height p.stride hy
        rw [(hblg (y * p.stride + b) (by rw [Nat.mul_comm p.stride]; omega)).2]
        congr 2
        omega)
    refine ⟨g, by simp only [hbl, Exec.bind_ret]; exact hg, ?_⟩
    refine hu.congr (fun pl2 y b hb => ?_) (fun _ _ _ _ _ => rfl)
    constructor
    · rintro ⟨h1, h2, -⟩; exact ⟨h1, h2⟩
    · rintro ⟨h1, h2⟩
      subst h1
      rw [stride_of_plane dst pl2 p hp] at hb
      exact ⟨rfl, h2, hb⟩
  · rw [if_neg heq]
    obtain ⟨g, hg, hu⟩ := for_loop_upd
      (fun _ (st : Nat × Nat × VSFrameRef) =>
        (load src st.2.1 row_size).bind fun bs =>
        (st.2.2.store pl st.1 bs).bind fun d =>
        .ret (st.1 + p.stride, st.2.1 + row_size, d))
      (fun i f => (i * p.stride, srcp + i * row_size, f))
      (fun i pl2 y b => pl2 = pl ∧ y = i ∧ 0 ≤ b ∧ b < 0 + row_size)
      (fun _ y b => src.getD (srcp + y * row_size + b) 0) height 0 dst
      (by
        intro i _ hi f hf
        have hi2 : i < height := by omega
        have hr1 := row_le i height p.stride hi2
        have hr2 : i * row_size + row_size ≤ row_size * height := by
          have := row_le i height row_size hi2
          rw [Nat.mul_comm row_size]; exact this
        obtain ⟨bl, hbl, hbll, hblg⟩ := load_getD src (srcp + i * row_size) row_size (by omega)
        obtain ⟨q, hq, -, -, hqs, hql⟩ := shape_plane dst f hf pl p hp
        have hr3 : i * q.stride + q.stride ≤ height * q.stride := by rw [hqs]; exact hr1
        have hr4 : height * q.stride ≤ q.data.length := by rw [hqs, hql]; exact hlen
        obtain ⟨g, hg, hu⟩ := VSFrameRef.store_upd f pl i 0 bl q
          (fun _ y b => src.getD (srcp + y * row_size + b) 0) hq (by omega) (by omega)
          (by
            intro j hj
            rw [(hblg j (by omega)).2]
            congr 2
            omega)
        rw [hqs, Nat.add_zero] at hg
        rw [hbll] at hu
        refine ⟨g, ?_, hu⟩
        simp only [hbl, Exec.bind_ret, hg]
        congr 2
        · rw [Nat.succ_mul]
        · congr 1
          rw [Nat.succ_mul]; omega)
    refine ⟨g, ?_, ?_⟩
    · simp only [Nat.zero_mul, Nat.add_zero] at hg
      simp only [hg, Exec.bind_ret]
    · refine hu.congr (fun pl2 y b hb => ?_) (fun _ _ _ _ _ => rfl)
      constructor
      · rintro ⟨h1, h2, h3⟩; exact ⟨y, by omega, by omega, h1, rfl, by omega, by omega⟩
      · rintro ⟨i, h1, h2, h3, rfl, h4, h5⟩
        exact ⟨h3, by omega, by omega⟩

theorem nv_value (src bl : List Nat) (base x k c e : Nat)
    (hbl : ∀ i, i < 8 → bl.getD i 0 = src.getD (base + i) 0)
    (hk : k < 4) (hc : c < 2) (he : e = 2 * k + c) :
    src.getD (base + 2 * (4 * x + k - 4 * x) + c) 0 = bl.getD e 0 := by
  subst he
  rw [hbl _ (by omega), show 4 * x + k - 4 * x = k by omega]
  congr 1
  omega

/-- The two word stores of one step of `write_nvxx_frame`. -/
theorem nv_step_upd (src : List Nat) (hbytes : ∀ v ∈ src, v < 256) (f : VSFrameRef)
    (o1 o2 s h y x base : Nat) (bl : List Nat) (hd12 : o1 ≠ o2)
    (hplanes : ∀ pl, pl = o1 ∨ pl = o2 →
      ∃ p, f.planes[pl]? = some p ∧ p.stride = s ∧ h * s ≤ p.data.length)
    (hy : y < h) (hx : 4 * x + 4 ≤ s)
    (hbl : ∀ i, i < 8 → bl.getD i 0 = src.getD (base + i) 0) :
    ∃ g,
      ((f.store o1 (y * s + 4 * x)
        (bytes_le32 (bitor8to32 (bl.getD 6 0) (bl.getD 4 0) (bl.getD 2 0) (bl.getD 0 0)))).bind
      fun d =>
      d.store o2 (y * s + 4 * x)
        (bytes_le32 (bitor8to32 (bl.getD 7 0) (bl.getD 5 0) (bl.getD 3 0) (bl.getD 1 0))))
        = .ret g ∧
      Upd f g (fun pl y2 b => (pl = o1 ∨ pl = o2) ∧ y2 = y ∧ 4 * x ≤ b ∧ b < 4 * x + 4)
        (fun pl _ b => src.getD (base + 2 * (b - 4 * x) + (if pl = o1 then 0 else 1)) 0) := by
  have hrow := row_le y h s hy
  have hg : ∀ i, i < 8 → bl.getD i 0 < 256 := by
    intro i hi
    rw [hbl i hi]; exact getD_lt_of_forall src hbytes _
  have hv : ∀ pl k c e, k < 4 → c < 2 → e = 2 * k + c →
      (if pl = o1 then 0 else 1) = c →
      (fun pl (_ : Nat) b => src.getD (base + 2 * (b - 4 * x)
          + (if pl = o1 then 0 else 1)) 0) pl y (4 * x + k)
        = bl.getD e 0 := by
    intro pl k c e hk hc he hch
    show src.getD (base + 2 * (4 * x + k - 4 * x) + (if pl = o1 then 0 else 1)) 0 = _
    rw [hch]
    exact nv_value src bl base x k c e hbl hk hc he
  have c1 : (if o1 = o1 then 0 else 1) = 0 := if_pos rfl
  have c2 : (if o2 = o1 then 0 else 1) = 1 := if_neg hd12.symm
  obtain ⟨p1, hp1, hs1, hl1⟩ := hplanes o1 (Or.inl rfl)
  obtain ⟨g1, hg1e, hu1⟩ := store_word_upd f o1 y x s (bl.getD 0 0) (bl.getD 2 0)
    (bl.getD 4 0) (bl.getD 6 0)
    (fun pl (_ : Nat) b => src.getD (base + 2 * (b - 4 * x) + (if pl = o1 then 0 else 1)) 0)
    p1 hp1 hs1 hx (by omega)
    (hg _ (by omega)) (hg _ (by omega)) (hg _ (by omega)) (hg _ (by omega))
    (hv o1 0 0 0 (by omega) (by omega) (by omega) c1)
    (hv o1 1 0 2 (by omega) (by omega) (by omega) c1)
    (hv o1 2 0 4 (by omega) (by omega) (by omega) c1)
    (hv o1 3 0 6 (by omega) (by omega) (by omega) c1)
  obtain ⟨p2, hp2, hs2, hl2⟩ := hplanes o2 (Or.inr rfl)
  obtain ⟨q2, hq2, -, -, hqs2, hql2⟩ := shape_plane f g1 hu1.1 o2 p2 hp2
  obtain ⟨g2, hg2e, hu2⟩ := store_word_upd g1 o2 y x s (bl.getD 1 0) (bl.getD 3 0)
    (bl.getD 5 0) (bl.getD 7 0)
    (fun pl (_ : Nat) b => src.getD (base + 2 * (b - 4 * x) + (if pl = o1 then 0 else 1)) 0)
    q2 hq2 (hqs2.trans hs2) hx (by omega)
    (hg _ (by omega)) (hg _ (by omega)) (hg _ (by omega)) (hg _ (by omega))
    (hv o2 0 1 1 (by omega) (by omega) (by omega) c2)
    (hv o2 1 1 3 (by omega) (by omega) (by omega) c2)
    (hv o2 2 1 5 (by omega) (by omega) (by omega) c2)
    (hv o2 3 1 7 (by omega) (by omega) (by omega) c2)
  refine ⟨g2, by simp only [hg1e, hg2e, Exec.bind], ?_⟩
  refine (hu1.trans hu2).congr (fun pl y2 b _ => ?_) (fun _ _ _ _ _ => rfl)
  constructor
  · rintro ⟨h1 | h1, h2⟩
    · exact Or.inl ⟨h1, h2⟩
    · exact Or.inr ⟨h1, h2⟩
  · rintro (⟨h1, h2⟩ | ⟨h1, h2⟩)
    · exact ⟨Or.inl h1, h2⟩
    · exact ⟨Or.inr h1, h2⟩

theorem write_nvxx_frame_upd (rh : rs_hnd_t) (src : List Nat) (dst : VSFrameRef)
    (w h cw ch s1 o1 o2 : Nat) (p0 : Plane) (hbytes : ∀ v ∈ src, v < 256)
    (hp0 : dst.planes[0]? = some p0) (hw0 : p0.width = w) (hh0 : p0.height = h)
    (hs0 : w ≤ p0.stride) (hl0 : h * p0.stride ≤ p0.data.length)
    (ho1 : order_at rh 1 = .ret o1) (ho2 : order_at rh 2 = .ret o2)
    (hd12 : o1 ≠ o2) (h10 : o1 ≠ 0) (h20 : o2 ≠ 0)
    (hchroma : ∀ pl, pl = 1 ∨ pl = o1 ∨ pl = o2 →
      ∃ p, dst.planes[pl]? = some p ∧ p.width = cw ∧ p.height = ch ∧ p.stride = s1 ∧
        ch * s1 ≤ p.data.length)
    (hs1 : 4 * ((cw + 3) / 4) ≤ s1) (hcw : 2 * cw ≤ w)
    (hsrc : w * h + ch * w + 32 ≤ src.length) :
    ∃ out, write_nvxx_frame rh src dst = .ret out ∧
      Upd dst out
        (fun pl y b => (pl = 0 ∧ y < h ∧ b < w) ∨
          ((pl = o1 ∨ pl = o2) ∧ y < ch ∧ b < 4 * ((cw + 3) / 4)))
        (fun pl y b =>
          if pl = 0 then src.getD (y * w + b) 0
          else src.getD (w * h + y * w + 2 * b + (if pl = o1 then 0 else 1)) 0) := by
  unfold write_nvxx_frame
  simp only [getFrameWidth_of_plane dst 0 p0 hp0, getFrameHeight_of_plane dst 0 p0 hp0,
    Exec.bind_ret, hw0, hh0]
  obtain ⟨f1, hf1, hu1⟩ := rs_bit_blt_upd src 0 w h dst 0 p0 hp0 hs0 hl0 (by omega)
  have hpl1 : ∀ pl, pl = 1 ∨ pl = o1 ∨ pl = o2 →
      ∃ p, f1.planes[pl]? = some p ∧ p.width = cw ∧ p.height = ch ∧ p.stride = s1 ∧
        ch * s1 ≤ p.data.length := by
    intro pl hpl
    obtain ⟨p, hp, hpw, hph, hps, hpl3⟩ := hchroma pl hpl
    obtain ⟨q, hq, hqw, hqh, hqs, hql⟩ := shape_plane dst f1 hu1.1 pl p hp
    exact ⟨q, hq, hqw.trans hpw, hqh.trans hph, hqs.trans hps, by omega⟩
  obtain ⟨q1, hq1, hq1w, hq1h, hq1s, -⟩ := hpl1 1 (Or.inl rfl)
  obtain ⟨r1, hr1, -⟩ := hpl1 o1 (Or.inr (Or.inl rfl))
  obtain ⟨r2, hr2, -⟩ := hpl1 o2 (Or.inr (Or.inr rfl))
  simp only [hf1, Exec.bind_ret, getFrameWidth_of_plane f1 1 q1 hq1,
    getFrameHeight_of_plane f1 1 q1 hq1, getStride_of_plane f1 1 q1 hq1, ho1, ho2,
    getWritePtr_of_plane f1 o1 r1 hr1, getWritePtr_of_plane f1 o2 r2 hr2, hq1w, hq1h, hq1s]
  obtain ⟨out, hout, hu⟩ := for_loop_upd
    (fun y d =>
      for_loop (fun x d =>
          (load src (w * h + y * w + 8 * x) 8).bind fun c =>
          (d.store o1 (y * s1 + 4 * x)
            (bytes_le32 (bitor8to32 (c.getD 6 0) (c.getD 4 0) (c.getD 2 0) (c.getD 0 0)))).bind
          fun d =>
          d.store o2 (y * s1 + 4 * x)
            (bytes_le32 (bitor8to32 (c.getD 7 0) (c.getD 5 0) (c.getD 3 0) (c.getD 1 0))))
        ((cw + 3) / 4) 0 d)
    (fun _ f => f)
    (fun y pl y2 b => (pl = o1 ∨ pl = o2) ∧ y2 = y ∧ b < 4 * ((cw + 3) / 4))
    (fun pl y b => src.getD (w * h + y * w + 2 * b + (if pl = o1 then 0 else 1)) 0) ch 0 f1
    (by
      intro y _ hy f hf
      have hy2 : y < ch := by omega
      have hrow := row_le y ch w hy2
      obtain ⟨g, hg, hug⟩ := for_loop_upd
        (fun x d =>
          (load src (w * h + y * w + 8 * x) 8).bind fun c =>
          (d.store o1 (y * s1 + 4 * x)
            (bytes_le32 (bitor8to32 (c.getD 6 0) (c.getD 4 0) (c.getD 2 0) (c.getD 0 0)))).bind
          fun d =>
          d.store o2 (y * s1 + 4 * x)
            (bytes_le32 (bitor8to32 (c.getD 7 0) (c.getD 5 0) (c.getD 3 0) (c.getD 1 0))))
        (fun _ f => f)
        (fun x pl y2 b => (pl = o1 ∨ pl = o2) ∧ y2 = y ∧ 4 * x ≤ b ∧ b < 4 * x + 4)
        (fun pl y b => src.getD (w * h + y * w + 2 * b + (if pl = o1 then 0 else 1)) 0)
        ((cw + 3) / 4) 0 f
        (by
          intro x _ hx f2 hf2
          have hx2 : x < (cw + 3) / 4 := by omega
          obtain ⟨bl, hbl, -, hblg⟩ := load_getD src (w * h + y * w + 8 * x) 8 (by omega)
          have hpl2 : ∀ pl, pl = o1 ∨ pl = o2 →
              ∃ p, f2.planes[pl]? = some p ∧ p.stride = s1 ∧ ch * s1 ≤ p.data.length := by
            intro pl hpl
            obtain ⟨p, hp, -, -, hps, hpl3⟩ := hpl1 pl (Or.inr hpl)
            obtain ⟨q, hq, -, -, hqs, hql⟩ := shape_plane f1 f2 (hf2.trans hf) pl p hp
            exact ⟨q, hq, hqs.trans hps, by omega⟩
          obtain ⟨g, hg, hug⟩ := nv_step_upd src hbytes f2 o1 o2 s1 ch y x
            (w * h + y * w + 8 * x) bl hd12 hpl2 hy2 (by omega)
            (fun i hi => (hblg i hi).1)
          refine ⟨g, ?_, ?_⟩
          · simp only [hbl, Exec.bind_ret]
            exact hg
          · refine hug.congr (fun _ _ _ _ => Iff.rfl) ?_
            rintro pl y2 b - ⟨-, rfl, hb1, hb2⟩
            show src.getD _ 0 = src.getD _ 0
            congr 1
            omega)
      refine ⟨g, hg, hug.congr (fun pl y2 b _ => ?_) (fun _ _ _ _ _ => rfl)⟩
      constructor
      · rintro ⟨h1, h2, h3⟩
        obtain ⟨x, hx⟩ := (words_cover ((cw + 3) / 4) b).2 h3
        exact ⟨x, hx.1, hx.2.1, h1, h2, hx.2.2⟩
      · rintro ⟨x, hx1, hx2, h1, h2, hx3⟩
        exact ⟨h1, h2, (words_cover ((cw + 3) / 4) b).1 ⟨x, hx1, hx2, hx3⟩⟩)
  refine ⟨out, by simpa using hout, ?_⟩
  have hu1b : Upd dst f1 (fun pl y b => pl = 0 ∧ y < h ∧ b < w)
      (fun pl y b =>
        if pl = 0 then src.getD (y * w + b) 0
        else src.getD (w * h + y * w + 2 * b + (if pl = o1 then 0 else 1)) 0) := by
    refine hu1.congr (fun _ _ _ _ => Iff.rfl) ?_
    rintro pl y b - ⟨rfl, -, -⟩
    simp
  have hu2b : Upd f1 out (fun pl y b => (pl = o1 ∨ pl = o2) ∧ y < ch ∧ b < 4 * ((cw + 3) / 4))
      (fun pl y b =>
        if pl = 0 then src.getD (y * w + b) 0
        else src.getD (w * h + y * w + 2 * b + (if pl = o1 then 0 else 1)) 0) := by
    refine hu.congr (fun pl y2 b _ => ?_) ?_
    · constructor
      · rintro ⟨h1, h2, h3⟩
        exact ⟨y2, by omega, by omega, h1, rfl, h3⟩
      · rintro ⟨y, hy1, hy2, h1, rfl, h3⟩
        exact ⟨h1, by omega, h3⟩
    · rintro pl y b - ⟨y3, -, -, hpl, -, -⟩
      have : pl ≠ 0 := by
        rcases hpl with rfl | rfl
        · exact h10
        · exact h20
      simp [this]
  exact hu1b.trans hu2b

/-! ## The planar writer -/

theorem planar_offset_mono (f : VSFrameRef) (bps : Nat) (ord : Nat → Nat) (i n : Nat)
    (h : i ≤ n) : planar_offset f bps ord i ≤ planar_offset f bps ord n := by
  induction n with
  | zero =>
    have : i = 0 := by omega
    subst this; exact le_refl _
  | succ n ih =>
    rcases Nat.eq_or_lt_of_le h with h1 | h1
    · subst h1; exact le_refl _
    · have := ih (by omega)
      simp only [planar_offset]
      omega

/-- What `write_planar_frame` does to a frame whose planes hold their rows, when the
first `numPlanes` entries of `order` name distinct planes. -/
theorem write_planar_frame_upd (rh : rs_hnd_t) (src : List Nat) (dst : VSFrameRef)
    (fmt : VSFormat) (ord : Nat → Nat)
    (hfmt : getFormatPreset rh.vi.format = some fmt)
    (hord : ∀ i, i < fmt.numPlanes → order_at rh i = .ret (ord i))
    (hinj : ∀ i j, i < fmt.numPlanes → j < fmt.numPlanes → ord i = ord j → i = j)
    (hplanes : ∀ i, i < fmt.numPlanes → ∃ p, dst.planes[ord i]? = some p ∧
      p.width * fmt.bytesPerSample ≤ p.stride ∧ p.height * p.stride ≤ p.data.length)
    (hsrc : planar_offset dst fmt.bytesPerSample ord fmt.numPlanes ≤ src.length) :
    ∃ out, write_planar_frame rh src dst = .ret out ∧ out.shape = dst.shape ∧
      (∀ i, i < fmt.numPlanes → ∀ p, dst.planes[ord i]? = some p →
        ∀ y b, y < p.height → b < p.width * fmt.bytesPerSample →
          out.byte (ord i) y b = some (src.getD (planar_offset dst fmt.bytesPerSample ord i
            + y * (p.width * fmt.bytesPerSample) + b) 0)) ∧
      (∀ pl y b, b < dst.stride pl →
        ¬ (∃ i, i < fmt.numPlanes ∧ pl = ord i ∧ ∃ p, dst.planes[pl]? = some p ∧
            y < p.height ∧ b < p.width * fmt.bytesPerSample) →
        out.byte pl y b = dst.byte pl y b) := by
  unfold write_planar_frame
  rw [hfmt]
  dsimp only
  obtain ⟨st, hst, hinv⟩ := for_loop_inv
    (fun i (st : Nat × VSFrameRef) =>
        (order_at rh i).bind fun plane =>
        (getFrameWidth st.2 plane).bind fun w =>
        (getFrameHeight st.2 plane).bind fun height =>
        (rs_bit_blt src st.1 (w * fmt.bytesPerSample) height st.2 plane).bind fun d =>
        .ret (st.1 + w * fmt.bytesPerSample * height, d))
    (fun k (st : Nat × VSFrameRef) =>
      k ≤ fmt.numPlanes ∧
      st.1 = planar_offset dst fmt.bytesPerSample ord k ∧ st.2.shape = dst.shape ∧
      (∀ i, i < k → ∀ p, dst.planes[ord i]? = some p →
        ∀ y b, y < p.height → b < p.width * fmt.bytesPerSample →
          st.2.byte (ord i) y b = some (src.getD (planar_offset dst fmt.bytesPerSample ord i
            + y * (p.width * fmt.bytesPerSample) + b) 0)) ∧
      (∀ pl y b, b < dst.stride pl →
        ¬ (∃ i, i < k ∧ pl = ord i ∧ ∃ p, dst.planes[pl]? = some p ∧
            y < p.height ∧ b < p.width * fmt.bytesPerSample) →
        st.2.byte pl y b = dst.byte pl y b))
    fmt.numPlanes 0 (0, dst)
    ⟨Nat.zero_le _, rfl, rfl, fun i hi => by omega, fun _ _ _ _ _ => rfl⟩
    (by
      rintro k ⟨srcp, f⟩ - hk ⟨-, hsrcp, hshape, hA, hB⟩
      simp only at hsrcp hshape hA hB
      have hk2 : k < fmt.numPlanes := by omega
      obtain ⟨p, hp, hpw, hpl⟩ := hplanes k hk2
      obtain ⟨q, hq, hqw, hqh, hqs, hql⟩ := shape_plane dst f hshape (ord k) p hp
      have hoff : planar_offset dst fmt.bytesPerSample ord (k + 1)
          = srcp + p.width * fmt.bytesPerSample * p.height := by
        simp only [planar_offset, VSFrameRef.plane_size, hp, hsrcp]
      have hmono := planar_offset_mono dst fmt.bytesPerSample ord (k + 1) fmt.numPlanes hk2
      obtain ⟨g, hg, hu⟩ := rs_bit_blt_upd src srcp (p.width * fmt.bytesPerSample) p.height
        f (ord k) q hq (by omega) (by rw [hqs, hql]; exact hpl) (by omega)
      refine ⟨(srcp + p.width * fmt.bytesPerSample * p.height, g), ?_, hk2, hoff.symm,
        hu.1.trans hshape, ?_, ?_⟩
      · simp only [hord k hk2, Exec.bind_ret, getFrameWidth_of_plane f (ord k) q hq,
          getFrameHeight_of_plane f (ord k) q hq, hqw, hqh, hg]
      · intro i hi p2 hp2 y b hy hb
        rcases Nat.eq_or_lt_of_le (Nat.le_of_lt_succ hi) with h1 | h1
        · subst h1
          rw [hp] at hp2
          simp only [Option.some.injEq] at hp2
          subst hp2
          have hbs : b < f.stride (ord i) := by
            rw [stride_of_plane f (ord i) q hq]; omega
          rw [((hu.2 (ord i) y b hbs).1 ⟨rfl, hy, hb⟩), hsrcp]
        · have hne : ord i ≠ ord k := fun h => by
            have := hinj i k (by omega) hk2 h; omega
          obtain ⟨p3, hp3, hp3w, -⟩ := hplanes i (by omega)
          rw [hp2] at hp3
          simp only [Option.some.injEq] at hp3
          subst hp3
          obtain ⟨q3, hq3, -, -, hq3s, -⟩ := shape_plane dst f hshape (ord i) p2 hp2
          have hbs : b < f.stride (ord i) := by
            rw [stride_of_plane f (ord i) q3 hq3]; omega
          rw [(hu.2 (ord i) y b hbs).2 (fun hw => hne hw.1)]
          exact hA i h1 p2 hp2 y b hy hb
      · intro pl y b hb hn
        have hbs : b < f.stride pl := by rw [shape_stride dst f hshape]; exact hb
        rw [(hu.2 pl y b hbs).2 ?_]
        · exact hB pl y b hb (fun ⟨i, hi, h1, h2⟩ => hn ⟨i, by omega, h1, h2⟩)
        · rintro ⟨rfl, hy, hb2⟩
          exact hn ⟨k, by omega, rfl, p, hp, hy, hb2⟩)
  obtain ⟨-, -, hshape, hA, hB⟩ := hinv
  refine ⟨st.2, ?_, hshape, ?_, ?_⟩
  · rw [show (fun i (st : Nat × VSFrameRef) =>
        (order_at rh i).bind fun plane =>
        (getFrameWidth st.2 plane).bind fun w =>
        (getFrameHeight st.2 plane).bind fun height =>
        (rs_bit_blt src st.1 (w * fmt.bytesPerSample) height st.2 plane).bind fun d =>
        Exec.ret (st.1 + w * fmt.bytesPerSample * height, d)) = _ from rfl] at hst
    simp only [hst, Exec.bind_ret]
  · simpa using hA
  · simpa using hB

/-! ## The packed 4:2:2 writer -/

/-- One statement `*(dstp[o]++) = v` of `write_packed_yuv422`, with the three write
offsets `c0`, `c1`, `c2` bytes into row `y` of their planes. -/
theorem yuv422_put_upd (o v y c0 c1 c2 h : Nat) (S : Nat → Nat) (f : VSFrameRef)
    (V : Nat → Nat → Nat → Nat) (ho : o < 3)
    (hP : ∀ i, i < 3 → ∃ p, f.planes[i]? = some p ∧ p.stride = S i ∧ h * S i ≤ p.data.length)
    (hy : y < h) (hcol : [c0, c1, c2].getD o 0 < S o)
    (hV : V o y ([c0, c1, c2].getD o 0) = v) :
    ∃ g, yuv422_put (o : Int) v ([y * S 0 + c0, y * S 1 + c1, y * S 2 + c2], f)
        = .ret ([y * S 0 + (c0 + if o = 0 then 1 else 0),
                 y * S 1 + (c1 + if o = 1 then 1 else 0),
                 y * S 2 + (c2 + if o = 2 then 1 else 0)], g) ∧
      Upd f g (fun pl y2 b => pl = o ∧ y2 = y ∧ b = [c0, c1, c2].getD o 0) V ∧
      ∀ i, i < 3 → ∃ p, g.planes[i]? = some p ∧ p.stride = S i ∧ h * S i ≤ p.data.length := by
  obtain ⟨p, hp, hps, hpl⟩ := hP o ho
  have hrow := row_le y h (S o) hy
  rw [← hps] at hrow hpl hcol
  obtain ⟨g, hg, hu⟩ := VSFrameRef.store_upd f o y ([c0, c1, c2].getD o 0) [v] p V hp
    (by simp only [List.length_cons, List.length_nil]; omega)
    (by simp only [List.length_cons, List.length_nil]; omega)
    (by
      intro j hj
      simp only [List.length_cons, List.length_nil] at hj
      have : j = 0 := by omega
      subst this
      rw [Nat.add_zero, hV]
      rfl)
  rw [hps] at hg
  refine ⟨g, ?_, ?_, ?_⟩
  · unfold yuv422_put
    have h0 : ¬ ((o : Int) < 0) := by omega
    rw [if_neg h0]
    simp only [Int.toNat_ofNat]
    interval_cases o
    · simp only [List.getD_cons_zero] at hg
      simp [← Nat.add_assoc, hg, Exec.bind]
    · simp only [List.getD_cons_succ, List.getD_cons_zero] at hg
      simp [← Nat.add_assoc, hg, Exec.bind]
    · simp only [List.getD_cons_succ, List.getD_cons_zero] at hg
      simp [← Nat.add_assoc, hg, Exec.bind]
  · refine hu.congr (fun pl y2 b _ => ?_) (fun _ _ _ _ _ => rfl)
    simp only [List.length_cons, List.length_nil]
    constructor
    · rintro ⟨h1, h2, h3⟩; exact ⟨h1, h2, by omega, by omega⟩
    · rintro ⟨h1, h2, h3, h4⟩; exact ⟨h1, h2, by omega⟩
  · intro i hi
    obtain ⟨p2, hp2, hps2, hpl2⟩ := hP i hi
    obtain ⟨q, hq, -, -, hqs, hql⟩ := shape_plane f g hu.1 i p2 hp2
    exact ⟨q, hq, hqs.trans hps2, by omega⟩

/-- Four statements `*(dstp[o]++) = v` in a row, from write offsets `2x`, `x`, `x`
into row `y`. -/
theorem yuv422_puts_upd (src : List Nat) (f : VSFrameRef) (n0 n1 n2 n3 h y x base : Nat)
    (S : Nat → Nat) (v0 v1 v2 v3 : Nat)
    (hP : ∀ i, i < 3 → ∃ p, f.planes[i]? = some p ∧ p.stride = S i ∧ h * S i ≤ p.data.length)
    (hy : y < h)
    (hn0 : n0 < 3) (hn1 : n1 < 3) (hn2 : n2 < 3) (hn3 : n3 < 3)
    (c0 : [2 * x, x, x].getD n0 0 < S n0)
    (e0 : yuv422_value src n0 n1 n2 base n0 ([2 * x, x, x].getD n0 0) = v0)
    (c1 : [2 * x + (if n0 = 0 then 1 else 0), x + (if n0 = 1 then 1 else 0),
        x + (if n0 = 2 then 1 else 0)].getD n1 0 < S n1)
    (e1 : yuv422_value src n0 n1 n2 base n1
        ([2 * x + (if n0 = 0 then 1 else 0), x + (if n0 = 1 then 1 else 0),
        x + (if n0 = 2 then 1 else 0)].getD n1 0) = v1)
    (c2 : [2 * x + (if n0 = 0 then 1 else 0) + (if n1 = 0 then 1 else 0),
        x + (if n0 = 1 then 1 else 0) + (if n1 = 1 then 1 else 0),
        x + (if n0 = 2 then 1 else 0) + (if n1 = 2 then 1 else 0)].getD n2 0 < S n2)
    (e2 : yuv422_value src n0 n1 n2 base n2
        ([2 * x + (if n0 = 0 then 1 else 0) + (if n1 = 0 then 1 else 0),
        x + (if n0 = 1 then 1 else 0) + (if n1 = 1 then 1 else 0),
        x + (if n0 = 2 then 1 else 0) + (if n1 = 2 then 1 else 0)].getD n2 0) = v2)
    (c3 : [2 * x + (if n0 = 0 then 1 else 0) + (if n1 = 0 then 1 else 0)
          + (if n2 = 0 then 1 else 0),
        x + (if n0 = 1 then 1 else 0) + (if n1 = 1 then 1 else 0) + (if n2 = 1 then 1 else 0),
        x + (if n0 = 2 then 1 else 0) + (if n1 = 2 then 1 else 0)
          + (if n2 = 2 then 1 else 0)].getD n3 0 < S n3)
    (e3 : yuv422_value src n0 n1 n2 base n3
        ([2 * x + (if n0 = 0 then 1 else 0) + (if n1 = 0 then 1 else 0)
          + (if n2 = 0 then 1 else 0),
        x + (if n0 = 1 then 1 else 0) + (if n1 = 1 then 1 else 0) + (if n2 = 1 then 1 else 0),
        x + (if n0 = 2 then 1 else 0) + (if n1 = 2 then 1 else 0)
          + (if n2 = 2 then 1 else 0)].getD n3 0) = v3) :
    ∃ g,
      ((yuv422_put (n0 : Int) v0 ([y * S 0 + 2 * x, y * S 1 + x, y * S 2 + x], f)).bind
        fun q =>
        (yuv422_put (n1 : Int) v1 q).bind fun q =>
        (yuv422_put (n2 : Int) v2 q).bind fun q =>
        yuv422_put (n3 : Int) v3 q)
        = .ret ([y * S 0 + (2 * x + (if n0 = 0 then 1 else 0) + (if n1 = 0 then 1 else 0)
            + (if n2 = 0 then 1 else 0) + (if n3 = 0 then 1 else 0)),
          y * S 1 + (x + (if n0 = 1 then 1 else 0) + (if n1 = 1 then 1 else 0)
            + (if n2 = 1 then 1 else 0) + (if n3 = 1 then 1 else 0)),
          y * S 2 + (x + (if n0 = 2 then 1 else 0) + (if n1 = 2 then 1 else 0)
            + (if n2 = 2 then 1 else 0) + (if n3 = 2 then 1 else 0))], g) ∧
      Upd f g
        (fun pl y2 b =>
          (((pl = n0 ∧ y2 = y ∧ b = [2 * x, x, x].getD n0 0) ∨
            (pl = n1 ∧ y2 = y ∧ b = [2 * x + (if n0 = 0 then 1 else 0),
              x + (if n0 = 1 then 1 else 0), x + (if n0 = 2 then 1 else 0)].getD n1 0)) ∨
            (pl = n2 ∧ y2 = y ∧ b = [2 * x + (if n0 = 0 then 1 else 0)
                + (if n1 = 0 then 1 else 0),
              x + (if n0 = 1 then 1 else 0) + (if n1 = 1 then 1 else 0),
              x + (if n0 = 2 then 1 else 0) + (if n1 = 2 then 1 else 0)].getD n2 0)) ∨
            (pl = n3 ∧ y2 = y ∧ b = [2 * x + (if n0 = 0 then 1 else 0)
                + (if n1 = 0 then 1 else 0) + (if n2 = 0 then 1 else 0),
              x + (if n0 = 1 then 1 else 0) + (if n1 = 1 then 1 else 0)
                + (if n2 = 1 then 1 else 0),
              x + (if n0 = 2 then 1 else 0) + (if n1 = 2 then 1 else 0)
                + (if n2 = 2 then 1 else 0)].getD n3 0))
        (fun pl _ b => yuv422_value src n0 n1 n2 base pl b) := by
  obtain ⟨g1, h1, u1, P1⟩ := yuv422_put_upd n0 v0 y (2 * x) x x h S f
    (fun pl _ b => yuv422_value src n0 n1 n2 base pl b) hn0 hP hy c0 e0
  obtain ⟨g2, h2, u2, P2⟩ := yuv422_put_upd n1 v1 y _ _ _ h S g1
    (fun pl _ b => yuv422_value src n0 n1 n2 base pl b) hn1 P1 hy c1 e1
  obtain ⟨g3, h3, u3, P3⟩ := yuv422_put_upd n2 v2 y _ _ _ h S g2
    (fun pl _ b => yuv422_value src n0 n1 n2 base pl b) hn2 P2 hy c2 e2
  obtain ⟨g4, h4, u4, P4⟩ := yuv422_put_upd n3 v3 y _ _ _ h S g3
    (fun pl _ b => yuv422_value src n0 n1 n2 base pl b) hn3 P3 hy c3 e3
  refine ⟨g4, ?_, ((u1.trans u2).trans u3).trans u4⟩
  simp only [h1, h2, h3, h4, Exec.bind_ret]

/-- One macropixel of `write_packed_yuv422`, for the plane orders that send byte
slots 0 and 2, or 1 and 3, to plane 0 and the other two slots to planes 1 and 2. -/
theorem yuv422_step_upd (src : List Nat) (f : VSFrameRef) (n0 n1 n2 n3 h y x base : Nat)
    (S : Nat → Nat) (bl : List Nat)
    (hpat : (n0 = 0 ∧ n2 = 0 ∧ ((n1 = 1 ∧ n3 = 2) ∨ (n1 = 2 ∧ n3 = 1))) ∨
      (n1 = 0 ∧ n3 = 0 ∧ ((n0 = 1 ∧ n2 = 2) ∨ (n0 = 2 ∧ n2 = 1))))
    (hP : ∀ i, i < 3 → ∃ p, f.planes[i]? = some p ∧ p.stride = S i ∧ h * S i ≤ p.data.length)
    (hy : y < h) (h0 : 2 * x + 2 ≤ S 0) (h1 : x + 1 ≤ S 1) (h2 : x + 1 ≤ S 2)
    (hbl : ∀ i, i < 4 → bl.getD i 0 = src.getD (base + 4 * x + i) 0) :
    ∃ g,
      ((yuv422_put (n0 : Int) (bl.getD 0 0) ([y * S 0 + 2 * x, y * S 1 + x, y * S 2 + x], f)).bind
        fun q =>
        (yuv422_put (n1 : Int) (bl.getD 1 0) q).bind fun q =>
        (yuv422_put (n2 : Int) (bl.getD 2 0) q).bind fun q =>
        yuv422_put (n3 : Int) (bl.getD 3 0) q)
        = .ret ([y * S 0 + 2 * (x + 1), y * S 1 + (x + 1), y * S 2 + (x + 1)], g) ∧
      Upd f g
        (fun pl y2 b => y2 = y ∧
          ((pl = 0 ∧ 2 * x ≤ b ∧ b < 2 * x + 2) ∨ (pl = 1 ∧ b = x) ∨ (pl = 2 ∧ b = x)))
        (fun pl _ b => yuv422_value src n0 n1 n2 base pl b) := by
  have b0 := hbl 0 (by omega)
  have b1 := hbl 1 (by omega)
  have b2 := hbl 2 (by omega)
  have b3 := hbl 3 (by omega)
  rcases hpat with ⟨rfl, rfl, (⟨rfl, rfl⟩ | ⟨rfl, rfl⟩)⟩ | ⟨rfl, rfl, (⟨rfl, rfl⟩ | ⟨rfl, rfl⟩)⟩
  · obtain ⟨g, hg, hu⟩ := yuv422_puts_upd src f 0 1 0 2 h y x base S
      (bl.getD 0 0) (bl.getD 1 0) (bl.getD 2 0) (bl.getD 3 0) hP hy
      (by omega) (by omega) (by omega) (by omega)
      (by simp; omega)
      (by rw [b0]; simp [yuv422_value, -List.getD_eq_getElem?_getD]; congr 1; omega)
      (by simp; omega)
      (by rw [b1]; simp [yuv422_value, -List.getD_eq_getElem?_getD])
      (by simp; omega)
      (by rw [b2]; simp [yuv422_value, -List.getD_eq_getElem?_getD]; congr 1; omega)
      (by simp; omega)
      (by rw [b3]; simp [yuv422_value, -List.getD_eq_getElem?_getD])
    refine ⟨g, ?_, ?_⟩
    · rw [hg]
      simp
      omega
    · refine hu.congr (fun pl y2 b _ => ?_) (fun _ _ _ _ _ => rfl)
      simp
      omega
  · obtain ⟨g, hg, hu⟩ := yuv422_puts_upd src f 0 2 0 1 h y x base S
      (bl.getD 0 0) (bl.getD 1 0) (bl.getD 2 0) (bl.getD 3 0) hP hy
      (by omega) (by omega) (by omega) (by omega)
      (by simp; omega)
      (by rw [b0]; simp [yuv422_value, -List.getD_eq_getElem?_getD]; congr 1; omega)
      (by simp; omega)
      (by rw [b1]; simp [yuv422_value, -List.getD_eq_getElem?_getD])
      (by simp; omega)
      (by rw [b2]; simp [yuv422_value, -List.getD_eq_getElem?_getD]; congr 1; omega)
      (by simp; omega)
      (by rw [b3]; simp [yuv422_value, -List.getD_eq_getElem?_getD])
    refine ⟨g, ?_, ?_⟩
    · rw [hg]
      simp
      omega
    · refine hu.congr (fun pl y2 b _ => ?_) (fun _ _ _ _ _ => rfl)
      simp
      omega
  · obtain ⟨g, hg, hu⟩ := yuv422_puts_upd src f 1 0 2 0 h y x base S
      (bl.getD 0 0) (bl.getD 1 0) (bl.getD 2 0) (bl.getD 3 0) hP hy
      (by omega) (by omega) (by omega) (by omega)
      (by simp; omega)
      (by rw [b0]; simp [yuv422_value, -List.getD_eq_getElem?_getD])
      (by simp; omega)
      (by rw [b1]; simp [yuv422_value, -List.getD_eq_getElem?_getD]; congr 1; omega)
      (by simp; omega)
      (by rw [b2]; simp [yuv422_value, -List.getD_eq_getElem?_getD])
      (by simp; omega)
      (by rw [b3]; simp [yuv422_value, -List.getD_eq_getElem?_getD]; congr 1; omega)
    refine ⟨g, ?_, ?_⟩
    · rw [hg]
      simp
      omega
    · refine hu.congr (fun pl y2 b _ => ?_) (fun _ _ _ _ _ => rfl)
      simp
      omega
  · obtain ⟨g, hg, hu⟩ := yuv422_puts_upd src f 2 0 1 0 h y x base S
      (bl.getD 0 0) (bl.getD 1 0) (bl.getD 2 0) (bl.getD 3 0) hP hy
      (by omega) (by omega) (by omega) (by omega)
      (by simp; omega)
      (by rw [b0]; simp [yuv422_value, -List.getD_eq_getElem?_getD])
      (by simp; omega)
      (by rw [b1]; simp [yuv422_value, -List.getD_eq_getElem?_getD]; congr 1; omega)
      (by simp; omega)
      (by rw [b2]; simp [yuv422_value, -List.getD_eq_getElem?_getD])
      (by simp; omega)
      (by rw [b3]; simp [yuv422_value, -List.getD_eq_getElem?_getD]; congr 1; omega)
    refine ⟨g, ?_, ?_⟩
    · rw [hg]
      simp
      omega
    · refine hu.congr (fun pl y2 b _ => ?_) (fun _ _ _ _ _ => rfl)
      simp
      omega

/-- What `write_packed_yuv422` does to a frame whose plane 0 is `2 * w2` bytes wide
and whose planes 1 and 2 are `w2` bytes wide. -/
theorem write_packed_yuv422_upd (rh : rs_hnd_t) (src : List Nat) (dst : VSFrameRef)
    (w2 h n0 n1 n2 n3 : Nat) (S : Nat → Nat)
    (hw : (rh.vi.width / 2).toNat = w2) (hh : rh.vi.height = (h : Int))
    (ho0 : rh.order.getD 0 0 = (n0 : Int)) (ho1 : rh.order.getD 1 0 = (n1 : Int))
    (ho2 : rh.order.getD 2 0 = (n2 : Int)) (ho3 : rh.order.getD 3 0 = (n3 : Int))
    (hpat : (n0 = 0 ∧ n2 = 0 ∧ ((n1 = 1 ∧ n3 = 2) ∨ (n1 = 2 ∧ n3 = 1))) ∨
      (n1 = 0 ∧ n3 = 0 ∧ ((n0 = 1 ∧ n2 = 2) ∨ (n0 = 2 ∧ n2 = 1))))
    (hP : ∀ i, i < 3 → ∃ p, dst.planes[i]? = some p ∧ p.stride = S i ∧
      h * S i ≤ p.data.length ∧ p.width = (if i = 0 then 2 * w2 else w2) ∧ p.width ≤ p.stride)
    (hsrc : h * (4 * w2) ≤ src.length) :
    ∃ out, write_packed_yuv422 rh src dst = .ret out ∧
      Upd dst out
        (fun pl y b => y < h ∧ ((pl = 0 ∧ b < 2 * w2) ∨ (pl = 1 ∧ b < w2) ∨ (pl = 2 ∧ b < w2)))
        (fun pl y b => yuv422_value src n0 n1 n2 (y * (4 * w2)) pl b) := by
  obtain ⟨p0, hp0, hs0, -, hw0, hws0⟩ := hP 0 (by omega)
  obtain ⟨p1, hp1, hs1, -, hw1, hws1⟩ := hP 1 (by omega)
  obtain ⟨p2, hp2, hs2, -, hw2, hws2⟩ := hP 2 (by omega)
  simp only [if_true] at hw0
  simp only [Nat.one_ne_zero, if_false] at hw1
  simp only [show (2 : Nat) ≠ 0 by omega, if_false] at hw2
  unfold write_packed_yuv422
  simp only [hw, hh, Int.toNat_ofNat, ho0, ho1, ho2, ho3, Exec.bind_ret,
    getWritePtr_of_plane dst 0 p0 hp0, getWritePtr_of_plane dst 1 p1 hp1,
    getWritePtr_of_plane dst 2 p2 hp2, getStride_of_plane dst 0 p0 hp0,
    getStride_of_plane dst 1 p1 hp1, getStride_of_plane dst 2 p2 hp2,
    getFrameWidth_of_plane dst 0 p0 hp0, getFrameWidth_of_plane dst 1 p1 hp1,
    getFrameWidth_of_plane dst 2 p2 hp2, hs0, hs1, hs2, hw0, hw1, hw2]
  obtain ⟨out, hout, hu⟩ := for_loop_upd
    (fun _ (st : Nat × List Nat × VSFrameRef) =>
      (for_loop (fun x (q : List Nat × VSFrameRef) =>
          (load src (st.1 + 4 * x) 4).bind fun c =>
          (yuv422_put (n0 : Int) (c.getD 0 0) q).bind fun q =>
          (yuv422_put (n1 : Int) (c.getD 1 0) q).bind fun q =>
          (yuv422_put (n2 : Int) (c.getD 2 0) q).bind fun q =>
          yuv422_put (n3 : Int) (c.getD 3 0) q)
        w2 0 (st.2.1, st.2.2)).bind fun q =>
      .ret (st.1 + 4 * w2,
        [q.1.getD 0 0 + S 0 - 2 * w2, q.1.getD 1 0 + S 1 - w2, q.1.getD 2 0 + S 2 - w2], q.2))
    (fun y f => (y * (4 * w2), [y * S 0, y * S 1, y * S 2], f))
    (fun y pl y2 b => y2 = y ∧ ((pl = 0 ∧ b < 2 * w2) ∨ (pl = 1 ∧ b < w2) ∨ (pl = 2 ∧ b < w2)))
    (fun pl y b => yuv422_value src n0 n1 n2 (y * (4 * w2)) pl b) h 0 dst
    (by
      intro y _ hy f hf
      have hy2 : y < h := by omega
      have hrow := row_le y h (4 * w2) hy2
      obtain ⟨g, hg, hug⟩ := for_loop_upd
        (fun x (q : List Nat × VSFrameRef) =>
          (load src (y * (4 * w2) + 4 * x) 4).bind fun c =>
          (yuv422_put (n0 : Int) (c.getD 0 0) q).bind fun q =>
          (yuv422_put (n1 : Int) (c.getD 1 0) q).bind fun q =>
          (yuv422_put (n2 : Int) (c.getD 2 0) q).bind fun q =>
          yuv422_put (n3 : Int) (c.getD 3 0) q)
        (fun x f => ([y * S 0 + 2 * x, y * S 1 + x, y * S 2 + x], f))
        (fun x pl y2 b => y2 = y ∧
          ((pl = 0 ∧ 2 * x ≤ b ∧ b < 2 * x + 2) ∨ (pl = 1 ∧ b = x) ∨ (pl = 2 ∧ b = x)))
        (fun pl _ b => yuv422_value src n0 n1 n2 (y * (4 * w2)) pl b) w2 0 f
        (by
          intro x _ hx f2 hf2
          have hx2 : x < w2 := by omega
          obtain ⟨bl, hbl, -, hblg⟩ := load_getD src (y * (4 * w2) + 4 * x) 4 (by omega)
          have hP2 : ∀ i, i < 3 →
              ∃ p, f2.planes[i]? = some p ∧ p.stride = S i ∧ h * S i ≤ p.data.length := by
            intro i hi
            obtain ⟨p, hp, hps, hpl, -, -⟩ := hP i hi
            obtain ⟨q, hq, -, -, hqs, hql⟩ := shape_plane dst f2 (hf2.trans hf) i p hp
            exact ⟨q, hq, hqs.trans hps, by omega⟩
          obtain ⟨g, hg, hug⟩ := yuv422_step_upd src f2 n0 n1 n2 n3 h y x (y * (4 * w2)) S bl
            hpat hP2 hy2 (by omega) (by omega) (by omega) (fun i hi => (hblg i hi).1)
          exact ⟨g, by simp only [hbl, Exec.bind_ret]; exact hg, hug⟩)
      refine ⟨g, ?_, ?_⟩
      · simp only [Nat.mul_zero, Nat.add_zero] at hg
        simp only [hg, Exec.bind_ret, List.getD_cons_zero, List.getD_cons_succ,
          Exec.ret.injEq, Prod.mk.injEq, List.cons.injEq, and_true]
        refine ⟨(Nat.succ_mul y (4 * w2)).symm, ?_, ?_, ?_⟩
        · rw [Nat.succ_mul y (S 0)]; omega
        · rw [Nat.succ_mul y (S 1)]; omega
        · rw [Nat.succ_mul y (S 2)]; omega
      · refine hug.congr (fun pl y2 b _ => ?_)
          (fun pl y2 b _ hw => by obtain ⟨x, -, -, rfl, -⟩ := hw; rfl)
        constructor
        · rintro ⟨rfl, hb⟩
          rcases hb with ⟨rfl, hb⟩ | ⟨rfl, hb⟩ | ⟨rfl, hb⟩
          · exact ⟨b / 2, by omega, by omega, rfl, Or.inl ⟨rfl, by omega, by omega⟩⟩
          · exact ⟨b, by omega, by omega, rfl, Or.inr (Or.inl ⟨rfl, rfl⟩)⟩
          · exact ⟨b, by omega, by omega, rfl, Or.inr (Or.inr ⟨rfl, rfl⟩)⟩
        · rintro ⟨x, -, hx, rfl, hb⟩
          refine ⟨rfl, ?_⟩
          omega)
  refine ⟨out, ?_, ?_⟩
  · simp only [Nat.zero_mul, Nat.zero_add] at hout
    simp only [hout, Exec.bind_ret]
  · refine hu.congr (fun pl y2 b _ => ?_) (fun _ _ _ _ _ => rfl)
    constructor
    · rintro ⟨h1, h2⟩
      exact ⟨y2, by omega, by omega, rfl, h2⟩
    · rintro ⟨y, hy1, hy2, rfl, h3⟩
      exact ⟨by omega, h3⟩

/-! ## Packed RGB (C14) -/

theorem format_table_rgb_order : ∀ e ∈ format_table,
    (e.func = .write_packed_rgb24 ∨ e.func = .write_packed_rgb32) →
    (e.func = .write_packed_rgb24 → rgb_alpha e.order = 0) ∧
    e.order.length = 4 ∧
    (0 ≤ e.order.getD (rgb_alpha e.order) 0 ∧ 0 ≤ e.order.getD (rgb_alpha e.order + 1) 0 ∧
      0 ≤ e.order.getD (rgb_alpha e.order + 2) 0) ∧
    (rgb_plane e.order 0 < 3 ∧ rgb_plane e.order 1 < 3 ∧ rgb_plane e.order 2 < 3) ∧
    rgb_plane e.order 0 ≠ rgb_plane e.order 1 ∧ rgb_plane e.order 0 ≠ rgb_plane e.order 2 ∧
    rgb_plane e.order 1 ≠ rgb_plane e.order 2 := by
  decide

theorem rgb_alpha_le (order : List Int) : rgb_alpha order ≤ 1 := by
  unfold rgb_alpha
  split <;> omega

theorem order_at_getD (rh : rs_hnd_t) (i : Nat) (hi : i < rh.order.length)
    (h0 : 0 ≤ rh.order.getD i 0) : order_at rh i = .ret (rh.order.getD i 0).toNat := by
  have hg : rh.order[i]? = some (rh.order.getD i 0) := by
    rw [List.getD_eq_getElem?_getD, List.getElem?_eq_getElem hi]
    rfl
  unfold order_at
  rw [hg]
  simp only [h0, if_true]

theorem plane_of_mem (dst : VSFrameRef) (pl : Nat) (h : pl < dst.planes.length) :
    ∃ q, dst.planes[pl]? = some q ∧ q ∈ dst.planes :=
  ⟨dst.planes[pl], List.getElem?_eq_getElem h, List.getElem_mem h⟩

theorem getD_append_left (p slack : List Nat) (i : Nat) (h : i < p.length) :
    p[i]? = some ((p ++ slack).getD i 0) := by
  rw [List.getD_eq_getElem?_getD, List.getElem?_append_left h, List.getElem?_eq_getElem h]
  rfl

/-- C14.  For every row of the format table bound to `write_packed_rgb24` (`B = 3`)
or `write_packed_rgb32` (`B = 4`), every width `w`, height `h` and payload `p` of
`h * w * B` bytes in a scratch buffer with 32 more bytes, and every destination
frame of three planes with a common stride of at least `4 * ceil(w / 4)` bytes that
hold `h` rows: the writer returns, the frame keeps its geometry, and for every
channel `c < 3` and pixel `(x, y)` byte `x` of row `y` of plane `rgb_plane order c`
is the payload byte `y * B * w + B * x + a + c`, where `a = rgb_alpha order` is 1
when the first slot of the order is 9 and the planes are then the slots 1 to 3.
The words are stored as on a little-endian host. -/
theorem write_packed_rgb_round_trip (e : FormatEntry) (rh : rs_hnd_t) (p slack : List Nat)
    (dst : VSFrameRef) (w h s B : Nat)
    (he : e ∈ format_table)
    (hB : (e.func = .write_packed_rgb24 ∧ B = 3) ∨ (e.func = .write_packed_rgb32 ∧ B = 4))
    (hfunc : rh.write_frame = e.func) (horder : rh.order = e.order)
    (hw : rh.vi.width = (w : Int)) (hh : rh.vi.height = (h : Int))
    (hp : p.length = h * (w * B)) (hslack : 32 ≤ slack.length)
    (hbytes : ∀ v ∈ p ++ slack, v < 256)
    (hplanes : dst.planes.length = 3)
    (hdst : ∀ q ∈ dst.planes, q.stride = s ∧ h * s ≤ q.data.length)
    (hs : 4 * ((w + 3) / 4) ≤ s) :
    ∃ out, write_frame rh (p ++ slack) dst = .ret out ∧ out.shape = dst.shape ∧
      ∀ c y x, c < 3 → y < h → x < w →
        ∃ v, p[y * (B * w) + B * x + rgb_alpha e.order + c]? = some v ∧
          out.byte (rgb_plane e.order c) y x = some v := by
  obtain ⟨ha24, hlen, ⟨hn0, hn1, hn2⟩, ⟨hl0, hl1, hl2⟩, hd01, hd02, hd12⟩ :=
    format_table_rgb_order e he (by rcases hB with ⟨h1, -⟩ | ⟨h1, -⟩ <;> simp [h1])
  have ha := rgb_alpha_le e.order
  have hpl : ∀ pl, pl = 0 ∨ pl = rgb_plane e.order 0 ∨ pl = rgb_plane e.order 1 ∨
      pl = rgb_plane e.order 2 →
      ∃ q, dst.planes[pl]? = some q ∧ q.stride = s ∧ h * s ≤ q.data.length := by
    intro pl hpl
    have : pl < dst.planes.length := by
      rw [hplanes]; rcases hpl with rfl | rfl | rfl | rfl <;> omega
    obtain ⟨q, hq, hqm⟩ := plane_of_mem dst pl this
    exact ⟨q, hq, hdst q hqm⟩
  have ho0 : order_at rh (rgb_alpha e.order) = .ret (rgb_plane e.order 0) := by
    have := order_at_getD rh (rgb_alpha e.order) (by rw [horder]; omega) (by rw [horder]; exact hn0)
    rw [horder] at this
    exact this
  have ho1 : order_at rh (rgb_alpha e.order + 1) = .ret (rgb_plane e.order 1) := by
    have := order_at_getD rh (rgb_alpha e.order + 1) (by rw [horder]; omega)
      (by rw [horder]; exact hn1)
    rw [horder] at this
    exact this
  have ho2 : order_at rh (rgb_alpha e.order + 2) = .ret (rgb_plane e.order 2) := by
    have := order_at_getD rh (rgb_alpha e.order + 2) (by rw [horder]; omega)
      (by rw [horder]; exact hn2)
    rw [horder] at this
    exact this
  have hchan : ∀ c, c < 3 →
      (if rgb_plane e.order c = rgb_plane e.order 0 then 0
        else if rgb_plane e.order c = rgb_plane e.order 1 then 1 else 2) = c := by
    intro c hc
    interval_cases c
    · rw [if_pos rfl]
    · rw [if_neg hd01.symm, if_pos rfl]
    · rw [if_neg hd02.symm, if_neg hd12.symm]
  have hstride : ∀ c, c < 3 → dst.stride (rgb_plane e.order c) = s := by
    intro c hc
    obtain ⟨q, hq, hqs, -⟩ := hpl (rgb_plane e.order c) (by
      interval_cases c
      · exact Or.inr (Or.inl rfl)
      · exact Or.inr (Or.inr (Or.inl rfl))
      · exact Or.inr (Or.inr (Or.inr rfl)))
    rw [stride_of_plane dst _ q hq, hqs]
  have hW : ∀ c, c < 3 → rgb_plane e.order c = rgb_plane e.order 0 ∨
      rgb_plane e.order c = rgb_plane e.order 1 ∨ rgb_plane e.order c = rgb_plane e.order 2 := by
    intro c hc
    interval_cases c
    · exact Or.inl rfl
    · exact Or.inr (Or.inl rfl)
    · exact Or.inr (Or.inr rfl)
  rcases hB with ⟨hf, rfl⟩ | ⟨hf, rfl⟩
  · have ha0 := ha24 hf
    rw [ha0] at ho0 ho1 ho2
    obtain ⟨out, hout, hu⟩ := write_packed_rgb24_upd rh (p ++ slack) dst w h s
      (rgb_plane e.order 0) (rgb_plane e.order 1) (rgb_plane e.order 2) hbytes hw hh
      ho0 ho1 ho2 hd01 hd02 hd12 hpl hs
      (by rw [List.length_append, hp]; omega)
    refine ⟨out, by unfold write_frame; rw [hfunc, hf]; exact hout, hu.1, ?_⟩
    intro c y x hc hy hx
    have hrow := row_le y h (w * 3) hy
    have hidx : y * (3 * w) + 3 * x + rgb_alpha e.order + c < p.length := by
      rw [hp, ha0, Nat.mul_comm 3 w]; omega
    refine ⟨_, getD_append_left p slack _ hidx, ?_⟩
    have hv := (hu.2 (rgb_plane e.order c) y x (by rw [hstride c hc]; omega)).1
      ⟨hW c hc, hy, by omega⟩
    simp only [hchan c hc] at hv
    rw [hv, ha0, Nat.mul_comm 3 w, Nat.add_zero]
  · obtain ⟨out, hout, hu⟩ := write_packed_rgb32_upd rh (p ++ slack) dst w h s
      (rgb_alpha e.order)
      (rgb_plane e.order 0) (rgb_plane e.order 1) (rgb_plane e.order 2) hbytes hw hh
      (by rw [horder]; rfl)
      ho0 ho1 ho2 hd01 hd02 hd12 hpl hs
      (by rw [List.length_append, hp]; omega)
    refine ⟨out, by unfold write_frame; rw [hfunc, hf]; exact hout, hu.1, ?_⟩
    intro c y x hc hy hx
    have hrow := row_le y h (w * 4) hy
    have hidx : y * (4 * w) + 4 * x + rgb_alpha e.order + c < p.length := by
      rw [hp, Nat.mul_comm 4 w]; omega
    refine ⟨_, getD_append_left p slack _ hidx, ?_⟩
    have hv := (hu.2 (rgb_plane e.order c) y x (by rw [hstride c hc]; omega)).1
      ⟨hW c hc, hy, by omega⟩
    simp only [hchan c hc] at hv
    rw [hv, Nat.mul_comm 4 w]

/-! ## Planar formats: rows copied from a buffer that holds the source planes -/

theorem format_table_planar_order : ∀ e ∈ format_table, e.func = .write_planar_frame →
    (getFormatPreset e.vsformat).isSome = true ∧ e.order.length = 4 ∧
    ((getFormatPreset e.vsformat).getD ⟨0, 0, 0, 0⟩).numPlanes ≤ 3 ∧
    (∀ i, i < ((getFormatPreset e.vsformat).getD ⟨0, 0, 0, 0⟩).numPlanes →
      0 ≤ e.order.getD i 0 ∧
      order_plane e.order i < ((getFormatPreset e.vsformat).getD ⟨0, 0, 0, 0⟩).numPlanes) ∧
    (∀ i, i < ((getFormatPreset e.vsformat).getD ⟨0, 0, 0, 0⟩).numPlanes →
      ∀ j, j < ((getFormatPreset e.vsformat).getD ⟨0, 0, 0, 0⟩).numPlanes →
        order_plane e.order i = order_plane e.order j → i = j) := by
  decide

/-- What `write_planar_frame` does when the buffer holds the source planes.  For
every row of the format table bound to `write_planar_frame`, with
`fmt` the format of its preset, every destination frame with one plane per plane of
`fmt` whose strides are at least a row (`width * bytesPerSample` bytes) and whose
planes hold their rows, and every buffer that holds the source planes: the writer
returns, the frame keeps its geometry, byte `b` of row `y` of plane `order[i]` is
byte `y * row_size + b` of the `i`-th source plane, the source planes following one
another in the buffer, and every byte of the frame outside these rows (the padding
between the end of a row and the stride) is left as it was.  The statement does not
depend on whether the stride equals the row size. -/
theorem write_planar_frame_copies (e : FormatEntry) (rh : rs_hnd_t) (src : List Nat)
    (dst : VSFrameRef) (fmt : VSFormat)
    (he : e ∈ format_table) (hf : e.func = .write_planar_frame)
    (hfunc : rh.write_frame = e.func) (horder : rh.order = e.order)
    (hformat : rh.vi.format = e.vsformat)
    (hfmt : getFormatPreset e.vsformat = some fmt)
    (hplanes : dst.planes.length = fmt.numPlanes)
    (hdst : ∀ q ∈ dst.planes,
      q.width * fmt.bytesPerSample ≤ q.stride ∧ q.height * q.stride ≤ q.data.length)
    (hsrc : planar_offset dst fmt.bytesPerSample (order_plane e.order) fmt.numPlanes
      ≤ src.length) :
    ∃ out, write_frame rh src dst = .ret out ∧ out.shape = dst.shape ∧
      (∀ i q, i < fmt.numPlanes → dst.planes[order_plane e.order i]? = some q →
        ∀ y b, y < q.height → b < q.width * fmt.bytesPerSample →
          ∃ v, src[planar_offset dst fmt.bytesPerSample (order_plane e.order) i
              + y * (q.width * fmt.bytesPerSample) + b]? = some v ∧
            out.byte (order_plane e.order i) y b = some v) ∧
      (∀ pl q, dst.planes[pl]? = some q → ∀ y b, b < q.stride →
        q.height ≤ y ∨ q.width * fmt.bytesPerSample ≤ b →
        out.byte pl y b = dst.byte pl y b) := by
  have ht := format_table_planar_order e he hf
  rw [hfmt] at ht
  simp only [Option.getD_some] at ht
  obtain ⟨-, hlen, hn3, hord, hinj⟩ := ht
  obtain ⟨out, hout, hshape, hA, hB⟩ := write_planar_frame_upd rh src dst fmt
    (order_plane e.order) (by rw [hformat]; exact hfmt)
    (fun i hi => by
      have := order_at_getD rh i (by rw [horder]; omega) (by rw [horder]; exact (hord i hi).1)
      rw [horder] at this
      exact this)
    (fun i j hi hj h => hinj i hi j hj h)
    (fun i hi => by
      obtain ⟨q, hq, hqm⟩ := plane_of_mem dst (order_plane e.order i)
        (by rw [hplanes]; exact (hord i hi).2)
      exact ⟨q, hq, hdst q hqm⟩)
    hsrc
  refine ⟨out, by unfold write_frame; rw [hfunc, hf]; exact hout, hshape, ?_, ?_⟩
  · intro i q hi hq y b hy hb
    have hv := hA i hi q hq y b hy hb
    have hmono := planar_offset_mono dst fmt.bytesPerSample (order_plane e.order) (i + 1)
      fmt.numPlanes hi
    have hrow := row_le y q.height (q.width * fmt.bytesPerSample) hy
    have hidx : planar_offset dst fmt.bytesPerSample (order_plane e.order) i
        + y * (q.width * fmt.bytesPerSample) + b < src.length := by
      simp only [planar_offset, VSFrameRef.plane_size, hq] at hmono
      rw [Nat.mul_comm q.height] at hrow
      omega
    refine ⟨_, ?_, hv⟩
    rw [List.getD_eq_getElem?_getD, List.getElem?_eq_getElem hidx]
    rfl
  · intro pl q hq y b hb hout2
    refine hB pl y b (by rw [stride_of_plane dst pl q hq]; exact hb) ?_
    rintro ⟨i, -, -, q2, hq2, hy, hb2⟩
    rw [hq] at hq2
    simp only [Option.some.injEq] at hq2
    subst hq2
    omega

/-! ## NV12 and NV21 (C16) -/

theorem format_table_nv_order : ∀ e ∈ format_table, e.func = .write_nvxx_frame →
    e.order.length = 4 ∧ 0 ≤ e.order.getD 1 0 ∧ 0 ≤ e.order.getD 2 0 ∧
    (order_plane e.order 1 = 1 ∨ order_plane e.order 1 = 2) ∧
    (order_plane e.order 2 = 1 ∨ order_plane e.order 2 = 2) ∧
    order_plane e.order 1 ≠ order_plane e.order 2 := by
  decide

/-- C16.  For the rows of the format table bound to `write_nvxx_frame` (NV12 and
NV21), every even width `w = 2 * cw`, every destination frame whose plane 0 is `w`
by `h` and whose planes 1 and 2 are `cw` by `ch` (`ch` is `h / 2` in a frame of these
formats) with a common stride of at least `4 * ceil(cw / 4)` bytes, and every
payload `p` of `w * h + ch * w` bytes in a scratch buffer with 32 more bytes: the
writer returns,
the frame keeps its geometry, luma byte `(y, x)` is `p[y * w + x]`, byte `(y, x)` of
plane `order[1]` is `p[w * h + y * w + 2 * x]` and byte `(y, x)` of plane `order[2]`
is `p[w * h + y * w + 2 * x + 1]`.  The words are stored as on a little-endian
host. -/
theorem write_nvxx_frame_deinterleaves (e : FormatEntry) (rh : rs_hnd_t)
    (p slack : List Nat) (dst : VSFrameRef) (w h cw ch s1 : Nat) (p0 : Plane)
    (he : e ∈ format_table) (hf : e.func = .write_nvxx_frame)
    (hfunc : rh.write_frame = e.func) (horder : rh.order = e.order)
    (hw : w = 2 * cw)
    (hp : p.length = w * h + ch * w) (hslack : 32 ≤ slack.length)
    (hbytes : ∀ v ∈ p ++ slack, v < 256)
    (hp0 : dst.planes[0]? = some p0) (hw0 : p0.width = w) (hh0 : p0.height = h)
    (hs0 : w ≤ p0.stride) (hl0 : h * p0.stride ≤ p0.data.length)
    (hchroma : ∀ pl, pl = 1 ∨ pl = 2 →
      ∃ q, dst.planes[pl]? = some q ∧ q.width = cw ∧ q.height = ch ∧ q.stride = s1 ∧
        ch * s1 ≤ q.data.length)
    (hs1 : 4 * ((cw + 3) / 4) ≤ s1) :
    ∃ out, write_frame rh (p ++ slack) dst = .ret out ∧ out.shape = dst.shape ∧
      (∀ y x, y < h → x < w →
        ∃ v, p[y * w + x]? = some v ∧ out.byte 0 y x = some v) ∧
      (∀ y x, y < ch → x < cw →
        (∃ v, p[w * h + y * w + 2 * x]? = some v ∧
          out.byte (order_plane e.order 1) y x = some v) ∧
        (∃ v, p[w * h + y * w + 2 * x + 1]? = some v ∧
          out.byte (order_plane e.order 2) y x = some v)) := by
  obtain ⟨hlen, hn1, hn2, ho1, ho2, hd12⟩ := format_table_nv_order e he hf
  have hc : ∀ pl, pl = 1 ∨ pl = order_plane e.order 1 ∨ pl = order_plane e.order 2 →
      ∃ q, dst.planes[pl]? = some q ∧ q.width = cw ∧ q.height = ch ∧ q.stride = s1 ∧
        ch * s1 ≤ q.data.length := by
    intro pl hpl
    exact hchroma pl (by omega)
  obtain ⟨out, hout, hu⟩ := write_nvxx_frame_upd rh (p ++ slack) dst w h cw ch s1
    (order_plane e.order 1) (order_plane e.order 2) p0 hbytes hp0 hw0 hh0 hs0 hl0
    (by
      have := order_at_getD rh 1 (by rw [horder]; omega) (by rw [horder]; exact hn1)
      rw [horder] at this
      exact this)
    (by
      have := order_at_getD rh 2 (by rw [horder]; omega) (by rw [horder]; exact hn2)
      rw [horder] at this
      exact this)
    hd12 (by omega) (by omega) hc hs1 (by omega)
    (by rw [List.length_append, hp]; omega)
  refine ⟨out, by unfold write_frame; rw [hfunc, hf]; exact hout, hu.1, ?_, ?_⟩
  · intro y x hy hx
    have hrow := row_le y h w hy
    have hchw : h * w = w * h := Nat.mul_comm h w
    have hidx : y * w + x < p.length := by rw [hp]; omega
    refine ⟨_, getD_append_left p slack _ hidx, ?_⟩
    have hv := (hu.2 0 y x (by rw [stride_of_plane dst 0 p0 hp0]; omega)).1
      (Or.inl ⟨rfl, hy, hx⟩)
    simpa using hv
  · intro y x hy hx
    have hrow := row_le y ch w hy
    have hst : ∀ pl, pl = 1 ∨ pl = 2 → dst.stride pl = s1 := by
      intro pl hpl
      obtain ⟨q, hq, -, -, hqs, -⟩ := hchroma pl hpl
      rw [stride_of_plane dst pl q hq, hqs]
    constructor
    · have hidx : w * h + y * w + 2 * x < p.length := by rw [hp]; omega
      refine ⟨_, getD_append_left p slack _ hidx, ?_⟩
      have hv := (hu.2 (order_plane e.order 1) y x (by rw [hst _ ho1]; omega)).1
        (Or.inr ⟨Or.inl rfl, hy, by omega⟩)
      have hne : order_plane e.order 1 ≠ 0 := by omega
      simpa [hne] using hv
    · have hidx : w * h + y * w + 2 * x + 1 < p.length := by rw [hp]; omega
      refine ⟨_, getD_append_left p slack _ hidx, ?_⟩
      have hv := (hu.2 (order_plane e.order 2) y x (by rw [hst _ ho2]; omega)).1
        (Or.inr ⟨Or.inr rfl, hy, by omega⟩)
      have hne : order_plane e.order 2 ≠ 0 := by omega
      simpa [hne, hd12.symm] using hv

/-! ## Packed 4:2:2 (C18) -/

theorem format_table_yuv422_order : ∀ e ∈ format_table, e.func = .write_packed_yuv422 →
    e.order.length = 4 ∧
    (0 ≤ e.order.getD 0 0 ∧ 0 ≤ e.order.getD 1 0 ∧ 0 ≤ e.order.getD 2 0 ∧
      0 ≤ e.order.getD 3 0) ∧
    ((order_plane e.order 0 = 0 ∧ order_plane e.order 2 = 0 ∧
        ((order_plane e.order 1 = 1 ∧ order_plane e.order 3 = 2) ∨
          (order_plane e.order 1 = 2 ∧ order_plane e.order 3 = 1))) ∨
      (order_plane e.order 1 = 0 ∧ order_plane e.order 3 = 0 ∧
        ((order_plane e.order 0 = 1 ∧ order_plane e.order 2 = 2) ∨
          (order_plane e.order 0 = 2 ∧ order_plane e.order 2 = 1)))) := by
  decide

theorem order_getD_cast (order : List Int) (i : Nat) (h : 0 ≤ order.getD i 0) :
    order.getD i 0 = ((order_plane order i : Nat) : Int) := by
  unfold order_plane
  omega

theorem yuv422_value_slot (src : List Nat) (n : Nat → Nat) (base m k : Nat)
    (hpat : (n 0 = 0 ∧ n 2 = 0 ∧ ((n 1 = 1 ∧ n 3 = 2) ∨ (n 1 = 2 ∧ n 3 = 1))) ∨
      (n 1 = 0 ∧ n 3 = 0 ∧ ((n 0 = 1 ∧ n 2 = 2) ∨ (n 0 = 2 ∧ n 2 = 1))))
    (hk : k < 4) :
    yuv422_value src (n 0) (n 1) (n 2) base (n k) (if n k = 0 then 2 * m + k / 2 else m)
      = src.getD (base + 4 * m + k) 0 := by
  rcases hpat with ⟨a0, a2, (⟨a1, a3⟩ | ⟨a1, a3⟩)⟩ | ⟨a1, a3, (⟨a0, a2⟩ | ⟨a0, a2⟩)⟩ <;>
    interval_cases k <;>
    simp [yuv422_value, a0, a1, a2, a3, -List.getD_eq_getElem?_getD] <;>
    (congr 1; omega)

theorem yuv422_slot_pos (n : Nat → Nat) (m k w2 : Nat)
    (hpat : (n 0 = 0 ∧ n 2 = 0 ∧ ((n 1 = 1 ∧ n 3 = 2) ∨ (n 1 = 2 ∧ n 3 = 1))) ∨
      (n 1 = 0 ∧ n 3 = 0 ∧ ((n 0 = 1 ∧ n 2 = 2) ∨ (n 0 = 2 ∧ n 2 = 1))))
    (hk : k < 4) (hm : m < w2) :
    (n k = 0 ∧ (if n k = 0 then 2 * m + k / 2 else m) < 2 * w2) ∨
    (n k = 1 ∧ (if n k = 0 then 2 * m + k / 2 else m) < w2) ∨
    (n k = 2 ∧ (if n k = 0 then 2 * m + k / 2 else m) < w2) := by
  rcases hpat with ⟨a0, a2, (⟨a1, a3⟩ | ⟨a1, a3⟩)⟩ | ⟨a1, a3, (⟨a0, a2⟩ | ⟨a0, a2⟩)⟩ <;>
    interval_cases k <;>
    simp [a0, a1, a2, a3] <;>
    omega

/-- C18.  For every row of the format table bound to `write_packed_yuv422`, every
even width `w = 2 * w2`, every height `h`, every payload `p` of `2 * w * h` bytes
and every destination frame whose plane 0 is `w` bytes wide and whose planes 1 and 2
are `w2` bytes wide, with strides at least the widths and planes that hold `h` rows:
the writer returns, the frame keeps its geometry, byte `k` of macropixel `m` of row
`y` (payload byte `2 * w * y + 4 * m + k`) is in plane `order[k]`, at byte
`2 * m + k / 2` of row `y` when that plane is plane 0 and at byte `m` otherwise, and
every byte of the frame outside the first `h` rows of plane widths (the row padding)
is left as it was. -/
theorem write_packed_yuv422_deinterleaves (e : FormatEntry) (rh : rs_hnd_t)
    (p slack : List Nat) (dst : VSFrameRef) (w w2 h : Nat) (S : Nat → Nat)
    (he : e ∈ format_table) (hf : e.func = .write_packed_yuv422)
    (hfunc : rh.write_frame = e.func) (horder : rh.order = e.order)
    (hw : rh.vi.width = (w : Int)) (hw2 : w = 2 * w2) (hh : rh.vi.height = (h : Int))
    (hp : p.length = h * (2 * w))
    (hdst : ∀ i, i < 3 → ∃ q, dst.planes[i]? = some q ∧ q.stride = S i ∧
      h * S i ≤ q.data.length ∧ q.width = (if i = 0 then w else w2) ∧ q.width ≤ q.stride) :
    ∃ out, write_frame rh (p ++ slack) dst = .ret out ∧ out.shape = dst.shape ∧
      (∀ k y m, k < 4 → y < h → m < w2 →
        ∃ v, p[2 * w * y + 4 * m + k]? = some v ∧
          out.byte (order_plane e.order k) y
            (if order_plane e.order k = 0 then 2 * m + k / 2 else m) = some v) ∧
      (∀ pl q, dst.planes[pl]? = some q → ∀ y b, b < q.stride →
        h ≤ y ∨ q.width ≤ b → out.byte pl y b = dst.byte pl y b) := by
  obtain ⟨hlen, ⟨hn0, hn1, hn2, hn3⟩, hpat⟩ := format_table_yuv422_order e he hf
  subst hw2
  obtain ⟨out, hout, hu⟩ := write_packed_yuv422_upd rh (p ++ slack) dst w2 h
    (order_plane e.order 0) (order_plane e.order 1) (order_plane e.order 2)
    (order_plane e.order 3) S
    (by rw [hw]; omega) hh
    (by rw [horder]; exact order_getD_cast _ _ hn0)
    (by rw [horder]; exact order_getD_cast _ _ hn1)
    (by rw [horder]; exact order_getD_cast _ _ hn2)
    (by rw [horder]; exact order_getD_cast _ _ hn3)
    hpat hdst
    (by rw [List.length_append, hp, show 2 * (2 * w2) = 4 * w2 by omega]; omega)
  refine ⟨out, by unfold write_frame; rw [hfunc, hf]; exact hout, hu.1, ?_, ?_⟩
  · intro k y m hk hy hm
    have hrow := row_le y h (4 * w2) hy
    have hidx : 2 * (2 * w2) * y + 4 * m + k < p.length := by
      rw [hp, show 2 * (2 * w2) * y = y * (4 * w2) by ring,
        show h * (2 * (2 * w2)) = h * (4 * w2) by ring]
      omega
    refine ⟨_, getD_append_left p slack _ hidx, ?_⟩
    obtain ⟨q0, hq0, hqs0, -, hqw0, hqws0⟩ := hdst 0 (by omega)
    obtain ⟨q1, hq1, hqs1, -, hqw1, hqws1⟩ := hdst 1 (by omega)
    obtain ⟨q2, hq2, hqs2, -, hqw2, hqws2⟩ := hdst 2 (by omega)
    simp only [if_true] at hqw0
    simp only [Nat.one_ne_zero, if_false] at hqw1
    simp only [show (2 : Nat) ≠ 0 by omega, if_false] at hqw2
    have hst0 := stride_of_plane dst 0 q0 hq0
    have hst1 := stride_of_plane dst 1 q1 hq1
    have hst2 := stride_of_plane dst 2 q2 hq2
    have hbase : 2 * (2 * w2) * y = y * (4 * w2) := by ring
    rw [hbase]
    have hpos := yuv422_slot_pos (order_plane e.order) m k w2 hpat hk hm
    have hv := (hu.2 (order_plane e.order k) y
      (if order_plane e.order k = 0 then 2 * m + k / 2 else m)
      (by
        have hpos2 := hpos
        generalize (if order_plane e.order k = 0 then 2 * m + k / 2 else m) = col at hpos2 ⊢
        rcases hpos2 with ⟨h1, h2⟩ | ⟨h1, h2⟩ | ⟨h1, h2⟩ <;> rw [h1] <;> omega)).1 ⟨hy, hpos⟩
    rw [hv]
    exact congrArg some (yuv422_value_slot (p ++ slack) (order_plane e.order) _ m k hpat hk)
  · intro pl q hq y b hb hout2
    refine (hu.2 pl y b (by rw [stride_of_plane dst pl q hq]; exact hb)).2 ?_
    rintro ⟨hy, hc⟩
    have hq3 : ∀ i, i < 3 → pl = i → q.width = if i = 0 then 2 * w2 else w2 := by
      intro i hi hpi
      subst hpi
      obtain ⟨q2, hq2, -, -, hqw, -⟩ := hdst pl hi
      rw [hq] at hq2
      simp only [Option.some.injEq] at hq2
      subst hq2
      exact hqw
    rcases hc with ⟨rfl, hb2⟩ | ⟨rfl, hb2⟩ | ⟨rfl, hb2⟩
    · have := hq3 0 (by omega) rfl
      simp only [if_true] at this
      omega
    · have := hq3 1 (by omega) rfl
      simp only [Nat.one_ne_zero, if_false] at this
      omega
    · have := hq3 2 (by omega) rfl
      simp only [show (2 : Nat) ≠ 0 by omega, if_false] at this
      omega

/-! ## Decoded frames: concrete cases (C14, C16, C18) -/

/-- Witness for C14: `ARGB` frames 3 pixels wide and 2 high; channel 1 of pixel
`(2, 1)` is payload byte 22 and goes to the plane named by slot 2 of the order. -/
theorem write_packed_rgb_round_trip_witness :
    ∃ out, write_frame (session "ARGB" 3 2) (List.range 24 ++ List.replicate 32 0)
        (newVideoFrame ⟨3, 1, 0, 0⟩ 3 2 8) = .ret out ∧
      out.shape = (newVideoFrame ⟨3, 1, 0, 0⟩ 3 2 8).shape ∧
      ∃ v, (List.range 24)[1 * (4 * 3) + 4 * 2 + rgb_alpha (entry "ARGB").order + 1]? = some v ∧
        out.byte (rgb_plane (entry "ARGB").order 1) 1 2 = some v :=
  (write_packed_rgb_round_trip (entry "ARGB") (session "ARGB" 3 2) (List.range 24)
    (List.replicate 32 0) (newVideoFrame ⟨3, 1, 0, 0⟩ 3 2 8) 3 2 8 4 (by decide)
    (Or.inr ⟨by decide, rfl⟩) (by decide) (by decide) (by decide) (by decide) (by decide)
    (by decide) (by decide) (by decide) (by decide) (by decide)).imp
    fun _ h => ⟨h.1, h.2.1, h.2.2 1 1 2 (by decide) (by decide) (by decide)⟩

/-- Witness for C16: a 4 by 4 `NV21` frame; the first byte of the chroma pair
`(1, 1)` goes to plane 2. -/
theorem write_nvxx_frame_deinterleaves_witness :
    ∃ out, write_frame (session "NV21" 4 4) (List.range 24 ++ List.replicate 32 0)
        (newVideoFrame ⟨3, 1, 1, 1⟩ 4 4 8) = .ret out ∧
      out.shape = (newVideoFrame ⟨3, 1, 1, 1⟩ 4 4 8).shape ∧
      ∃ v, (List.range 24)[4 * 4 + 1 * 4 + 2 * 1]? = some v ∧
        out.byte (order_plane (entry "NV21").order 1) 1 1 = some v :=
  (write_nvxx_frame_deinterleaves (entry "NV21") (session "NV21" 4 4) (List.range 24)
    (List.replicate 32 0) (newVideoFrame ⟨3, 1, 1, 1⟩ 4 4 8) 4 4 2 2 8
    { width := 4, height := 4, stride := 8, data := List.replicate 32 0 }
    (by decide) (by decide) (by decide) (by decide) (by decide) (by decide) (by decide)
    (by decide) (by decide) (by decide) (by decide) (by decide) (by decide)
    (fun pl hpl => by
      rcases hpl with rfl | rfl <;> exact ⟨_, rfl, rfl, rfl, rfl, by decide⟩)
    (by decide)).imp
    fun _ h => ⟨h.1, h.2.1, (h.2.2.2 1 1 (by decide) (by decide)).1⟩

/-- Witness for C18: a 4 by 2 `UYVY` frame; byte 3 of macropixel 1 of row 1 is the
second luma sample of the pair and goes to byte 3 of row 1 of plane 0. -/
theorem write_packed_yuv422_deinterleaves_witness :
    ∃ out, write_frame (session "UYVY" 4 2) (List.range 16 ++ [])
        (newVideoFrame ⟨3, 1, 1, 0⟩ 4 2 8) = .ret out ∧
      out.shape = (newVideoFrame ⟨3, 1, 1, 0⟩ 4 2 8).shape ∧
      ∃ v, (List.range 16)[2 * 4 * 1 + 4 * 1 + 3]? = some v ∧
        out.byte (order_plane (entry "UYVY").order 3) 1
          (if order_plane (entry "UYVY").order 3 = 0 then 2 * 1 + 3 / 2 else 1) = some v :=
  (write_packed_yuv422_deinterleaves (entry "UYVY") (session "UYVY" 4 2) (List.range 16) []
    (newVideoFrame ⟨3, 1, 1, 0⟩ 4 2 8) 4 2 2 (fun _ => 8)
    (by decide) (by decide) (by decide) (by decide) (by decide) (by decide) (by decide)
    (by decide)
    (fun i hi => by
      interval_cases i <;> exact ⟨_, rfl, rfl, by decide, rfl, by decide⟩)).imp
    fun _ h => ⟨h.1, h.2.1, h.2.2.1 3 1 1 (by decide) (by decide) (by decide)⟩

/-! ## Concrete sessions and frames (C11, C12, C13, C17, C19, C20) -/

/-- C11 (failing input).  A header whose `C` tag has a value of 32 bytes: the `%s`
conversion stores 33 bytes in `char ctag[32]`, and `check_y4m` leaves defined
behaviour instead of falling back to the default format.  `get_format` itself maps
the same value to `YUV420P8`, and a value of 31 bytes is read and mapped to
`YUV420P8`. -/
theorem check_y4m_ctag_overrun :
    check_y4m long_ctag_handle = .undefined ∧
    get_format (List.replicate 32 120) = .ret (str "YUV420P8") ∧
    (check_y4m short_ctag_handle).bind (fun r => .ret (r.1, r.2.src_format))
      = .ret (0, str "YUV420P8") := by
  decide

/-- C12 (failing input).  Sessions that open with a payload size of 0: a headerless
file read with `width = 0` and frames one byte apart, and a file whose header has no
`W` tag.  With `width = 0` and no distance between frames the divisor of the frame
count is 0. -/
theorem create_source_zero_frame_size :
    create_source zero_width_args = .ret (.clip zero_width_opened) ∧
    zero_width_opened.frame_size = 0 ∧
    create_source (source_only no_width_handle.file) = .ret (.clip no_width_opened) ∧
    no_width_opened.frame_size = 0 ∧
    create_source { zero_width_args with off_frame := none } = .undefined := by
  decide

/-- C13 (failing input).  The rows `YUV411P8` and `YV411` have the same subsampling
factors, bits per pixel and writer and plane orders that differ by the exchange of
planes 1 and 2, but `check_args` gives them different presets (`pfYUV411P8` and
`pfYUV444P8`), so the frames have different formats: for a 4 by 1 frame and the same
buffer the chroma planes of one are 1 byte wide and those of the other 4 bytes wide,
the latter filled from 12 bytes of a payload of 6. -/
theorem check_args_yv411_preset :
    check_args (request "YUV411P8" 4 1) = .ret (none, session "YUV411P8" 4 1) ∧
    check_args (request "YV411" 4 1) = .ret (none, session "YV411" 4 1) ∧
    (entry "YUV411P8").subsample_h = (entry "YV411").subsample_h ∧
    (entry "YUV411P8").subsample_v = (entry "YV411").subsample_v ∧
    (entry "YUV411P8").bits_per_pix = (entry "YV411").bits_per_pix ∧
    (entry "YUV411P8").func = (entry "YV411").func ∧
    (entry "YUV411P8").order = [0, 1, 2, 9] ∧ (entry "YV411").order = [0, 2, 1, 9] ∧
    (session "YUV411P8" 4 1).vi.format = .pfYUV411P8 ∧
    (session "YV411" 4 1).vi.format = .pfYUV444P8 ∧
    (session "YUV411P8" 4 1).frame_size = 6 ∧ (session "YV411" 4 1).frame_size = 6 ∧
    write_frame (session "YUV411P8" 4 1) (List.range 38) (newVideoFrame ⟨3, 1, 2, 0⟩ 4 1 8)
      = .ret yuv411p8_4x1_decoded ∧
    write_frame (session "YV411" 4 1) (List.range 38) (newVideoFrame ⟨3, 1, 0, 0⟩ 4 1 8)
      = .ret yv411_4x1_decoded := by
  decide

/-- C17 (failing input).  `write_px1x_frame` takes the number of luma rows from the
width of plane 0.  For a 2 by 4 `P010` frame it copies 2 of the 4 luma rows and
reads the chroma pairs from byte 8 of the buffer, not from byte `2 * 2 * 4 = 16`;
for a 4 by 2 frame it copies 4 rows into a plane of 2 rows. -/
theorem write_px1x_frame_luma_rows :
    check_args (request "P010" 2 4) = .ret (none, session "P010" 2 4) ∧
    (session "P010" 2 4).frame_size = 24 ∧
    write_frame (session "P010" 2 4) (List.range 56) (newVideoFrame ⟨3, 2, 1, 1⟩ 2 4 8)
      = .ret p010_2x4_decoded ∧
    p010_2x4_decoded.byte 0 2 0 = some 0 ∧ p010_2x4_decoded.byte 1 0 0 = some 8 ∧
    check_args (request "P010" 4 2) = .ret (none, session "P010" 4 2) ∧
    write_frame (session "P010" 4 2) (List.range 56) (newVideoFrame ⟨3, 2, 1, 1⟩ 4 2 8)
      = .undefined := by
  decide

/-- C20 (failing input).  The row `YV411` has 12 bits per pixel and the preset
`pfYUV444P8`: for 4 by 6 frames `check_args` computes a payload of 36 bytes, and
`write_planar_frame` reads 72 bytes for the three 4 by 6 planes of the frame: with
71 bytes in the buffer it reads past its end, and so it does with the 36 + 32 bytes
allocated for a file of one frame. -/
theorem write_planar_frame_yv411_reads :
    check_args (request "YV411" 4 6) = .ret (none, session "YV411" 4 6) ∧
    (session "YV411" 4 6).frame_size = 36 ∧
    (session "YV411" 4 6).write_frame = .write_planar_frame ∧
    getFormatPreset (session "YV411" 4 6).vi.format = some ⟨3, 1, 0, 0⟩ ∧
    write_frame (session "YV411" 4 6) (List.range 68) (newVideoFrame ⟨3, 1, 0, 0⟩ 4 6 8)
      = .undefined ∧
    write_frame (session "YV411" 4 6) (List.range 71) (newVideoFrame ⟨3, 1, 0, 0⟩ 4 6 8)
      = .undefined ∧
    (write_frame (session "YV411" 4 6) (List.range 72) (newVideoFrame ⟨3, 1, 0, 0⟩ 4 6 8)).bind
      (fun out => .ret (out.byte 1 5 3)) = .ret (some 71) := by
  decide

/-- C19 (counterexample).  Two sessions that open with `off_header ≥ 0` and
`off_frame ≥ 0` and whose first indexed frame does not lie inside the file: the
payload size is `2^32 - 1` (from `width = -1`, or from a product of width, height
and bits per pixel that does not fit an `int`), the divisor `off_frame + frame_size`
wraps to a small `uint32_t`, and the frame count is positive. -/
theorem create_source_frame_past_end :
    create_source negative_width_args = .ret (.clip negative_width_opened) ∧
    0 ≤ negative_width_opened.off_header ∧ 0 ≤ negative_width_opened.off_frame ∧
    negative_width_opened.index[0]? = some 2 ∧
    negative_width_opened.file_size < 2 + negative_width_opened.frame_size ∧
    create_source (source_only overflow_file) = .ret (.clip overflow_opened) ∧
    0 ≤ overflow_opened.off_header ∧ 0 ≤ overflow_opened.off_frame ∧
    overflow_opened.index[0]? = some 41 ∧
    overflow_opened.file_size < 41 + overflow_opened.frame_size := by
  decide

/-! ## Indexed frames lie inside the file (C19) -/

theorem y4m_tag_W_keeps (buff : List Nat) (st : Y4mState) (fl : Flow)
    (h : y4m_tag_W buff st = .ret fl) : keeps_file st.rh fl.rh := by
  simp only [y4m_tag_W, Exec.bind_eq_ret] at h
  obtain ⟨m, -, h⟩ := h
  cases m
  · simp only [Bool.false_eq_true, if_false, Exec.ret.injEq] at h
    subst h; exact ⟨rfl, rfl, rfl⟩
  · simp only [if_true, Exec.bind_eq_ret] at h
    obtain ⟨v, -, h⟩ := h
    cases v <;>
    · dsimp only at h
      split at h <;>
      · simp only [Exec.ret.injEq] at h
        subst h; exact ⟨rfl, rfl, rfl⟩

theorem y4m_tag_H_keeps (buff : List Nat) (st : Y4mState) (fl : Flow)
    (h : y4m_tag_H buff st = .ret fl) : keeps_file st.rh fl.rh := by
  simp only [y4m_tag_H, Exec.bind_eq_ret] at h
  obtain ⟨m, -, h⟩ := h
  cases m
  · simp only [Bool.false_eq_true, if_false, Exec.ret.injEq] at h
    subst h; exact ⟨rfl, rfl, rfl⟩
  · simp only [if_true, Exec.bind_eq_ret] at h
    obtain ⟨v, -, h⟩ := h
    cases v <;>
    · dsimp only at h
      split at h <;>
      · simp only [Exec.ret.injEq] at h
        subst h; exact ⟨rfl, rfl, rfl⟩

theorem y4m_tag_F_keeps (buff : List Nat) (st : Y4mState) (fl : Flow)
    (h : y4m_tag_F buff st = .ret fl) : keeps_file st.rh fl.rh := by
  simp only [y4m_tag_F, Exec.bind_eq_ret] at h
  obtain ⟨m, -, h⟩ := h
  cases m
  · simp only [Bool.false_eq_true, if_false, Exec.ret.injEq] at h
    subst h; exact ⟨rfl, rfl, rfl⟩
  · simp only [if_true, Exec.bind_eq_ret] at h
    obtain ⟨v, -, h⟩ := h
    split at h <;>
    · simp only [Exec.ret.injEq] at h
      subst h; exact ⟨rfl, rfl, rfl⟩

theorem y4m_tag_I_keeps (buff : List Nat) (st : Y4mState) (fl : Flow)
    (h : y4m_tag_I buff st = .ret fl) : keeps_file st.rh fl.rh := by
  simp only [y4m_tag_I, Exec.bind_eq_ret] at h
  obtain ⟨m, -, h⟩ := h
  cases m
  · simp only [Bool.false_eq_true, if_false, Exec.ret.injEq] at h
    subst h; exact ⟨rfl, rfl, rfl⟩
  · simp only [if_true] at h
    split at h
    · simp at h
    · split at h <;>
      · simp only [Exec.ret.injEq] at h
        subst h; exact ⟨rfl, rfl, rfl⟩

theorem y4m_tag_C_keeps (buff : List Nat) (st : Y4mState) (fl : Flow)
    (h : y4m_tag_C buff st = .ret fl) : keeps_file st.rh fl.rh := by
  simp only [y4m_tag_C, Exec.bind_eq_ret] at h
  obtain ⟨m, -, h⟩ := h
  cases m
  · simp only [Bool.false_eq_true, if_false, Exec.ret.injEq] at h
    subst h; exact ⟨rfl, rfl, rfl⟩
  · simp only [if_true, Exec.bind_eq_ret] at h
    obtain ⟨v, -, f, -, h⟩ := h
    simp only [Exec.ret.injEq] at h
    subst h; exact ⟨rfl, rfl, rfl⟩

theorem y4m_end_check_keeps (st : Y4mState) (fl : Flow)
    (h : y4m_end_check st = .ret fl) : keeps_file st.rh fl.rh := by
  unfold y4m_end_check at h
  split at h <;>
  · simp only [Exec.ret.injEq] at h
    subst h; exact ⟨rfl, rfl, rfl⟩

theorem keeps_file.step {a b c : rs_hnd_t} (h1 : keeps_file a b) (h2 : keeps_file b c) :
    keeps_file a c :=
  ⟨h2.1.trans h1.1, h2.2.1.trans h1.2.1, h2.2.2.trans h1.2.2⟩

theorem Flow.andThen_keeps (x : Exec Flow) (f : Y4mState → Exec Flow) (rh : rs_hnd_t)
    (fl : Flow) (hx : ∀ fl1, x = .ret fl1 → keeps_file rh fl1.rh)
    (hf : ∀ st fl2, f st = .ret fl2 → keeps_file st.rh fl2.rh)
    (h : Flow.andThen x f = .ret fl) : keeps_file rh fl.rh := by
  simp only [Flow.andThen, Exec.bind_eq_ret] at h
  obtain ⟨fl1, h1, h⟩ := h
  cases fl1 with
  | leave code rh1 =>
    simp only [Exec.ret.injEq] at h
    subst h
    exact hx _ h1
  | next st1 => exact (hx _ h1).step (hf st1 fl h)

theorem y4m_body_keeps (buff : List Nat) (st : Y4mState) (fl : Flow)
    (h : y4m_body buff st = .ret fl) : keeps_file st.rh fl.rh := by
  unfold y4m_body at h
  refine Flow.andThen_keeps _ _ st.rh fl (fun fl5 h5 => ?_) (fun s f hh => y4m_end_check_keeps s f hh) h
  refine Flow.andThen_keeps _ _ st.rh fl5 (fun fl4 h4 => ?_) (y4m_tag_C_keeps buff) h5
  refine Flow.andThen_keeps _ _ st.rh fl4 (fun fl3 h3 => ?_) (y4m_tag_I_keeps buff) h4
  refine Flow.andThen_keeps _ _ st.rh fl3 (fun fl2 h2 => ?_) (y4m_tag_F_keeps buff) h3
  refine Flow.andThen_keeps _ _ st.rh fl2 (fun fl1 h1 => ?_) (y4m_tag_H_keeps buff) h2
  exact y4m_tag_W_keeps buff st fl1 h1

theorem y4m_after_keeps (buff : List Nat) (st : Y4mState) (r : Int × rs_hnd_t)
    (h : y4m_after buff st = .ret r) :
    r.2.file = st.rh.file ∧ r.2.file_size = st.rh.file_size ∧
      r.2.off_header = ((st.i + 1 : Nat) : Int) := by
  simp only [y4m_after, Exec.bind_eq_ret] at h
  obtain ⟨m, -, h⟩ := h
  split at h
  · simp only [Exec.ret.injEq] at h
    subst h; exact ⟨rfl, rfl, rfl⟩
  · split at h <;>
    · simp only [Exec.ret.injEq] at h
      subst h; exact ⟨rfl, rfl, rfl⟩

theorem y4m_loop_keeps (buff : List Nat) (hlen : buff.length ≤ 256) (fuel : Nat) :
    ∀ (st : Y4mState) (r : Int × rs_hnd_t), y4m_loop buff fuel st = .ret r →
      r.2.file = st.rh.file ∧ r.2.file_size = st.rh.file_size ∧
        (r.2.off_header = st.rh.off_header ∨ (0 ≤ r.2.off_header ∧ r.2.off_header ≤ 256)) := by
  induction fuel with
  | zero => intro st r h; simp [y4m_loop] at h
  | succ fuel ih =>
    intro st r h
    rw [y4m_loop_succ] at h
    cases hd : buff.drop st.i with
    | nil => rw [hd] at h; simp at h
    | cons c rest =>
      rw [hd] at h
      dsimp only at h
      have hi : st.i < buff.length := by
        by_contra hc
        rw [List.drop_eq_nil_of_le (by omega)] at hd
        simp at hd
      split at h
      · obtain ⟨h1, h2, h3⟩ := y4m_after_keeps buff st r h
        refine ⟨h1, h2, Or.inr ?_⟩
        rw [h3]
        omega
      · rw [Exec.bind_eq_ret] at h
        obtain ⟨fl, hb, h⟩ := h
        have hk := y4m_body_keeps buff st fl hb
        cases fl with
        | leave code rh1 =>
          simp only [Exec.ret.injEq] at h
          subst h
          exact ⟨hk.1, hk.2.1, Or.inl hk.2.2⟩
        | next st2 =>
          obtain ⟨h1, h2, h3⟩ := ih _ r h
          simp only [Flow.rh] at hk
          refine ⟨h1.trans hk.1, h2.trans hk.2.1, ?_⟩
          rcases h3 with h3 | h3
          · exact Or.inl (h3.trans hk.2.2)
          · exact Or.inr h3

theorem check_y4m_keeps (rh : rs_hnd_t) (r : Int × rs_hnd_t) (h : check_y4m rh = .ret r) :
    r.2.file = rh.file ∧ r.2.file_size = rh.file_size ∧
      (r.2.off_header = rh.off_header ∨ (0 ≤ r.2.off_header ∧ r.2.off_header ≤ 256)) := by
  simp only [check_y4m, Exec.bind_eq_ret] at h
  obtain ⟨m, -, h⟩ := h
  split at h
  · simp only [Exec.ret.injEq] at h
    subst h; exact ⟨rfl, rfl, Or.inl rfl⟩
  · exact y4m_loop_keeps _ (le_of_eq (fread256_length rh.file)) 257 _ r h

theorem check_args_keeps (rh rh2 : rs_hnd_t) (h : check_args rh = .ret (none, rh2)) :
    rh2.file = rh.file ∧ rh2.file_size = rh.file_size ∧ rh2.off_header = rh.off_header ∧
      rh2.off_frame = rh.off_frame ∧ 0 ≤ rh2.frame_size ∧ rh2.frame_size < 4294967296 := by
  simp only [check_args, Exec.bind_eq_ret] at h
  obtain ⟨e, -, h⟩ := h
  split at h
  · simp at h
  · split at h
    · simp at h
    · split at h
      · simp at h
      · simp only [Exec.ret.injEq, Prod.mk.injEq, true_and] at h
        subst h
        refine ⟨rfl, rfl, rfl, rfl, ?_, ?_⟩
        · exact Int.emod_nonneg _ (by decide)
        · exact Int.emod_lt_of_pos _ (by decide)

theorem create_source_args_keeps (a : Args) (rh rh2 : rs_hnd_t)
    (h : create_source_args a rh = .ret rh2) :
    rh2.file = rh.file ∧ rh2.file_size = rh.file_size ∧ rh2.off_header < 2147483648 := by
  simp only [create_source_args, Exec.bind_eq_ret] at h
  obtain ⟨f, -, h⟩ := h
  simp only [Exec.ret.injEq] at h
  subst h
  refine ⟨rfl, rfl, ?_⟩
  show set_args_int 0 a.off_header < 2147483648
  unfold set_args_int
  split
  · exact (wrap_i32_range _).2
  · decide

/-- What `create_source` has established when it counts the frames. -/
theorem create_source_clip_pre (a : Args) (rh : rs_hnd_t)
    (h : create_source a = .ret (.clip rh)) :
    ∃ rh0, create_source_frames rh0 = .ret (.clip rh) ∧
      rh0.file_size = (rh0.file.length : Int) ∧ 0 ≤ rh0.frame_size ∧
      rh0.frame_size < 4294967296 ∧ rh0.off_header < 2147483648 := by
  unfold create_source at h
  split at h
  · simp at h
  · rename_i file hsrc
    dsimp only at h
    split at h
    · simp at h
    · cases hy : check_y4m { rs_hnd_zero with file := file, file_size := (file.length : Int) } with
      | ret y =>
        rw [hy] at h
        simp only [Exec.bind] at h
        obtain ⟨k1, k2, k3⟩ := check_y4m_keeps _ y hy
        simp only at k1 k2 k3
        split at h
        · simp at h
        · split at h
          · simp at h
          · cases hb : (if y.1 > 0 then create_source_args a y.2 else Exec.ret y.2) with
            | ret r =>
              rw [hb] at h
              dsimp only at h
              have hr : r.file = file ∧ r.file_size = (file.length : Int) ∧
                  r.off_header < 2147483648 := by
                split at hb
                · obtain ⟨a1, a2, a3⟩ := create_source_args_keeps a y.2 r hb
                  exact ⟨a1.trans k1, a2.trans k2, a3⟩
                · simp only [Exec.ret.injEq] at hb
                  subst hb
                  refine ⟨k1, k2, ?_⟩
                  rcases k3 with k3 | k3
                  · rw [k3]; decide
                  · omega
              cases hca : check_args r with
              | ret ca =>
                rw [hca] at h
                dsimp only at h
                split at h
                · simp at h
                · rename_i hnone
                  have hca2 : check_args r = .ret (none, ca.2) := by
                    rw [hca, ← hnone]
                  obtain ⟨c1, c2, c3, c4, c5, c6⟩ := check_args_keeps r ca.2 hca2
                  refine ⟨ca.2, h, ?_, c5, c6, ?_⟩
                  · rw [c2, c1, hr.2.1, hr.1]
                  · rw [c3]; exact hr.2.2
              | undefined => rw [hca] at h; simp at h
              | nofuel => rw [hca] at h; simp at h
            | undefined => rw [hb] at h; simp at h
            | nofuel => rw [hb] at h; simp at h
      | undefined => rw [hy] at h; simp [Exec.bind] at h
      | nofuel => rw [hy] at h; simp [Exec.bind] at h

theorem create_source_frames_eq (rh0 rh : rs_hnd_t)
    (h : create_source_frames rh0 = .ret (.clip rh)) :
    ∃ n, count_frames rh0 = .ret n ∧ 1 ≤ n ∧
      rh = { rh0 with
        vi := { rh0.vi with numFrames := n },
        index := create_index_loop rh0.off_frame rh0.frame_size n.toNat rh0.off_header } := by
  cases hc : count_frames rh0 with
  | ret n =>
    rcases lt_or_le n 1 with hn | hn
    · rw [(create_source_frames_small rh0 n hc).mpr hn] at h
      simp at h
    · rw [create_source_frames_clip rh0 n hc hn] at h
      simp only [Exec.ret.injEq, Opened.clip.injEq] at h
      exact ⟨n, rfl, hn, h.symm⟩
  | undefined => simp [create_source_frames, hc, Exec.bind] at h
  | nofuel => simp [create_source_frames, hc, Exec.bind] at h

theorem count_frames_fit (rh : rs_hnd_t) (n : Int) (hc : count_frames rh = .ret n)
    (hn : 1 ≤ n) (hfs : 0 ≤ rh.file_size) (hoh : rh.off_header < 2147483648)
    (hD0 : 0 ≤ rh.off_frame + rh.frame_size) (hD1 : rh.off_frame + rh.frame_size < 4294967296) :
    n < 2147483648 ∧
    ∀ i : Nat, (i : Int) < n →
      ((i : Int) + 1) * (rh.off_frame + rh.frame_size) ≤ rh.file_size - rh.off_header := by
  have hd : wrap_u32 (rh.off_frame + rh.frame_size) = rh.off_frame + rh.frame_size :=
    wrap_u32_of_range _ hD0 hD1
  unfold count_frames at hc
  dsimp only at hc
  rw [hd] at hc
  split at hc
  · simp at hc
  · rename_i hne
    simp only [Exec.ret.injEq] at hc
    have hpos : 0 < rh.off_frame + rh.frame_size := by omega
    refine ⟨by rw [← hc]; exact (wrap_i32_range _).2, ?_⟩
    rcases le_or_lt 0 (rh.file_size - rh.off_header) with hN | hN
    · have ht := @Int.tdiv_eq_ediv (rh.file_size - rh.off_header)
        (rh.off_frame + rh.frame_size) hN (le_of_lt hpos)
      have hq0 : 0 ≤ (rh.file_size - rh.off_header) / (rh.off_frame + rh.frame_size) :=
        Int.ediv_nonneg hN (le_of_lt hpos)
      have hqD := Int.ediv_mul_le (rh.file_size - rh.off_header) hne
      rw [ht] at hc
      have hnq : n ≤ (rh.file_size - rh.off_header) / (rh.off_frame + rh.frame_size) := by
        rw [← hc]
        unfold wrap_i32
        omega
      intro i hi
      have h1 : (i : Int) + 1 ≤ (rh.file_size - rh.off_header) / (rh.off_frame + rh.frame_size) := by
        omega
      exact le_trans (Int.mul_le_mul_of_nonneg_right h1 (le_of_lt hpos)) hqD
    · exfalso
      have h1 : (rh.file_size - rh.off_header).tdiv (rh.off_frame + rh.frame_size)
          = -((-(rh.file_size - rh.off_header)) / (rh.off_frame + rh.frame_size)) := by
        rw [← @Int.tdiv_eq_ediv (-(rh.file_size - rh.off_header))
          (rh.off_frame + rh.frame_size) (by omega) (le_of_lt hpos), Int.neg_tdiv, neg_neg]
      have h2 : 0 ≤ (-(rh.file_size - rh.off_header)) / (rh.off_frame + rh.frame_size) :=
        Int.ediv_nonneg (by omega) (le_of_lt hpos)
      have h3 : (-(rh.file_size - rh.off_header)) / (rh.off_frame + rh.frame_size)
          ≤ -(rh.file_size - rh.off_header) :=
        Int.ediv_le_self _ (by omega)
      rw [h1, wrap_i32_of_range _ (by omega) (by omega)] at hc
      omega

/-- C19 (amended).  For every session `create_source` opens with `off_header ≥ 0`,
`off_frame ≥ 0`, a sum `off_frame + frame_size` below `2^32` (the divisor of the
frame count is a `uint32_t`) and a file size below `2^63`: for every `i < numFrames`
the index holds `index[i] = off_header + off_frame + i * (off_frame + frame_size)`,
with `index[i] ≥ 0`, `index[i] + frame_size ≤ file_size` and
`index[i] + frame_size ≤ index[i + 1]` when there is a next slot; and every request
`n ≥ 0`, clamped or not, reads a payload of exactly `frame_size` bytes and reaches
the frame writer. -/
theorem create_source_frames_inside {α : Type} (write_frame : rs_hnd_t → List Nat → α)
    (a : Args) (rh : rs_hnd_t) (hopen : create_source a = .ret (.clip rh))
    (hoh : 0 ≤ rh.off_header) (hof : 0 ≤ rh.off_frame)
    (hdiv : rh.off_frame + rh.frame_size < 4294967296)
    (hfs : rh.file_size < 9223372036854775808) :
    (∀ i : Nat, (i : Int) < rh.vi.numFrames →
      ∃ off, rh.index[i]? = some off ∧
        off = rh.off_header + rh.off_frame + (i : Int) * (rh.off_frame + rh.frame_size) ∧
        0 ≤ off ∧ off + rh.frame_size ≤ rh.file_size ∧
        ∀ off2, rh.index[i + 1]? = some off2 → off + rh.frame_size ≤ off2) ∧
    (∀ n : Int, 0 ≤ n →
      ∃ payload, rs_get_frame write_frame n 0 rh = .ret (some (write_frame rh payload)) ∧
        (payload.length : Int) = rh.frame_size) := by
  obtain ⟨rh0, h0, hfl, hz0, hz1, hoh1⟩ := create_source_clip_pre a rh hopen
  obtain ⟨n, hc, hn, rfl⟩ := create_source_frames_eq rh0 rh h0
  simp only at hoh hof hdiv hfs ⊢
  have hfs0 : 0 ≤ rh0.file_size := by rw [hfl]; exact Int.natCast_nonneg _
  obtain ⟨hn2, hfit⟩ := count_frames_fit rh0 n hc hn hfs0 hoh1 (by omega) hdiv
  have key : ∀ i : Nat, (i : Int) < n →
      (create_index_loop rh0.off_frame rh0.frame_size n.toNat rh0.off_header)[i]?
        = some (rh0.off_header + rh0.off_frame + (i : Int) * (rh0.off_frame + rh0.frame_size)) ∧
      0 ≤ rh0.off_header + rh0.off_frame + (i : Int) * (rh0.off_frame + rh0.frame_size) ∧
      rh0.off_header + rh0.off_frame + (i : Int) * (rh0.off_frame + rh0.frame_size)
        + rh0.frame_size ≤ rh0.file_size := by
    intro i hi
    have hf := hfit i hi
    have hmul : 0 ≤ (i : Int) * (rh0.off_frame + rh0.frame_size) :=
      Int.mul_nonneg (Int.natCast_nonneg _) (by omega)
    have hexp : ((i : Int) + 1) * (rh0.off_frame + rh0.frame_size)
        = (i : Int) * (rh0.off_frame + rh0.frame_size) + (rh0.off_frame + rh0.frame_size) := by
      ring
    rw [hexp] at hf
    refine ⟨?_, by omega, by omega⟩
    rw [create_index_loop_get _ _ _ _ i (by omega), wrap_i64_of_range _ (by omega) (by omega)]
  constructor
  · intro i hi
    obtain ⟨k1, k2, k3⟩ := key i hi
    refine ⟨_, k1, rfl, k2, k3, ?_⟩
    intro off2 h2
    by_cases hi2 : ((i + 1 : Nat) : Int) < n
    · obtain ⟨m1, -, -⟩ := key (i + 1) hi2
      rw [m1] at h2
      simp only [Option.some.injEq] at h2
      rw [← h2]
      push_cast
      have hexp : ((i : Int) + 1) * (rh0.off_frame + rh0.frame_size)
          = (i : Int) * (rh0.off_frame + rh0.frame_size)
            + (rh0.off_frame + rh0.frame_size) := by
        ring
      rw [hexp]
      omega
    · exfalso
      rw [List.getElem?_eq_none (by rw [create_index_loop_length]; omega)] at h2
      simp at h2
  · intro r hr
    have hnum : ∃ k : Nat, (k : Int) < n ∧
        rs_get_frame_number r { rh0 with
          vi := { rh0.vi with numFrames := n },
          index := create_index_loop rh0.off_frame rh0.frame_size n.toNat rh0.off_header }
          = (k : Int) := by
      unfold rs_get_frame_number
      dsimp only
      split
      · refine ⟨(n - 1).toNat, by omega, ?_⟩
        rw [wrap_i32_of_range _ (by omega) (by omega)]
        omega
      · exact ⟨r.toNat, by omega, by omega⟩
    obtain ⟨k, hk, hkn⟩ := hnum
    obtain ⟨k1, k2, k3⟩ := key k hk
    refine ⟨(rh0.file.drop (rh0.off_header + rh0.off_frame
      + (k : Int) * (rh0.off_frame + rh0.frame_size)).toNat).take rh0.frame_size.toNat, ?_, ?_⟩
    · unfold rs_get_frame rs_get_frame_offset
      dsimp only
      rw [hkn]
      simp only [ne_eq, not_true_eq_false, if_false, Int.toNat_ofNat, k1, Exec.bind_ret,
        show ¬ ((k : Int) < 0) by omega]
      rw [if_neg (by omega), if_neg]
      simp only [List.length_take, List.length_drop]
      omega
    · simp only [List.length_take, List.length_drop]
      omega

/-- Witness for C19: the two-frame file; its second frame starts at byte 6 and ends
at byte 12 of 13. -/
theorem create_source_frames_inside_witness :
    ∃ off, two_frame_handle.index[1]? = some off ∧
      off = two_frame_handle.off_header + two_frame_handle.off_frame
        + ((1 : Nat) : Int) * (two_frame_handle.off_frame + two_frame_handle.frame_size) ∧
      0 ≤ off ∧ off + two_frame_handle.frame_size ≤ two_frame_handle.file_size ∧
      ∀ off2, two_frame_handle.index[1 + 1]? = some off2 →
        off + two_frame_handle.frame_size ≤ off2 :=
  (create_source_frames_inside (fun _ p => p) two_frame_args two_frame_handle (by rfl)
    (by decide) (by decide) (by decide) (by decide)).1 1 (by decide)

/-! ## Subsampling factors of the format table (C21) -/

/-- C21 (code_bug).  The rows of the format table whose factors `subsample_h` and
`subsample_v` are not the chroma subsampling of the format of their preset are
`YV411` (factors 4 and 1 with the 4:4:4 preset `pfYUV444P8`), `YUV422P9`,
`YUV422P10`, `YUV422P16` (factors 2 and 2 with a 4:2:2 preset) and `YUV444P9`,
`YUV444P10`, `YUV444P16` (factors 2 and 2 with a 4:4:4 preset); the rows of the same
families with 8 bits have the factors of their preset.  So `check_args` refuses the
width 3 for `YUV444P16` and the height 3 for `YUV422P10`, which it accepts for
`YUV444P8` and `YUV422P8`. -/
theorem format_table_factors_mismatch :
    (format_table.filter (fun e => !e.factors_match)).map (fun e => e.format_name) =
      [str "YV411", str "YUV422P9", str "YUV422P10", str "YUV422P16",
       str "YUV444P9", str "YUV444P10", str "YUV444P16"] ∧
    ((entry "YV411").subsample_h, (entry "YV411").subsample_v) = (4, 1) ∧
    (getFormatPreset (entry "YV411").vsformat).map VSFormat.factors = some (1, 1) ∧
    ((entry "YUV422P10").subsample_h, (entry "YUV422P10").subsample_v) = (2, 2) ∧
    (getFormatPreset (entry "YUV422P10").vsformat).map VSFormat.factors = some (2, 1) ∧
    ((entry "YUV422P8").subsample_h, (entry "YUV422P8").subsample_v) = (2, 1) ∧
    ((entry "YUV444P16").subsample_h, (entry "YUV444P16").subsample_v) = (2, 2) ∧
    (getFormatPreset (entry "YUV444P16").vsformat).map VSFormat.factors = some (1, 1) ∧
    ((entry "YUV444P8").subsample_h, (entry "YUV444P8").subsample_v) = (1, 1) ∧
    check_args (request "YUV444P16" 3 3) =
      .ret (some "invalid width was specified", request "YUV444P16" 3 3) ∧
    check_args (request "YUV444P8" 3 3) = .ret (none, session "YUV444P8" 3 3) ∧
    check_args (request "YUV422P10" 2 3) =
      .ret (some "invalid height was specified", request "YUV422P10" 2 3) ∧
    check_args (request "YUV422P8" 2 3) = .ret (none, session "YUV422P8" 2 3) := by
  decide

/-! ## The byte order of YVYU (C22) -/

/-- C22 (code_bug).  The row `YVYU` of the format table has the order `0, 1, 0, 2`
of the row `YUY2`, while the rows `UYVY` and `VYUY` differ by the exchange of planes
1 and 2.  So a payload decodes as `YVYU` to the frame it decodes to as `YUY2`: for
the bytes `0, ..., 15` as a 4x2 frame, byte 1 of every macropixel is in plane 1 and
byte 3 in plane 2. -/
theorem write_packed_yuv422_yvyu_as_yuy2 :
    (entry "YVYU").order = [0, 1, 0, 2] ∧ (entry "YUY2").order = [0, 1, 0, 2] ∧
    (entry "UYVY").order = [1, 0, 2, 0] ∧ (entry "VYUY").order = [2, 0, 1, 0] ∧
    check_args (request "YVYU" 4 2) = .ret (none, session "YVYU" 4 2) ∧
    (session "YVYU" 4 2).frame_size = 16 ∧
    (∀ (w h : Int) (src : List Nat) (dst : VSFrameRef),
      write_frame (session "YVYU" w h) src dst = write_frame (session "YUY2" w h) src dst) ∧
    write_frame (session "YVYU" 4 2) (List.range 16) (newVideoFrame ⟨3, 1, 1, 0⟩ 4 2 8) =
      .ret { planes :=
        [{ width := 4, height := 2, stride := 8,
           data := [0, 2, 4, 6, 0, 0, 0, 0, 8, 10, 12, 14, 0, 0, 0, 0] },
         { width := 2, height := 2, stride := 8,
           data := [1, 5, 0, 0, 0, 0, 0, 0, 9, 13, 0, 0, 0, 0, 0, 0] },
         { width := 2, height := 2, stride := 8,
           data := [3, 7, 0, 0, 0, 0, 0, 0, 11, 15, 0, 0, 0, 0, 0, 0] }] } ∧
    write_frame (session "VYUY" 4 2) (List.range 16) (newVideoFrame ⟨3, 1, 1, 0⟩ 4 2 8) =
      .ret { planes :=
        [{ width := 4, height := 2, stride := 8,
           data := [1, 3, 5, 7, 0, 0, 0, 0, 9, 11, 13, 15, 0, 0, 0, 0] },
         { width := 2, height := 2, stride := 8,
           data := [2, 6, 0, 0, 0, 0, 0, 0, 10, 14, 0, 0, 0, 0, 0, 0] },
         { width := 2, height := 2, stride := 8,
           data := [0, 4, 0, 0, 0, 0, 0, 0, 8, 12, 0, 0, 0, 0, 0, 0] }] } := by
  refine ⟨by decide, by decide, by decide, by decide, by decide, by decide, ?_, by decide,
    by decide⟩
  intro w h src dst
  rfl

/-! ## Formats named by a header resolve (C23) -/

theorem get_format_table_rows : ∀ r ∈ get_format_table,
    (format_lookup (str r.2)).map (fun e => e.format_name) = some (str r.2) := by
  decide

theorem format_of_ctag_lookup (ctag : List Nat) :
    ∃ e, format_lookup (format_of_ctag ctag) = some e ∧ e ∈ format_table ∧
      e.format_name = format_of_ctag ctag ∧ e.vsformat ≠ .pfNone := by
  have key : ∀ n : List Nat,
      (format_lookup n).map (fun e => e.format_name) = some n →
      ∃ e, format_lookup n = some e ∧ e ∈ format_table ∧ e.format_name = n ∧
        e.vsformat ≠ .pfNone := by
    intro n hn
    cases he : format_lookup n with
    | none => rw [he] at hn; simp at hn
    | some e =>
      rw [he] at hn
      simp only [Option.map_some', Option.some.injEq] at hn
      have hm := (format_lookup_mem n e he).1
      exact ⟨e, rfl, hm, hn, format_table_vsformat e hm⟩
  unfold format_of_ctag
  cases h : get_format_table.find? (fun r => strcasecmp_eq ctag (str r.1)) with
  | none => exact key _ (by decide)
  | some r => exact key _ (get_format_table_rows r (List.mem_of_find?_eq_some h))

theorem format_of_ctag_length (ctag : List Nat) : (format_of_ctag ctag).length ≠ 0 := by
  obtain ⟨e, -, hm, hn, -⟩ := format_of_ctag_lookup ctag
  rw [← hn]
  have key : ∀ e ∈ format_table, e.format_name.length ≠ 0 := by decide
  exact key e hm

theorem keeps_format.chain {a b c : rs_hnd_t} (h1 : keeps_format a b) (h2 : keeps_format b c) :
    keeps_format a c := by
  rcases h2 with h2 | h2
  · rcases h1 with h1 | ⟨t, h1⟩
    · exact Or.inl (h2.trans h1)
    · exact Or.inr ⟨t, h2.trans h1⟩
  · exact Or.inr h2

theorem y4m_tag_W_format (buff : List Nat) (st : Y4mState) (fl : Flow)
    (h : y4m_tag_W buff st = .ret fl) : keeps_format st.rh fl.rh := by
  simp only [y4m_tag_W, Exec.bind_eq_ret] at h
  obtain ⟨m, -, h⟩ := h
  cases m
  · simp only [Bool.false_eq_true, if_false, Exec.ret.injEq] at h
    subst h; exact Or.inl rfl
  · simp only [if_true, Exec.bind_eq_ret] at h
    obtain ⟨v, -, h⟩ := h
    cases v <;>
    · dsimp only at h
      split at h <;>
      · simp only [Exec.ret.injEq] at h
        subst h; exact Or.inl rfl

theorem y4m_tag_H_format (buff : List Nat) (st : Y4mState) (fl : Flow)
    (h : y4m_tag_H buff st = .ret fl) : keeps_format st.rh fl.rh := by
  simp only [y4m_tag_H, Exec.bind_eq_ret] at h
  obtain ⟨m, -, h⟩ := h
  cases m
  · simp only [Bool.false_eq_true, if_false, Exec.ret.injEq] at h
    subst h; exact Or.inl rfl
  · simp only [if_true, Exec.bind_eq_ret] at h
    obtain ⟨v, -, h⟩ := h
    cases v <;>
    · dsimp only at h
      split at h <;>
      · simp only [Exec.ret.injEq] at h
        subst h; exact Or.inl rfl

theorem y4m_tag_F_format (buff : List Nat) (st : Y4mState) (fl : Flow)
    (h : y4m_tag_F buff st = .ret fl) : keeps_format st.rh fl.rh := by
  simp only [y4m_tag_F, Exec.bind_eq_ret] at h
  obtain ⟨m, -, h⟩ := h
  cases m
  · simp only [Bool.false_eq_true, if_false, Exec.ret.injEq] at h
    subst h; exact Or.inl rfl
  · simp only [if_true, Exec.bind_eq_ret] at h
    obtain ⟨v, -, h⟩ := h
    split at h <;>
    · simp only [Exec.ret.injEq] at h
      subst h; exact Or.inl rfl

theorem y4m_tag_I_format (buff : List Nat) (st : Y4mState) (fl : Flow)
    (h : y4m_tag_I buff st = .ret fl) : keeps_format st.rh fl.rh := by
  simp only [y4m_tag_I, Exec.bind_eq_ret] at h
  obtain ⟨m, -, h⟩ := h
  cases m
  · simp only [Bool.false_eq_true, if_false, Exec.ret.injEq] at h
    subst h; exact Or.inl rfl
  · simp only [if_true] at h
    split at h
    · simp at h
    · split at h <;>
      · simp only [Exec.ret.injEq] at h
        subst h; exact Or.inl rfl

theorem y4m_tag_C_format (buff : List Nat) (st : Y4mState) (fl : Flow)
    (h : y4m_tag_C buff st = .ret fl) : keeps_format st.rh fl.rh := by
  simp only [y4m_tag_C, Exec.bind_eq_ret] at h
  obtain ⟨m, -, h⟩ := h
  cases m
  · simp only [Bool.false_eq_true, if_false, Exec.ret.injEq] at h
    subst h; exact Or.inl rfl
  · simp only [if_true, Exec.bind_eq_ret] at h
    obtain ⟨v, -, f, hf, h⟩ := h
    simp only [Exec.ret.injEq] at h
    subst h
    rw [get_format_eq, Exec.ret.injEq] at hf
    exact Or.inr ⟨_, hf.symm⟩

theorem y4m_end_check_format (st : Y4mState) (fl : Flow)
    (h : y4m_end_check st = .ret fl) : keeps_format st.rh fl.rh := by
  unfold y4m_end_check at h
  split at h <;>
  · simp only [Exec.ret.injEq] at h
    subst h; exact Or.inl rfl

theorem Flow.andThen_format (x : Exec Flow) (f : Y4mState → Exec Flow) (rh : rs_hnd_t)
    (fl : Flow) (hx : ∀ fl1, x = .ret fl1 → keeps_format rh fl1.rh)
    (hf : ∀ st fl2, f st = .ret fl2 → keeps_format st.rh fl2.rh)
    (h : Flow.andThen x f = .ret fl) : keeps_format rh fl.rh := by
  simp only [Flow.andThen, Exec.bind_eq_ret] at h
  obtain ⟨fl1, h1, h⟩ := h
  cases fl1 with
  | leave code rh1 =>
    simp only [Exec.ret.injEq] at h
    subst h
    exact hx _ h1
  | next st1 => exact (hx _ h1).chain (hf st1 fl h)

theorem y4m_body_format (buff : List Nat) (st : Y4mState) (fl : Flow)
    (h : y4m_body buff st = .ret fl) : keeps_format st.rh fl.rh := by
  unfold y4m_body at h
  refine Flow.andThen_format _ _ st.rh fl (fun fl5 h5 => ?_) (fun s f hh => y4m_end_check_format s f hh) h
  refine Flow.andThen_format _ _ st.rh fl5 (fun fl4 h4 => ?_) (y4m_tag_C_format buff) h5
  refine Flow.andThen_format _ _ st.rh fl4 (fun fl3 h3 => ?_) (y4m_tag_I_format buff) h4
  refine Flow.andThen_format _ _ st.rh fl3 (fun fl2 h2 => ?_) (y4m_tag_F_format buff) h3
  refine Flow.andThen_format _ _ st.rh fl2 (fun fl1 h1 => ?_) (y4m_tag_H_format buff) h2
  exact y4m_tag_W_format buff st fl1 h1

theorem y4m_tag_W_code (buff : List Nat) (st : Y4mState) (code : Int) (rh : rs_hnd_t)
    (h : y4m_tag_W buff st = .ret (.leave code rh)) : code ≠ 0 := by
  simp only [y4m_tag_W, Exec.bind_eq_ret] at h
  obtain ⟨m, -, h⟩ := h
  cases m
  · simp at h
  · simp only [if_true, Exec.bind_eq_ret] at h
    obtain ⟨v, -, h⟩ := h
    cases v <;>
    · dsimp only at h
      split at h <;>
      · simp only [Exec.ret.injEq] at h
        cases h <;> decide

theorem y4m_tag_H_code (buff : List Nat) (st : Y4mState) (code : Int) (rh : rs_hnd_t)
    (h : y4m_tag_H buff st = .ret (.leave code rh)) : code ≠ 0 := by
  simp only [y4m_tag_H, Exec.bind_eq_ret] at h
  obtain ⟨m, -, h⟩ := h
  cases m
  · simp at h
  · simp only [if_true, Exec.bind_eq_ret] at h
    obtain ⟨v, -, h⟩ := h
    cases v <;>
    · dsimp only at h
      split at h <;>
      · simp only [Exec.ret.injEq] at h
        cases h <;> decide

theorem y4m_tag_F_code (buff : List Nat) (st : Y4mState) (code : Int) (rh : rs_hnd_t)
    (h : y4m_tag_F buff st = .ret (.leave code rh)) : code ≠ 0 := by
  simp only [y4m_tag_F, Exec.bind_eq_ret] at h
  obtain ⟨m, -, h⟩ := h
  cases m
  · simp at h
  · simp only [if_true, Exec.bind_eq_ret] at h
    obtain ⟨v, -, h⟩ := h
    split at h <;>
    · simp only [Exec.ret.injEq] at h
      cases h <;> decide

theorem y4m_tag_I_code (buff : List Nat) (st : Y4mState) (code : Int) (rh : rs_hnd_t)
    (h : y4m_tag_I buff st = .ret (.leave code rh)) : code ≠ 0 := by
  simp only [y4m_tag_I, Exec.bind_eq_ret] at h
  obtain ⟨m, -, h⟩ := h
  cases m
  · simp at h
  · simp only [if_true] at h
    split at h
    · simp at h
    · split at h <;>
      · simp only [Exec.ret.injEq] at h
        cases h <;> decide

theorem y4m_tag_C_code (buff : List Nat) (st : Y4mState) (code : Int) (rh : rs_hnd_t)
    (h : y4m_tag_C buff st = .ret (.leave code rh)) : code ≠ 0 := by
  simp only [y4m_tag_C, Exec.bind_eq_ret] at h
  obtain ⟨m, -, h⟩ := h
  cases m
  · simp at h
  · simp only [if_true, Exec.bind_eq_ret] at h
    obtain ⟨v, -, f, -, h⟩ := h
    simp at h

theorem y4m_end_check_code (st : Y4mState) (code : Int) (rh : rs_hnd_t)
    (h : y4m_end_check st = .ret (.leave code rh)) : code ≠ 0 := by
  unfold y4m_end_check at h
  split at h <;>
  · simp only [Exec.ret.injEq] at h
    cases h <;> decide

theorem Flow.andThen_code (x : Exec Flow) (f : Y4mState → Exec Flow) (code : Int)
    (rh : rs_hnd_t) (hx : ∀ c r, x = .ret (.leave c r) → c ≠ 0)
    (hf : ∀ st c r, f st = .ret (.leave c r) → c ≠ 0)
    (h : Flow.andThen x f = .ret (.leave code rh)) : code ≠ 0 := by
  simp only [Flow.andThen, Exec.bind_eq_ret] at h
  obtain ⟨fl1, h1, h⟩ := h
  cases fl1 with
  | leave c1 rh1 =>
    simp only [Exec.ret.injEq, Flow.leave.injEq] at h
    obtain ⟨hc, -⟩ := h
    subst hc
    exact hx _ _ h1
  | next st1 => exact hf st1 _ _ h

theorem y4m_body_code (buff : List Nat) (st : Y4mState) (code : Int) (rh : rs_hnd_t)
    (h : y4m_body buff st = .ret (.leave code rh)) : code ≠ 0 := by
  unfold y4m_body at h
  refine Flow.andThen_code _ _ code rh (fun c5 r5 h5 => ?_) (fun s c r hh => y4m_end_check_code s c r hh) h
  refine Flow.andThen_code _ _ c5 r5 (fun c4 r4 h4 => ?_) (y4m_tag_C_code buff) h5
  refine Flow.andThen_code _ _ c4 r4 (fun c3 r3 h3 => ?_) (y4m_tag_I_code buff) h4
  refine Flow.andThen_code _ _ c3 r3 (fun c2 r2 h2 => ?_) (y4m_tag_F_code buff) h3
  refine Flow.andThen_code _ _ c2 r2 (fun c1 r1 h1 => ?_) (y4m_tag_H_code buff) h2
  exact y4m_tag_W_code buff st c1 r1 h1

theorem y4m_after_format (buff : List Nat) (st : Y4mState) (r : rs_hnd_t)
    (h : y4m_after buff st = .ret (0, r)) :
    (st.rh.src_format = [] ∧ r.src_format = str "YUV420P8") ∨
      (st.rh.src_format ≠ [] ∧ r.src_format = st.rh.src_format) := by
  simp only [y4m_after, Exec.bind_eq_ret] at h
  obtain ⟨m, -, h⟩ := h
  split at h
  · simp only [Exec.ret.injEq, Prod.mk.injEq] at h
    exact absurd h.1 (by decide)
  · split at h
    · rename_i hl
      simp only [Exec.ret.injEq, Prod.mk.injEq, true_and] at h
      subst h
      exact Or.inl ⟨List.length_eq_zero.1 hl, rfl⟩
    · rename_i hl
      simp only [Exec.ret.injEq, Prod.mk.injEq, true_and] at h
      subst h
      exact Or.inr ⟨fun hc => hl (by rw [show st.rh.src_format = [] from hc]; rfl), rfl⟩

theorem y4m_loop_format (buff : List Nat) (fuel : Nat) :
    ∀ (st : Y4mState) (r : rs_hnd_t), y4m_loop buff fuel st = .ret (0, r) →
      (st.rh.src_format = [] ∨ ∃ t, st.rh.src_format = format_of_ctag t) →
      ∃ t, r.src_format = format_of_ctag t := by
  induction fuel with
  | zero => intro st r h; simp [y4m_loop] at h
  | succ fuel ih =>
    intro st r h hst
    rw [y4m_loop_succ] at h
    cases hd : buff.drop st.i with
    | nil => rw [hd] at h; simp at h
    | cons c rest =>
      rw [hd] at h
      dsimp only at h
      split at h
      · rcases y4m_after_format buff st r h with ⟨-, h2⟩ | ⟨h1, h2⟩
        · exact ⟨[], by rw [h2]; decide⟩
        · rcases hst with hst | ⟨t, hst⟩
          · exact absurd hst h1
          · exact ⟨t, h2.trans hst⟩
      · rw [Exec.bind_eq_ret] at h
        obtain ⟨fl, hb, h⟩ := h
        have hk := y4m_body_format buff st fl hb
        cases fl with
        | leave code rh1 =>
          simp only [Exec.ret.injEq, Prod.mk.injEq] at h
          exact absurd h.1 (y4m_body_code buff st code rh1 hb)
        | next st2 =>
          refine ih _ r h ?_
          simp only [Flow.rh] at hk
          rcases hk with hk | hk
          · rcases hst with hst | ⟨t, hst⟩
            · exact Or.inl (hk.trans hst)
            · exact Or.inr ⟨t, hk.trans hst⟩
          · exact Or.inr hk

theorem check_y4m_format (rh r : rs_hnd_t) (hinit : rh.src_format = [])
    (h : check_y4m rh = .ret (0, r)) : ∃ t, r.src_format = format_of_ctag t := by
  simp only [check_y4m, Exec.bind_eq_ret] at h
  obtain ⟨m, -, h⟩ := h
  split at h
  · simp only [Exec.ret.injEq, Prod.mk.injEq] at h
    exact absurd h.1 (by decide)
  · exact y4m_loop_format _ 257 _ r h (Or.inl hinit)

theorem check_args_supported (rh : rs_hnd_t) (e : FormatEntry)
    (h : format_lookup rh.src_format = some e) :
    ∃ msg r2, check_args rh = .ret (msg, r2) ∧ msg ≠ some "unsupported format" := by
  rw [check_args_some rh e h]
  split
  · exact ⟨_, _, rfl, by decide⟩
  · split
    · exact ⟨_, _, rfl, by decide⟩
    · exact ⟨_, _, rfl, by decide⟩

/-- C23.  Whatever the text of a `C` tag, `get_format` returns the name of a row of
the format table of `check_args` whose preset is not zero.  So when `check_y4m`
accepts a header on a handle whose format name was empty, the name it leaves in the
handle (the result of `get_format`, or the default `YUV420P8`) is the name of such
a row, the search of `check_args` finds that row, and `check_args` returns without
the message "unsupported format". -/
theorem check_y4m_format_supported (ctag : List Nat) (rh r : rs_hnd_t)
    (hinit : rh.src_format = []) (h : check_y4m rh = .ret (0, r)) :
    (∃ e ∈ format_table, get_format ctag = .ret e.format_name ∧
      format_lookup e.format_name = some e ∧ e.vsformat ≠ .pfNone) ∧
    (∃ e ∈ format_table, r.src_format = e.format_name ∧
      format_lookup r.src_format = some e ∧ e.vsformat ≠ .pfNone) ∧
    (∃ msg r2, check_args r = .ret (msg, r2) ∧ msg ≠ some "unsupported format") := by
  refine ⟨?_, ?_⟩
  · obtain ⟨e, h1, h2, h3, h4⟩ := format_of_ctag_lookup ctag
    refine ⟨e, h2, ?_, ?_, h4⟩
    · rw [get_format_eq, h3]
    · rw [h3]; exact h1
  · obtain ⟨t, ht⟩ := check_y4m_format rh r hinit h
    obtain ⟨e, h1, h2, h3, h4⟩ := format_of_ctag_lookup t
    rw [← ht] at h1 h3
    exact ⟨⟨e, h2, h3.symm, h1, h4⟩, check_args_supported r e h1⟩

/-- Witness for C23: the header of the test in the specification, and the tag text
`420p10`. -/
theorem check_y4m_format_supported_witness :
    y4m_example_handle.src_format = [] ∧
    check_y4m y4m_example_handle = .ret (0, y4m_example_read) ∧
    (∃ e ∈ format_table, get_format (str "420p10") = .ret e.format_name ∧
      format_lookup e.format_name = some e ∧ e.vsformat ≠ .pfNone) ∧
    (∃ e ∈ format_table, y4m_example_read.src_format = e.format_name ∧
      format_lookup y4m_example_read.src_format = some e ∧ e.vsformat ≠ .pfNone) ∧
    (∃ msg r2, check_args y4m_example_read = .ret (msg, r2) ∧
      msg ≠ some "unsupported format") :=
  ⟨by decide, by decide,
    check_y4m_format_supported (str "420p10") y4m_example_handle y4m_example_read
      (by decide) (by decide)⟩

/-! ## The frame index outside the range of `int64_t` (C2) -/

theorem rs_get_frame_at {α : Type} (write_frame : rs_hnd_t → List Nat → α) (n off : Int)
    (rh : rs_hnd_t) (hfs : 0 ≤ rh.frame_size) (hoff : rs_get_frame_offset n rh = .ret off) :
    rs_get_frame write_frame n 0 rh = .ret (frame_at write_frame rh off) := by
  simp only [rs_get_frame, hoff, Exec.bind, ne_eq, not_true_eq_false, if_false, frame_at]
  by_cases h0 : off < 0
  · simp [h0]
  · have hlen : ((rh.file.drop off.toNat).take rh.frame_size.toNat).length
        = min rh.frame_size.toNat (rh.file.length - off.toNat) := by
      simp [List.length_take, List.length_drop]
    have hiff : (((rh.file.drop off.toNat).take rh.frame_size.toNat).length : Int)
          < rh.frame_size ↔
        ((rh.file.length - off.toNat : Nat) : Int) < rh.frame_size := by
      rw [hlen]; omega
    simp only [h0, false_or, if_false, hiff]
    split <;> rfl

theorem create_source_frame_size (a : Args) (rh : rs_hnd_t)
    (h : create_source a = .ret (.clip rh)) : 0 ≤ rh.frame_size := by
  obtain ⟨rh0, h0, -, hfs, -, -⟩ := create_source_clip_pre a rh h
  obtain ⟨n, -, -, hrh⟩ := create_source_frames_eq rh0 rh h0
  rw [hrh]
  exact hfs

/-- C3.  For every session `create_source` opens and every `k ≥ 0`, a request for
frame `numFrames + k` uses the same file offset as a request for frame
`numFrames - 1`, returns the same result, and that result is the frame served from
the file offset `index[numFrames - 1]`; a request `0 ≤ n < numFrames` returns the
frame served from the file offset `index[n]`: what the frame writer makes of the
`frame_size` bytes of the file from that offset on (nothing when the file does not
hold them). -/
theorem rs_get_frame_clamp {α : Type} (write_frame : rs_hnd_t → List Nat → α) (a : Args)
    (rh : rs_hnd_t) (hopen : create_source a = .ret (.clip rh)) (activation_reason : Int) :
    (∀ k : Int, 0 ≤ k →
      rs_get_frame_offset (rh.vi.numFrames + k) rh
        = rs_get_frame_offset (rh.vi.numFrames - 1) rh ∧
      rs_get_frame write_frame (rh.vi.numFrames + k) activation_reason rh
        = rs_get_frame write_frame (rh.vi.numFrames - 1) activation_reason rh ∧
      ∃ off, rh.index[(rh.vi.numFrames - 1).toNat]? = some off ∧
        rs_get_frame write_frame (rh.vi.numFrames + k) 0 rh
          = .ret (frame_at write_frame rh off)) ∧
    (∀ n : Int, 0 ≤ n → n < rh.vi.numFrames →
      ∃ off, rh.index[n.toNat]? = some off ∧ rs_get_frame_offset n rh = .ret off ∧
        rs_get_frame write_frame n 0 rh = .ret (frame_at write_frame rh off)) := by
  obtain ⟨h1, h2, h3⟩ := create_source_clip_inv a rh hopen
  have hfs := create_source_frame_size a rh hopen
  have hin : ∀ n : Int, 0 ≤ n → n < rh.vi.numFrames →
      ∃ off, rh.index[n.toNat]? = some off ∧ rs_get_frame_offset n rh = .ret off := by
    intro n hn0 hn
    have hlt : n.toNat < rh.index.length := by omega
    have hb : ¬ (n ≥ rh.vi.numFrames) := by omega
    have hc : ¬ (n < 0) := by omega
    refine ⟨rh.index[n.toNat], List.getElem?_eq_getElem hlt, ?_⟩
    simp [rs_get_frame_offset, rs_get_frame_number, hb, hc, List.getElem?_eq_getElem hlt]
  constructor
  · intro k hk
    have hnum : rs_get_frame_number (rh.vi.numFrames + k) rh
        = rs_get_frame_number (rh.vi.numFrames - 1) rh := by
      have ha : rh.vi.numFrames + k ≥ rh.vi.numFrames := by omega
      have hb : ¬ (rh.vi.numFrames - 1 ≥ rh.vi.numFrames) := by omega
      simp only [rs_get_frame_number, ha, hb, if_true, if_false]
      exact wrap_i32_of_range _ (by omega) (by omega)
    have hoff : rs_get_frame_offset (rh.vi.numFrames + k) rh
        = rs_get_frame_offset (rh.vi.numFrames - 1) rh := by
      simp only [rs_get_frame_offset, hnum]
    obtain ⟨off, hidx, hlast⟩ := hin (rh.vi.numFrames - 1) (by omega) (by omega)
    exact ⟨hoff, by simp only [rs_get_frame, hoff], off, hidx,
      rs_get_frame_at write_frame _ off rh hfs (hoff.trans hlast)⟩
  · intro n hn0 hn
    obtain ⟨off, hidx, hlast⟩ := hin n hn0 hn
    exact ⟨off, hidx, hlast, rs_get_frame_at write_frame n off rh hfs hlast⟩

/-- Witness for C3: the file of the bytes 0, ..., 12 opens with two frames of 6
bytes; request 7 is served from `index[1] = 6` and returns the bytes 6, ..., 11,
request 0 is served from `index[0] = 0`. -/
theorem rs_get_frame_clamp_witness :
    create_source ramp_args = .ret (.clip ramp_handle) ∧
    (∃ off, ramp_handle.index[(ramp_handle.vi.numFrames - 1).toNat]? = some off ∧
      rs_get_frame (fun _ p => p) (ramp_handle.vi.numFrames + 5) 0 ramp_handle
        = .ret (frame_at (fun _ p => p) ramp_handle off)) ∧
    ramp_handle.index = [0, 6] ∧
    frame_at (fun _ p => p) ramp_handle 6 = some [6, 7, 8, 9, 10, 11] ∧
    frame_at (fun _ p => p) ramp_handle 0 = some [0, 1, 2, 3, 4, 5] ∧
    rs_get_frame (fun _ p => p) 7 0 ramp_handle = .ret (some [6, 7, 8, 9, 10, 11]) ∧
    rs_get_frame (fun _ p => p) 0 0 ramp_handle = .ret (some [0, 1, 2, 3, 4, 5]) :=
  ⟨by rfl, ((rs_get_frame_clamp (fun _ p => p) ramp_args ramp_handle (by rfl) 0).1 5
    (by decide)).2.2, by decide, by decide, by decide, by decide, by decide⟩

/-! ## Planar formats: the payload holds the source planes (C15) -/

theorem format_table_planar_size : ∀ e ∈ format_table, e.func = .write_planar_frame →
    e.format_name ≠ str "YV411" →
    0 < e.subsample_h ∧ 0 < e.subsample_v ∧ 0 < e.bits_per_pix ∧
    2 ^ ((getFormatPreset e.vsformat).getD ⟨0, 0, 0, 0⟩).subSamplingW ∣ e.subsample_h.toNat ∧
    2 ^ ((getFormatPreset e.vsformat).getD ⟨0, 0, 0, 0⟩).subSamplingH ∣ e.subsample_v.toNat ∧
    ((((getFormatPreset e.vsformat).getD ⟨0, 0, 0, 0⟩).numPlanes = 1 ∧
        8 * ((getFormatPreset e.vsformat).getD ⟨0, 0, 0, 0⟩).bytesPerSample
          ≤ e.bits_per_pix.toNat) ∨
      (((getFormatPreset e.vsformat).getD ⟨0, 0, 0, 0⟩).numPlanes = 3 ∧
        8 * ((getFormatPreset e.vsformat).getD ⟨0, 0, 0, 0⟩).bytesPerSample
            * (2 ^ ((getFormatPreset e.vsformat).getD ⟨0, 0, 0, 0⟩).subSamplingW
              * 2 ^ ((getFormatPreset e.vsformat).getD ⟨0, 0, 0, 0⟩).subSamplingH + 2)
          ≤ e.bits_per_pix.toNat
            * (2 ^ ((getFormatPreset e.vsformat).getD ⟨0, 0, 0, 0⟩).subSamplingW
              * 2 ^ ((getFormatPreset e.vsformat).getD ⟨0, 0, 0, 0⟩).subSamplingH))) := by
  decide

/-- The source planes of a frame of a format with one or three planes take no more
bytes than the payload of `w * h * B / 8` bytes, when `B` bits per pixel cover the
planes of the format. -/
theorem planar_offset_total (dst : VSFrameRef) (fmt : VSFormat) (ord : Nat → Nat)
    (w h B : Nat) (hplanes : dst.planes.length = fmt.numPlanes)
    (hgeom : ∀ pl q, dst.planes[pl]? = some q →
      q.width = (if pl = 0 then w else w >>> fmt.subSamplingW) ∧
      q.height = (if pl = 0 then h else h >>> fmt.subSamplingH))
    (hord : ∀ i, i < fmt.numPlanes → ord i < fmt.numPlanes)
    (hinj : ∀ i, i < fmt.numPlanes → ∀ j, j < fmt.numPlanes → ord i = ord j → i = j)
    (hdw : 2 ^ fmt.subSamplingW ∣ w) (hdh : 2 ^ fmt.subSamplingH ∣ h)
    (hcase : (fmt.numPlanes = 1 ∧ 8 * fmt.bytesPerSample ≤ B) ∨
      (fmt.numPlanes = 3 ∧
        8 * fmt.bytesPerSample * (2 ^ fmt.subSamplingW * 2 ^ fmt.subSamplingH + 2)
          ≤ B * (2 ^ fmt.subSamplingW * 2 ^ fmt.subSamplingH))) :
    planar_offset dst fmt.bytesPerSample ord fmt.numPlanes ≤ w * h * B / 8 := by
  obtain ⟨w1, rfl⟩ := hdw
  obtain ⟨h1, rfl⟩ := hdh
  have hsw : (2 ^ fmt.subSamplingW * w1) >>> fmt.subSamplingW = w1 := by
    rw [Nat.shiftRight_eq_div_pow, Nat.mul_div_cancel_left _ (Nat.pow_pos (by decide))]
  have hsh : (2 ^ fmt.subSamplingH * h1) >>> fmt.subSamplingH = h1 := by
    rw [Nat.shiftRight_eq_div_pow, Nat.mul_div_cancel_left _ (Nat.pow_pos (by decide))]
  rw [hsw, hsh] at hgeom
  have hps0 : 0 < fmt.numPlanes → dst.plane_size fmt.bytesPerSample 0
      = 2 ^ fmt.subSamplingW * w1 * fmt.bytesPerSample * (2 ^ fmt.subSamplingH * h1) := by
    intro h0
    obtain ⟨q, hq, -⟩ := plane_of_mem dst 0 (by omega)
    obtain ⟨g1, g2⟩ := hgeom 0 q hq
    simp only [if_true] at g1 g2
    simp only [VSFrameRef.plane_size, hq, g1, g2]
  have hps : ∀ pl, 0 < pl → pl < fmt.numPlanes → dst.plane_size fmt.bytesPerSample pl
      = w1 * fmt.bytesPerSample * h1 := by
    intro pl h0 hpl
    obtain ⟨q, hq, -⟩ := plane_of_mem dst pl (by omega)
    obtain ⟨g1, g2⟩ := hgeom pl q hq
    have hne : pl ≠ 0 := by omega
    simp only [hne, if_false] at g1 g2
    simp only [VSFrameRef.plane_size, hq, g1, g2]
  rw [Nat.le_div_iff_mul_le (by decide)]
  rcases hcase with ⟨hn, hb⟩ | ⟨hn, hb⟩
  · rw [hn] at hord hps0 ⊢
    have ho : ord 0 = 0 := by have := hord 0 (by omega); omega
    simp only [planar_offset, ho, hps0 (by omega), Nat.zero_add]
    calc 2 ^ fmt.subSamplingW * w1 * fmt.bytesPerSample * (2 ^ fmt.subSamplingH * h1) * 8
        = 2 ^ fmt.subSamplingW * w1 * (2 ^ fmt.subSamplingH * h1)
            * (8 * fmt.bytesPerSample) := by ring
      _ ≤ 2 ^ fmt.subSamplingW * w1 * (2 ^ fmt.subSamplingH * h1) * B :=
          Nat.mul_le_mul_left _ hb
  · rw [hn] at hord hinj hps0 hps ⊢
    have key : ∀ a b c : Nat, a < 3 → b < 3 → c < 3 → a ≠ b → a ≠ c → b ≠ c →
        dst.plane_size fmt.bytesPerSample a + dst.plane_size fmt.bytesPerSample b
          + dst.plane_size fmt.bytesPerSample c
        = dst.plane_size fmt.bytesPerSample 0 + dst.plane_size fmt.bytesPerSample 1
          + dst.plane_size fmt.bytesPerSample 2 := by
      intro a b c ha hb hc hab hac hbc
      interval_cases a <;> interval_cases b <;> interval_cases c <;> omega
    have h01 : ord 0 ≠ ord 1 := fun hh => by
      have := hinj 0 (by omega) 1 (by omega) hh; omega
    have h02 : ord 0 ≠ ord 2 := fun hh => by
      have := hinj 0 (by omega) 2 (by omega) hh; omega
    have h12 : ord 1 ≠ ord 2 := fun hh => by
      have := hinj 1 (by omega) 2 (by omega) hh; omega
    have hsum := key (ord 0) (ord 1) (ord 2) (hord 0 (by omega)) (hord 1 (by omega))
      (hord 2 (by omega)) h01 h02 h12
    simp only [planar_offset, Nat.zero_add, hsum, hps0 (by omega), hps 1 (by omega) (by omega),
      hps 2 (by omega) (by omega)]
    calc (2 ^ fmt.subSamplingW * w1 * fmt.bytesPerSample * (2 ^ fmt.subSamplingH * h1)
          + w1 * fmt.bytesPerSample * h1 + w1 * fmt.bytesPerSample * h1) * 8
        = w1 * h1 * (8 * fmt.bytesPerSample
            * (2 ^ fmt.subSamplingW * 2 ^ fmt.subSamplingH + 2)) := by ring
      _ ≤ w1 * h1 * (B * (2 ^ fmt.subSamplingW * 2 ^ fmt.subSamplingH)) :=
          Nat.mul_le_mul_left _ hb
      _ = 2 ^ fmt.subSamplingW * w1 * (2 ^ fmt.subSamplingH * h1) * B := by ring

/-- The payload size `check_args` computes, for a geometry whose bit count fits an
`int`. -/
theorem resolved_frame_size_nat (rh0 : rs_hnd_t) (e : FormatEntry) (w h : Nat)
    (hbpp : 0 < e.bits_per_pix)
    (hw : rh0.vi.width = (w : Int)) (hh : rh0.vi.height = (h : Int))
    (hfit : (w : Int) * (h : Int) * e.bits_per_pix < 2147483648) :
    (resolved rh0 e).frame_size = ((w * h * e.bits_per_pix.toNat / 8 : Nat) : Int) := by
  have hB : e.bits_per_pix = (e.bits_per_pix.toNat : Int) := (Int.toNat_of_nonneg (by omega)).symm
  show wrap_u32 (wrap_i32 (wrap_i32 (rh0.vi.width * rh0.vi.height) * e.bits_per_pix) / 8) = _
  rw [hw, hh]
  have hwh : (0 : Int) ≤ (w : Int) * h := by positivity
  have hle : (w : Int) * h ≤ (w : Int) * h * e.bits_per_pix := by nlinarith
  rw [wrap_i32_of_range ((w : Int) * h) (by omega) (by omega),
    wrap_i32_of_range ((w : Int) * h * e.bits_per_pix) (by omega) hfit]
  have hX : (w : Int) * h * e.bits_per_pix = ((w * h * e.bits_per_pix.toNat : Nat) : Int) := by
    rw [Nat.cast_mul, Nat.cast_mul, ← hB]
  rw [hX] at hfit ⊢
  generalize w * h * e.bits_per_pix.toNat = X at hfit ⊢
  rw [wrap_u32_of_range _ (by omega) (by omega)]
  omega

/-- C15 (code_bug).  First part: for every row of the format table bound to
`write_planar_frame` other than `YV411`, with `fmt` the format of its preset, every
width `w` and height `h` that `check_args` accepts for the row with
`w * h * bits_per_pix` representable in an `int`, every destination frame of that
format and geometry (plane 0 is `w` by `h`, the other planes are smaller by the
subsampling shifts, strides are at least a row and the planes hold their rows) and
every scratch buffer that starts with a payload `p` of the `frame_size` bytes
`check_args` computed: the writer returns, the frame keeps its geometry, byte `b` of
row `y` of plane `order[i]` is byte `y * row_size + b` of the `i`-th source plane of
the payload, the source planes following one another in `p`, and every byte of the
frame outside these rows (the padding between the end of a row and the stride) is
left as it was, whether or not the stride equals the row size.  Second part: for the
row `YV411` at 4 by 2 the payload has 12 bytes while the frame of its preset
`pfYUV444P8` has three planes of 8 bytes, so 12 of the 24 bytes the writer copies are
not bytes of the payload: plane 1 receives only bytes that follow the payload in the
scratch buffer (here 255). -/
theorem write_planar_frame_payload :
    (∀ (e : FormatEntry) (rh0 rh : rs_hnd_t) (p slack : List Nat) (dst : VSFrameRef)
        (fmt : VSFormat) (w h : Nat),
      format_lookup rh0.src_format = some e → e.func = .write_planar_frame →
      e.format_name ≠ str "YV411" →
      rh0.vi.width = (w : Int) → rh0.vi.height = (h : Int) →
      (w : Int) * (h : Int) * e.bits_per_pix < 2147483648 →
      check_args rh0 = .ret (none, rh) →
      getFormatPreset e.vsformat = some fmt →
      dst.planes.length = fmt.numPlanes →
      (∀ pl q, dst.planes[pl]? = some q →
        q.width = (if pl = 0 then w else w >>> fmt.subSamplingW) ∧
        q.height = (if pl = 0 then h else h >>> fmt.subSamplingH) ∧
        q.width * fmt.bytesPerSample ≤ q.stride ∧ q.height * q.stride ≤ q.data.length) →
      (p.length : Int) = rh.frame_size →
      ∃ out, write_frame rh (p ++ slack) dst = .ret out ∧ out.shape = dst.shape ∧
        (∀ i q, i < fmt.numPlanes → dst.planes[order_plane e.order i]? = some q →
          ∀ y b, y < q.height → b < q.width * fmt.bytesPerSample →
            ∃ v, p[planar_offset dst fmt.bytesPerSample (order_plane e.order) i
                + y * (q.width * fmt.bytesPerSample) + b]? = some v ∧
              out.byte (order_plane e.order i) y b = some v) ∧
        (∀ pl q, dst.planes[pl]? = some q → ∀ y b, b < q.stride →
          q.height ≤ y ∨ q.width * fmt.bytesPerSample ≤ b →
          out.byte pl y b = dst.byte pl y b)) ∧
    (check_args (request "YV411" 4 2) = .ret (none, session "YV411" 4 2) ∧
      (session "YV411" 4 2).write_frame = .write_planar_frame ∧
      (session "YV411" 4 2).frame_size = 12 ∧
      getFormatPreset (session "YV411" 4 2).vi.format = some ⟨3, 1, 0, 0⟩ ∧
      planar_offset (newVideoFrame ⟨3, 1, 0, 0⟩ 4 2 8) 1
        (order_plane (entry "YV411").order) 3 = 24 ∧
      write_frame (session "YV411" 4 2) (List.range 12 ++ List.replicate 32 255)
        (newVideoFrame ⟨3, 1, 0, 0⟩ 4 2 8) = .ret yv411_4x2_decoded ∧
      yv411_4x2_decoded.byte 1 0 0 = some 255) := by
  refine ⟨?_, by decide⟩
  intro e rh0 rh p slack dst fmt w h hlook hf hname hw hh hfit hca hfmt hplanes hgeom hp
  have he := (format_lookup_mem _ _ hlook).1
  have hsz := format_table_planar_size e he hf hname
  have hto := format_table_planar_order e he hf
  rw [hfmt] at hsz hto
  simp only [Option.getD_some] at hsz hto
  obtain ⟨hsh, hsv, hbpp, hdw2, hdh2, hcase⟩ := hsz
  obtain ⟨-, -, -, hord, hinj⟩ := hto
  -- what check_args accepted
  rw [check_args_some rh0 e hlook] at hca
  have hdw : e.subsample_h ∣ rh0.vi.width := by
    by_contra hc; simp [hc] at hca
  have hdh : e.subsample_v ∣ rh0.vi.height := by
    by_contra hc; simp [hdw, hc] at hca
  simp only [hdw, hdh, not_true_eq_false, if_false, Exec.ret.injEq, Prod.mk.injEq,
    true_and] at hca
  subst hca
  -- the factors and the bits per pixel as natural numbers
  have hB : e.bits_per_pix = (e.bits_per_pix.toNat : Int) := (Int.toNat_of_nonneg (by omega)).symm
  have hH : e.subsample_h = (e.subsample_h.toNat : Int) := (Int.toNat_of_nonneg (by omega)).symm
  have hV : e.subsample_v = (e.subsample_v.toNat : Int) := (Int.toNat_of_nonneg (by omega)).symm
  have hdwn : 2 ^ fmt.subSamplingW ∣ w := by
    rw [hw, hH] at hdw
    exact Nat.dvd_trans hdw2 (Int.natCast_dvd_natCast.1 hdw)
  have hdhn : 2 ^ fmt.subSamplingH ∣ h := by
    rw [hh, hV] at hdh
    exact Nat.dvd_trans hdh2 (Int.natCast_dvd_natCast.1 hdh)
  -- the payload size
  have hfs := resolved_frame_size_nat rh0 e w h hbpp hw hh hfit
  have hplen : p.length = w * h * e.bits_per_pix.toNat / 8 := by
    rw [hfs] at hp; exact Int.natCast_inj.1 hp
  have htotal := planar_offset_total dst fmt (order_plane e.order) w h e.bits_per_pix.toNat
    hplanes (fun pl q hq => ⟨(hgeom pl q hq).1, (hgeom pl q hq).2.1⟩)
    (fun i hi => (hord i hi).2) hinj hdwn hdhn hcase
  rw [← hplen] at htotal
  obtain ⟨out, hout, hshape, hA, hP⟩ := write_planar_frame_copies e (resolved rh0 e)
    (p ++ slack) dst fmt he hf rfl rfl rfl hfmt hplanes
    (fun q hq => by
      obtain ⟨pl, hpl⟩ := List.mem_iff_getElem?.1 hq
      exact (hgeom pl q hpl).2.2)
    (by rw [List.length_append]; omega)
  refine ⟨out, hout, hshape, ?_, hP⟩
  intro i q hi hq y b hy hb
  obtain ⟨v, hv, hbyte⟩ := hA i q hi hq y b hy hb
  refine ⟨v, ?_, hbyte⟩
  have hmono := planar_offset_mono dst fmt.bytesPerSample (order_plane e.order) (i + 1)
    fmt.numPlanes hi
  have hrow := row_le y q.height (q.width * fmt.bytesPerSample) hy
  have hidx : planar_offset dst fmt.bytesPerSample (order_plane e.order) i
      + y * (q.width * fmt.bytesPerSample) + b < p.length := by
    simp only [planar_offset, VSFrameRef.plane_size, hq] at hmono
    rw [Nat.mul_comm q.height] at hrow
    omega
  rw [← hv, List.getElem?_append_left hidx]

/-- Witness for C15: a 4 by 4 `YV12` session, the payload bytes 0, ..., 23 followed
by 32 more bytes in the scratch buffer, and a frame with strides of 8 bytes; byte 1
of row 1 of the second source plane goes to plane 2. -/
theorem write_planar_frame_payload_witness :
    check_args (request "YV12" 4 4) = .ret (none, session "YV12" 4 4) ∧
    ((List.range 24).length : Int) = (session "YV12" 4 4).frame_size ∧
    ∃ out, write_frame (session "YV12" 4 4) (List.range 24 ++ List.replicate 32 0)
        (newVideoFrame ⟨3, 1, 1, 1⟩ 4 4 8) = .ret out ∧
      out.shape = (newVideoFrame ⟨3, 1, 1, 1⟩ 4 4 8).shape ∧
      ∃ v, (List.range 24)[planar_offset (newVideoFrame ⟨3, 1, 1, 1⟩ 4 4 8) 1
            (order_plane (entry "YV12").order) 1 + 1 * (2 * 1) + 1]? = some v ∧
        out.byte (order_plane (entry "YV12").order 1) 1 1 = some v :=
  ⟨by decide, by decide,
    (write_planar_frame_payload.1 (entry "YV12") (request "YV12" 4 4) (session "YV12" 4 4)
      (List.range 24) (List.replicate 32 0) (newVideoFrame ⟨3, 1, 1, 1⟩ 4 4 8) ⟨3, 1, 1, 1⟩ 4 4
      (by decide) (by decide) (by decide) (by decide) (by decide) (by decide) (by decide)
      (by decide) (by decide)
      (fun pl q hq => by
        rcases pl with _ | _ | _ | pl
        · simp only [newVideoFrame] at hq
          cases hq
          decide
        · simp only [newVideoFrame] at hq
          cases hq
          decide
        · simp only [newVideoFrame] at hq
          cases hq
          decide
        · have hlen : (newVideoFrame ⟨3, 1, 1, 1⟩ 4 4 8).planes.length = 3 := by decide
          rw [List.getElem?_eq_none (by rw [hlen]; omega)] at hq
          cases hq)
      (by decide)).imp
    fun _ h => ⟨h.1, h.2.1,
      h.2.2.1 1 { width := 2, height := 2, stride := 8, data := List.replicate 16 0 }
        (by decide) (by decide) 1 1 (by decide) (by decide)⟩⟩

end RawSource
